import Mathlib

/-!
# SimpleFS file operations

A shallow embedding of `simplefs-ops.c`: the seven public operations
(`simplefs_create`, `simplefs_delete`, `simplefs_open`, `simplefs_close`,
`simplefs_read`, `simplefs_write`, `simplefs_seek`) and their two static
helpers, as functions on an explicit file-system state.

Conventions of the embedding.

* C `int` values are `Int`; arithmetic is exact (no wrap-around), `/` and `%`
  are the truncating `Int.tdiv` and `Int.tmod` of C.  Where a result depends on
  a sum of two `int`s staying inside the range of `int`, the theorem says so
  with `in_int_range`.
* A C array is a function from `Nat` indices; an `int` used as an index is
  converted with `Int.toNat` at the place where the source indexes.
* A C string (a file name) is the list of its characters before the
  terminating NUL; `strcmp(a, b) == 0` is equality of these lists.
* A caller's write buffer is a list of bytes (`buf[i]` is `buf.getD i 0`); the
  result of a read is the list of the bytes copied into the caller's buffer so
  far, in order.
* The two `while` loops are driven by a fuel argument, started at `nbytes`;
  `none` stands for "fuel exhausted", and is shown never to happen when
  `BLOCKSIZE` is positive (`read_returns`, `write_returns`).
* The constants of `simplefs-ops.h` are the fields of `Config`; the disk layer
  (`simplefs_readInode`, `simplefs_allocDataBlock`, ...) is not part of
  `simplefs-ops.c` and is modelled from the specification.
-/

namespace SimpleFS

/-- Modelled from the spec: the configuration constants of the missing header
`simplefs-ops.h` (total inode count, handle-table capacity, maximum blocks per
file, bytes per block, maximum file-name length) and the number of data blocks
managed by the allocator. -/
structure Config where
  BLOCKSIZE : Nat
  MAX_FILE_SIZE : Nat
  NUM_INODES : Nat
  NUM_DATA_BLOCKS : Nat
  MAX_OPEN_FILES : Nat
  MAX_NAME_STRLEN : Nat

/-- Modelled from the spec: the inode status, `status ∈ {free, in-use}`
(the constants `INODE_FREE` and `INODE_IN_USE` of the missing header). -/
inductive inode_status where
  | INODE_FREE
  | INODE_IN_USE
deriving DecidableEq, Repr

open inode_status

/-- Modelled from the spec: the inode record `struct inode_t` of the missing
header, with the four fields used by `simplefs-ops.c`. An unassigned direct
block reference is `-1`. -/
structure inode_t where
  status : inode_status
  name : List Char
  file_size : Int
  direct_blocks : Nat → Int

/-- Modelled from the spec: `struct filehandle_t` of the missing header.
An unbound handle has `inode_number = -1`. -/
structure filehandle_t where
  inode_number : Int
  offset : Int
deriving DecidableEq, Repr

/-- The state the operations act on: the persisted inode table, the block
store, the two free lists of the allocator (`true` = free) and the global
`file_handle_array`. -/
structure FS where
  inodes : Nat → inode_t
  inode_freelist : Nat → Bool
  data_blocks : Nat → Nat → Char
  datablock_freelist : Nat → Bool
  file_handle_array : Nat → filehandle_t

/-- The NUL byte. -/
def NUL : Char := Char.ofNat 0

/-! ## The disk layer (modelled from the specification) -/

/-- Modelled from the spec: the lowest index below `n` that a free list marks
free; the allocation policy of the missing `simplefs_allocInode` and
`simplefs_allocDataBlock` ("hands out the lowest free id"). -/
def lowest_free (free : Nat → Bool) : Nat → Option Nat
  | 0 => none
  | n + 1 =>
    match lowest_free free n with
    | some i => some i
    | none => if free n then some n else none

/-- Modelled from the spec: the missing `simplefs_readInode`,
`readInode(id) -> record`. -/
def simplefs_readInode (s : FS) (inodenum : Int) : inode_t :=
  s.inodes inodenum.toNat

/-- Modelled from the spec: the missing `simplefs_writeInode`,
`writeInode(id, record)`. -/
def simplefs_writeInode (s : FS) (inodenum : Int) (inode : inode_t) : FS :=
  { s with inodes := Function.update s.inodes inodenum.toNat inode }

/-- Modelled from the spec: the missing `simplefs_allocInode`,
`allocInode() -> id | exhausted`; it hands out the lowest free inode id and
removes it from the free list, or returns `-1`. -/
def simplefs_allocInode (cfg : Config) (s : FS) : Int × FS :=
  match lowest_free s.inode_freelist cfg.NUM_INODES with
  | some i => ((i : Int), { s with inode_freelist := Function.update s.inode_freelist i false })
  | none => (-1, s)

/-- Modelled from the spec: the missing `simplefs_freeInode`, `freeInode(id)`;
it returns the id to the free list and marks the record free ("frees the
inode id (status=free)"). -/
def simplefs_freeInode (s : FS) (inodenum : Int) : FS :=
  { s with
    inode_freelist := Function.update s.inode_freelist inodenum.toNat true,
    inodes := Function.update s.inodes inodenum.toNat
      { (s.inodes inodenum.toNat) with status := INODE_FREE } }

/-- Modelled from the spec: the missing `simplefs_readDataBlock`,
`readDataBlock(id) -> BLOCKSIZE bytes`. -/
def simplefs_readDataBlock (s : FS) (blocknum : Int) : Nat → Char :=
  s.data_blocks blocknum.toNat

/-- Modelled from the spec: the missing `simplefs_writeDataBlock`,
`writeDataBlock(id, bytes)`. -/
def simplefs_writeDataBlock (s : FS) (blocknum : Int) (block_buf : Nat → Char) : FS :=
  { s with data_blocks := Function.update s.data_blocks blocknum.toNat block_buf }

/-- Modelled from the spec: the missing `simplefs_allocDataBlock`,
`allocDataBlock() -> id | exhausted`; it hands out the lowest free block id
and removes it from the free list, or returns `-1`. -/
def simplefs_allocDataBlock (cfg : Config) (s : FS) : Int × FS :=
  match lowest_free s.datablock_freelist cfg.NUM_DATA_BLOCKS with
  | some b =>
    ((b : Int), { s with datablock_freelist := Function.update s.datablock_freelist b false })
  | none => (-1, s)

/-- Modelled from the spec: the missing `simplefs_freeDataBlock`,
`freeDataBlock(id)`; it returns the id to the free list. -/
def simplefs_freeDataBlock (s : FS) (blocknum : Int) : FS :=
  { s with datablock_freelist := Function.update s.datablock_freelist blocknum.toNat true }

/-- Modelled from the spec: the freshly formatted file system; all inodes
free, every block free and zeroed, all handles unbound. -/
def simplefs_formatDisk : FS where
  inodes := fun _ =>
    { status := INODE_FREE, name := [], file_size := 0, direct_blocks := fun _ => -1 }
  inode_freelist := fun _ => true
  data_blocks := fun _ _ => NUL
  datablock_freelist := fun _ => true
  file_handle_array := fun _ => { inode_number := -1, offset := 0 }

/-! ## `simplefs-ops.c` -/

/-- The `for` loop of `find_inode_by_name`, at index `i` with `k` iterations
left. -/
def find_inode_by_name_from (s : FS) (filename : List Char) : Nat → Nat → Int
  | _, 0 => -1
  | i, k + 1 =>
    if (simplefs_readInode s (i : Int)).status = INODE_IN_USE
        ∧ (simplefs_readInode s (i : Int)).name = filename then (i : Int)
    else find_inode_by_name_from s filename (i + 1) k

/-- Source: `find_inode_by_name`. -/
def find_inode_by_name (cfg : Config) (s : FS) (filename : List Char) : Int :=
  find_inode_by_name_from s filename 0 cfg.NUM_INODES

/-- The `for` loop of `find_free_filehandle`, at index `i` with `k` iterations
left. -/
def find_free_filehandle_from (s : FS) : Nat → Nat → Int
  | _, 0 => -1
  | i, k + 1 =>
    if (s.file_handle_array i).inode_number = -1 then (i : Int)
    else find_free_filehandle_from s (i + 1) k

/-- Source: `find_free_filehandle`. -/
def find_free_filehandle (cfg : Config) (s : FS) : Int :=
  find_free_filehandle_from s 0 cfg.MAX_OPEN_FILES

/-- Source: `simplefs_create`. The name is stored by
`strncpy(inode.name, filename, MAX_NAME_STRLEN)` followed by a NUL at index
`MAX_NAME_STRLEN - 1`, that is, its first `MAX_NAME_STRLEN - 1` characters. -/
def simplefs_create (cfg : Config) (s : FS) (filename : List Char) : Int × FS :=
  if find_inode_by_name cfg s filename ≠ -1 then (-1, s)
  else
    let r := simplefs_allocInode cfg s
    if r.1 = -1 then (-1, r.2)
    else
      let inode : inode_t :=
        { status := INODE_IN_USE,
          name := filename.take (cfg.MAX_NAME_STRLEN - 1),
          file_size := 0,
          direct_blocks := fun _ => -1 }
      (r.1, simplefs_writeInode r.2 r.1 inode)

/-- The block-freeing `for` loop of `simplefs_delete` over the indices
`0 .. n-1`, acting on the disk and on the local copy of the inode. -/
def delete_loop (s : FS) (inode : inode_t) : Nat → FS × inode_t
  | 0 => (s, inode)
  | i + 1 =>
    let r := delete_loop s inode i
    if r.2.direct_blocks i ≠ -1 then
      (simplefs_freeDataBlock r.1 (r.2.direct_blocks i),
        { (r.2) with direct_blocks := Function.update r.2.direct_blocks i (-1) })
    else r

/-- Source: `simplefs_delete`. The local copy of the inode, with its
references reset, is dropped: the source does not write it back. -/
def simplefs_delete (cfg : Config) (s : FS) (filename : List Char) : FS :=
  let inodenum := find_inode_by_name cfg s filename
  if inodenum = -1 then s
  else
    let inode := simplefs_readInode s inodenum
    let r := delete_loop s inode cfg.MAX_FILE_SIZE
    simplefs_freeInode r.1 inodenum

/-- Source: `simplefs_open`. -/
def simplefs_open (cfg : Config) (s : FS) (filename : List Char) : Int × FS :=
  let inodenum := find_inode_by_name cfg s filename
  if inodenum = -1 then (-1, s)
  else
    let handle := find_free_filehandle cfg s
    if handle = -1 then (-1, s)
    else
      let fh : filehandle_t := { inode_number := inodenum, offset := 0 }
      (handle, { s with
        file_handle_array := Function.update s.file_handle_array handle.toNat fh })

/-- Source: `simplefs_close`. -/
def simplefs_close (cfg : Config) (s : FS) (file_handle : Int) : FS :=
  if file_handle < 0 ∨ file_handle ≥ cfg.MAX_OPEN_FILES then s
  else
    let fh : filehandle_t := { inode_number := -1, offset := 0 }
    { s with file_handle_array := Function.update s.file_handle_array file_handle.toNat fh }

/-- The number of bytes handled by one iteration of the read and write loops:
`BLOCKSIZE - block_offset`, cut down to the bytes that remain. -/
def bytes_to_copy (cfg : Config) (block_offset remaining : Int) : Int :=
  if (cfg.BLOCKSIZE : Int) - block_offset > remaining then remaining
  else (cfg.BLOCKSIZE : Int) - block_offset

/-- The `while` loop of `simplefs_read`. The last argument is the part of the
caller's buffer filled so far, `buf[0 .. bytes_read)`. The result is the
return value of the function (`0` after the loop, `-1` from inside it) with
the bytes copied. -/
def read_loop (cfg : Config) (s : FS) (inode : inode_t) (nbytes : Int) :
    Nat → Int → Int → List Char → Option (Int × List Char)
  | 0, bytes_read, _, buf => if bytes_read < nbytes then none else some (0, buf)
  | fuel + 1, bytes_read, current_offset, buf =>
    if bytes_read < nbytes then
      let block_index := Int.tdiv current_offset cfg.BLOCKSIZE
      let block_offset := Int.tmod current_offset cfg.BLOCKSIZE
      let n := bytes_to_copy cfg block_offset (nbytes - bytes_read)
      if block_index ≥ cfg.MAX_FILE_SIZE ∨ inode.direct_blocks block_index.toNat = -1 then
        some (-1, buf)
      else
        let block_buf := simplefs_readDataBlock s (inode.direct_blocks block_index.toNat)
        let buf1 := buf ++ (List.range n.toNat).map (fun j => block_buf (block_offset.toNat + j))
        read_loop cfg s inode nbytes fuel (bytes_read + n) (current_offset + n) buf1
    else some (0, buf)

/-- Source: `simplefs_read`. Returns the return value and the bytes copied
into the caller's buffer; the state is not touched. -/
def simplefs_read (cfg : Config) (s : FS) (file_handle : Int) (nbytes : Int) :
    Option (Int × List Char) :=
  if file_handle < 0 ∨ file_handle ≥ cfg.MAX_OPEN_FILES then some (-1, [])
  else
    let inodenum := (s.file_handle_array file_handle.toNat).inode_number
    if inodenum = -1 then some (-1, [])
    else
      let inode := simplefs_readInode s inodenum
      let offset := (s.file_handle_array file_handle.toNat).offset
      if offset + nbytes > inode.file_size then some (-1, [])
      else read_loop cfg s inode nbytes nbytes.toNat 0 offset []

/-- The `memcpy(block_buf + block_offset, buf + bytes_written, bytes_to_copy)`
of `simplefs_write`. -/
def memcpy_into (block_buf : Nat → Char) (block_offset : Nat) (buf : List Char)
    (bytes_written n : Nat) : Nat → Char :=
  fun k =>
    if block_offset ≤ k ∧ k < block_offset + n then buf.getD (bytes_written + (k - block_offset)) NUL
    else block_buf k

/-- The local variables of `simplefs_write` that its loop changes, with the
disk: the local inode copy and the `newly_allocated` flags. -/
structure write_state where
  disk : FS
  inode : inode_t
  newly_allocated : Nat → Bool

/-- The `while` loop of `simplefs_write`. The result is `(true, st)` when the
loop runs to its end and `(false, st)` when it leaves through `goto fail`. -/
def write_loop (cfg : Config) (buf : List Char) (nbytes : Int) :
    Nat → Int → Int → write_state → Option (Bool × write_state)
  | 0, bytes_written, _, st => if bytes_written < nbytes then none else some (true, st)
  | fuel + 1, bytes_written, current_offset, st =>
    if bytes_written < nbytes then
      let block_index := Int.tdiv current_offset cfg.BLOCKSIZE
      let block_offset := Int.tmod current_offset cfg.BLOCKSIZE
      let n := bytes_to_copy cfg block_offset (nbytes - bytes_written)
      if block_index ≥ cfg.MAX_FILE_SIZE then some (false, st)
      else if st.inode.direct_blocks block_index.toNat = -1 then
        let r := simplefs_allocDataBlock cfg st.disk
        if r.1 = -1 then some (false, { st with disk := r.2 })
        else
          let block_buf := memcpy_into (fun _ => NUL) block_offset.toNat buf
            bytes_written.toNat n.toNat
          write_loop cfg buf nbytes fuel (bytes_written + n) (current_offset + n)
            { disk := simplefs_writeDataBlock r.2 r.1 block_buf,
              inode := { (st.inode) with
                direct_blocks := Function.update st.inode.direct_blocks block_index.toNat r.1 },
              newly_allocated := Function.update st.newly_allocated block_index.toNat true }
      else
        let blocknum := st.inode.direct_blocks block_index.toNat
        let block_buf := memcpy_into (simplefs_readDataBlock st.disk blocknum)
          block_offset.toNat buf bytes_written.toNat n.toNat
        write_loop cfg buf nbytes fuel (bytes_written + n) (current_offset + n)
          { st with disk := simplefs_writeDataBlock st.disk blocknum block_buf }
    else some (true, st)

/-- The rollback `for` loop after the label `fail` of `simplefs_write`, over
the indices `0 .. n-1`. -/
def rollback_loop (newly_allocated : Nat → Bool) (s : FS) (inode : inode_t) :
    Nat → FS × inode_t
  | 0 => (s, inode)
  | i + 1 =>
    let r := rollback_loop newly_allocated s inode i
    if newly_allocated i then
      (simplefs_freeDataBlock r.1 (r.2.direct_blocks i),
        { (r.2) with direct_blocks := Function.update r.2.direct_blocks i (-1) })
    else r

/-- Source: `simplefs_write`. Returns the return value and the state after
the call. The capacity check compares the exact sum `offset + nbytes`; it is
the comparison the source computes when that sum is representable as `int`
(`in_int_range`), which the theorems depending on the check assume. -/
def simplefs_write (cfg : Config) (s : FS) (file_handle : Int) (buf : List Char)
    (nbytes : Int) : Option (Int × FS) :=
  if file_handle < 0 ∨ file_handle ≥ cfg.MAX_OPEN_FILES then some (-1, s)
  else
    let inodenum := (s.file_handle_array file_handle.toNat).inode_number
    if inodenum = -1 then some (-1, s)
    else
      let inode := simplefs_readInode s inodenum
      let offset := (s.file_handle_array file_handle.toNat).offset
      if offset + nbytes > (cfg.MAX_FILE_SIZE : Int) * cfg.BLOCKSIZE then some (-1, s)
      else
        match write_loop cfg buf nbytes nbytes.toNat 0 offset
            { disk := s, inode := inode, newly_allocated := fun _ => false } with
        | none => none
        | some (true, st) =>
          let inode1 : inode_t :=
            if offset + nbytes > st.inode.file_size then
              { (st.inode) with file_size := offset + nbytes }
            else st.inode
          some (0, simplefs_writeInode st.disk inodenum inode1)
        | some (false, st) =>
          let r := rollback_loop st.newly_allocated st.disk st.inode cfg.MAX_FILE_SIZE
          some (-1, simplefs_writeInode r.1 inodenum r.2)

/-- Source: `simplefs_seek`. -/
def simplefs_seek (cfg : Config) (s : FS) (file_handle : Int) (nseek : Int) : Int × FS :=
  if file_handle < 0 ∨ file_handle ≥ cfg.MAX_OPEN_FILES then (-1, s)
  else
    let inodenum := (s.file_handle_array file_handle.toNat).inode_number
    if inodenum = -1 then (-1, s)
    else
      let inode := simplefs_readInode s inodenum
      let new_offset := (s.file_handle_array file_handle.toNat).offset + nseek
      if new_offset < 0 ∨ new_offset > inode.file_size then (-1, s)
      else
        let fh : filehandle_t :=
          { (s.file_handle_array file_handle.toNat) with offset := new_offset }
        (0, { s with
          file_handle_array := Function.update s.file_handle_array file_handle.toNat fh })

/-! ## Properties of states -/

/-- The number of blocks a file of `file_size` bytes needs,
`⌈file_size / BLOCKSIZE⌉`. -/
def blocks_needed (cfg : Config) (file_size : Int) : Int :=
  (file_size + cfg.BLOCKSIZE - 1) / cfg.BLOCKSIZE

/-- The number of assigned (not `-1`) direct block references of an inode. -/
def assigned_count (cfg : Config) (inode : inode_t) : Nat :=
  ((List.range cfg.MAX_FILE_SIZE).filter
    (fun j => decide (inode.direct_blocks j ≠ -1))).length

/-- The inode invariant of the data model: the number of assigned block
references is `⌈file_size / BLOCKSIZE⌉`, and the assigned references are
exactly those at the indices below that number. -/
def inode_invariant (cfg : Config) (inode : inode_t) : Prop :=
  (assigned_count cfg inode : Int) = blocks_needed cfg inode.file_size ∧
  ∀ j, j < cfg.MAX_FILE_SIZE →
    (inode.direct_blocks j ≠ -1 ↔ (j : Int) < blocks_needed cfg inode.file_size)

instance (cfg : Config) (inode : inode_t) : Decidable (inode_invariant cfg inode) := by
  unfold inode_invariant; infer_instance

/-- The byte at position `p` of the file described by `inode`: byte
`p % BLOCKSIZE` of the block referenced at index `p / BLOCKSIZE`. -/
def file_byte (cfg : Config) (s : FS) (inode : inode_t) (p : Nat) : Char :=
  s.data_blocks (inode.direct_blocks (p / cfg.BLOCKSIZE)).toNat (p % cfg.BLOCKSIZE)

/-- The assigned block references of an inode are pairwise distinct. -/
def blocks_distinct (cfg : Config) (inode : inode_t) : Prop :=
  ∀ i, i < cfg.MAX_FILE_SIZE → ∀ j, j < cfg.MAX_FILE_SIZE → i ≠ j →
    inode.direct_blocks i ≠ -1 → inode.direct_blocks j ≠ -1 →
    (inode.direct_blocks i).toNat ≠ (inode.direct_blocks j).toNat

instance (cfg : Config) (inode : inode_t) : Decidable (blocks_distinct cfg inode) :=
  Nat.decidableBallLT _ (fun i _ => ∀ j, j < cfg.MAX_FILE_SIZE → i ≠ j →
    inode.direct_blocks i ≠ -1 → inode.direct_blocks j ≠ -1 →
    (inode.direct_blocks i).toNat ≠ (inode.direct_blocks j).toNat)

/-- No block referenced by the inode is on the allocator's free list, so the
allocator never hands out a block the inode already references. -/
def blocks_not_free (cfg : Config) (s : FS) (inode : inode_t) : Prop :=
  ∀ j, j < cfg.MAX_FILE_SIZE → inode.direct_blocks j ≠ -1 →
    s.datablock_freelist (inode.direct_blocks j).toNat = false

instance (cfg : Config) (s : FS) (inode : inode_t) :
    Decidable (blocks_not_free cfg s inode) := by
  unfold blocks_not_free; infer_instance

/-- The chunk length of one loop iteration on natural numbers: position `c`,
`rem` bytes left. -/
def chunk (B c rem : Nat) : Nat := min (B - c % B) rem

/-! ## Concrete configurations and states -/

/-- The configuration of the scenarios: `BLOCKSIZE = 4`, `MAX_FILE_SIZE = 2`
(capacity 8 bytes). -/
def scenario_cfg : Config where
  BLOCKSIZE := 4
  MAX_FILE_SIZE := 2
  NUM_INODES := 4
  NUM_DATA_BLOCKS := 8
  MAX_OPEN_FILES := 4
  MAX_NAME_STRLEN := 8

/-- The state component of an optional `(return value, state)` result. -/
def state_of (r : Option (Int × FS)) (dflt : FS) : FS := (r.map Prod.snd).getD dflt

/-- Scenario: after `create("a")` on the fresh file system. -/
def scn1 : FS := (simplefs_create scenario_cfg simplefs_formatDisk "a".toList).2

/-- Scenario: after `open("a")`. -/
def scn2 : FS := (simplefs_open scenario_cfg scn1 "a".toList).2

/-- Scenario: after `write(0, "abcdef", 6)`. -/
def scn3 : FS := state_of (simplefs_write scenario_cfg scn2 0 "abcdef".toList 6) scn2

/-- Scenario: after `seek(0, -6)`. -/
def scn4 : FS := (simplefs_seek scenario_cfg scn3 0 (-6)).2

/-- Scenario: after `write(0, "XY", 2)`. -/
def scn5 : FS := state_of (simplefs_write scenario_cfg scn4 0 "XY".toList 2) scn4

/-- The first `n` bytes of a block of the block store. -/
def block_bytes (s : FS) (blocknum : Int) (n : Nat) : List Char :=
  (List.range n).map (simplefs_readDataBlock s blocknum)

/-! ## Loop invariants used in the proofs -/

/-- What the loop of `simplefs_write` keeps true, relative to the disk `s0` and
the inode copy `ino0` it started from: it touches neither the inode table, the
inode free list nor the handle table; the local inode keeps status, name and
size; a slot flagged in `newly_allocated` was unassigned before and now holds a
block that was free at the start and has been taken from the free list; a slot
not flagged is unchanged; and the free list differs from the initial one only
at the blocks of the flagged slots. -/
def rollback_inv (cfg : Config) (s0 : FS) (ino0 : inode_t) (st : write_state) : Prop :=
  st.disk.inodes = s0.inodes ∧ st.disk.inode_freelist = s0.inode_freelist
  ∧ st.disk.file_handle_array = s0.file_handle_array
  ∧ st.inode.status = ino0.status ∧ st.inode.name = ino0.name
  ∧ st.inode.file_size = ino0.file_size
  ∧ (∀ j, st.newly_allocated j = true →
      j < cfg.MAX_FILE_SIZE ∧ ino0.direct_blocks j = -1 ∧ 0 ≤ st.inode.direct_blocks j
      ∧ s0.datablock_freelist (st.inode.direct_blocks j).toNat = true
      ∧ st.disk.datablock_freelist (st.inode.direct_blocks j).toNat = false)
  ∧ (∀ j, st.newly_allocated j = false → st.inode.direct_blocks j = ino0.direct_blocks j)
  ∧ (∀ b, (∀ j, st.newly_allocated j = true → (st.inode.direct_blocks j).toNat ≠ b) →
      st.disk.datablock_freelist b = s0.datablock_freelist b)

/-- A configuration with a single data block: `BLOCKSIZE = 4`,
`MAX_FILE_SIZE = 2`, `NUM_DATA_BLOCKS = 1`. -/
def tight_cfg : Config where
  BLOCKSIZE := 4
  MAX_FILE_SIZE := 2
  NUM_INODES := 2
  NUM_DATA_BLOCKS := 1
  MAX_OPEN_FILES := 2
  MAX_NAME_STRLEN := 8

/-- With `tight_cfg`: the fresh file system after `create("a")` and
`open("a")`; handle 0 is bound to the empty file of inode 0. -/
def tight1 : FS :=
  (simplefs_open tight_cfg (simplefs_create tight_cfg simplefs_formatDisk "a".toList).2
    "a".toList).2

/-- With `tight_cfg`: the state after the failed `write(0, "abcdef", 6)` on
`tight1`, which needs two blocks where one exists. -/
def tight2 : FS := state_of (simplefs_write tight_cfg tight1 0 "abcdef".toList 6) tight1

/-- What the loop of `simplefs_write` has achieved after `w` bytes, started at
file position `o` on disk `s0` with inode copy `ino0`, when the blocks of the
inode are exclusively its own: the references stay pairwise distinct and off
the free list, assigned references are kept, the positions `o .. o+w-1` lie in
assigned blocks and hold the first `w` bytes of `buf`, every other position of
a block that was assigned before holds what it held, and every other position
of a block assigned since holds NUL. -/
def content_inv (cfg : Config) (buf : List Char) (n : Int) (s0 : FS) (ino0 : inode_t)
    (o w c : Nat) (st : write_state) : Prop :=
  c = o + w ∧ w ≤ n.toNat
  ∧ blocks_distinct cfg st.inode ∧ blocks_not_free cfg st.disk st.inode
  ∧ (∀ j, j < cfg.MAX_FILE_SIZE → ino0.direct_blocks j ≠ -1 →
      st.inode.direct_blocks j = ino0.direct_blocks j)
  ∧ (∀ p, o ≤ p → p < o + w →
      p / cfg.BLOCKSIZE < cfg.MAX_FILE_SIZE ∧ st.inode.direct_blocks (p / cfg.BLOCKSIZE) ≠ -1
      ∧ file_byte cfg st.disk st.inode p = buf.getD (p - o) NUL)
  ∧ (∀ p, p / cfg.BLOCKSIZE < cfg.MAX_FILE_SIZE → ino0.direct_blocks (p / cfg.BLOCKSIZE) ≠ -1 →
      ¬ (o ≤ p ∧ p < o + w) → file_byte cfg st.disk st.inode p = file_byte cfg s0 ino0 p)
  ∧ (∀ p, p / cfg.BLOCKSIZE < cfg.MAX_FILE_SIZE → ino0.direct_blocks (p / cfg.BLOCKSIZE) = -1 →
      st.inode.direct_blocks (p / cfg.BLOCKSIZE) ≠ -1 →
      ¬ (o ≤ p ∧ p < o + w) → file_byte cfg st.disk st.inode p = NUL)

/-- A state over `scenario_cfg` in which both direct block references of
inode 0 name block 3: the file "a" of 8 bytes, open at handle 0 with offset 0.
The inode invariant holds (two assigned references for 8 bytes) and block 3 is
off the free list. -/
def alias_state : FS where
  inodes := fun i =>
    if i = 0 then
      { status := INODE_IN_USE, name := "a".toList, file_size := 8,
        direct_blocks := fun j => if j < 2 then 3 else -1 }
    else { status := INODE_FREE, name := [], file_size := 0, direct_blocks := fun _ => -1 }
  inode_freelist := fun i => decide (i ≠ 0)
  data_blocks := fun _ _ => NUL
  datablock_freelist := fun b => decide (b ≠ 3)
  file_handle_array := fun k =>
    if k = 0 then { inode_number := 0, offset := 0 } else { inode_number := -1, offset := 0 }

/-- The state after `write(0, "abcdefgh", 8)` on `alias_state`. -/
def alias_after : FS :=
  state_of (simplefs_write scenario_cfg alias_state 0 "abcdefgh".toList 8) alias_state

/-- A state over `scenario_cfg` in which the free list still offers block 3,
the block referenced by inode 0: the file "a" of 4 bytes, open at handle 0 with
offset 0; blocks 0, 1 and 2 are taken, so block 3 is the lowest free id. -/
def stale_state : FS where
  inodes := fun i =>
    if i = 0 then
      { status := INODE_IN_USE, name := "a".toList, file_size := 4,
        direct_blocks := fun j => if j = 0 then 3 else -1 }
    else { status := INODE_FREE, name := [], file_size := 0, direct_blocks := fun _ => -1 }
  inode_freelist := fun i => decide (i ≠ 0)
  data_blocks := fun _ _ => NUL
  datablock_freelist := fun b => decide (3 ≤ b)
  file_handle_array := fun k =>
    if k = 0 then { inode_number := 0, offset := 0 } else { inode_number := -1, offset := 0 }

/-- The state after `write(0, "abcdefgh", 8)` on `stale_state`. -/
def stale_after : FS :=
  state_of (simplefs_write scenario_cfg stale_state 0 "abcdefgh".toList 8) stale_state

/-! ## Sequences of operations -/

/-- A call of one of the seven public operations, with its arguments. -/
inductive Op where
  | create (filename : List Char)
  | delete (filename : List Char)
  | open_file (filename : List Char)
  | close (file_handle : Int)
  | read (file_handle : Int) (nbytes : Int)
  | write (file_handle : Int) (buf : List Char) (nbytes : Int)
  | seek (file_handle : Int) (nseek : Int)

/-- The state after one call; `none` only when a loop runs out of fuel. -/
def step (cfg : Config) (s : FS) : Op → Option FS
  | Op.create filename => some (simplefs_create cfg s filename).2
  | Op.delete filename => some (simplefs_delete cfg s filename)
  | Op.open_file filename => some (simplefs_open cfg s filename).2
  | Op.close file_handle => some (simplefs_close cfg s file_handle)
  | Op.read file_handle nbytes => (simplefs_read cfg s file_handle nbytes).map (fun _ => s)
  | Op.write file_handle buf nbytes =>
    (simplefs_write cfg s file_handle buf nbytes).map Prod.snd
  | Op.seek file_handle nseek => some (simplefs_seek cfg s file_handle nseek).2

/-- The state after a finite sequence of calls. -/
def run (cfg : Config) : FS → List Op → Option FS
  | s, [] => some s
  | s, op :: ops => (step cfg s op).bind (fun s1 => run cfg s1 ops)

/-- The call is a `simplefs_delete` of a file that some handle of the table is
bound to. -/
def deletes_open_file (cfg : Config) (s : FS) : Op → Prop
  | Op.delete filename =>
    find_inode_by_name cfg s filename ≠ -1
    ∧ ∃ k, k < cfg.MAX_OPEN_FILES
        ∧ (s.file_handle_array k).inode_number = find_inode_by_name cfg s filename
  | _ => False

instance (cfg : Config) (s : FS) : (op : Op) → Decidable (deletes_open_file cfg s op)
  | Op.delete filename =>
    inferInstanceAs (Decidable (find_inode_by_name cfg s filename ≠ -1
      ∧ ∃ k, k < cfg.MAX_OPEN_FILES
          ∧ (s.file_handle_array k).inode_number = find_inode_by_name cfg s filename))
  | Op.create _ => isFalse (fun h => h)
  | Op.open_file _ => isFalse (fun h => h)
  | Op.close _ => isFalse (fun h => h)
  | Op.read _ _ => isFalse (fun h => h)
  | Op.write _ _ _ => isFalse (fun h => h)
  | Op.seek _ _ => isFalse (fun h => h)

/-- No call of the sequence, run from `s`, deletes a file that a handle is
bound to at the time of the call. -/
def no_delete_of_open_file (cfg : Config) : FS → List Op → Bool
  | _, [] => true
  | s, op :: ops =>
    !(decide (deletes_open_file cfg s op))
    && (match step cfg s op with
        | some s1 => no_delete_of_open_file cfg s1 ops
        | none => true)

/-- Every `simplefs_create` of the sequence is given a name that fits the name
field, fewer than `MAX_NAME_STRLEN` characters. -/
def names_fit (cfg : Config) : List Op → Prop
  | [] => True
  | Op.create filename :: ops => filename.length < cfg.MAX_NAME_STRLEN ∧ names_fit cfg ops
  | _ :: ops => names_fit cfg ops

/-- Every in-use inode of the table satisfies the inode invariant. -/
def all_inodes_invariant (cfg : Config) (s : FS) : Prop :=
  ∀ i, i < cfg.NUM_INODES → (s.inodes i).status = INODE_IN_USE →
    inode_invariant cfg (s.inodes i)

/-- No two distinct in-use inodes of the table hold the same stored name. -/
def names_unique (cfg : Config) (s : FS) : Prop :=
  ∀ i, i < cfg.NUM_INODES → ∀ j, j < cfg.NUM_INODES → i ≠ j →
    (s.inodes i).status = INODE_IN_USE → (s.inodes j).status = INODE_IN_USE →
    (s.inodes i).name ≠ (s.inodes j).name

/-- The invariant of the states reached without deleting an open file: every
in-use inode satisfies the inode invariant and has a non-negative size; every
bound handle is bound to an in-use inode of the table and its offset lies in
`0 .. file_size`; an inode id on the free list has a record of status free. -/
def good_state (cfg : Config) (s : FS) : Prop :=
  (∀ i, i < cfg.NUM_INODES → (s.inodes i).status = INODE_IN_USE →
    inode_invariant cfg (s.inodes i) ∧ 0 ≤ (s.inodes i).file_size)
  ∧ (∀ k, k < cfg.MAX_OPEN_FILES → (s.file_handle_array k).inode_number ≠ -1 →
      0 ≤ (s.file_handle_array k).inode_number
      ∧ (s.file_handle_array k).inode_number < cfg.NUM_INODES
      ∧ (s.inodes (s.file_handle_array k).inode_number.toNat).status = INODE_IN_USE
      ∧ 0 ≤ (s.file_handle_array k).offset
      ∧ (s.file_handle_array k).offset
        ≤ (s.inodes (s.file_handle_array k).inode_number.toNat).file_size)
  ∧ (∀ i, i < cfg.NUM_INODES → s.inode_freelist i = true → (s.inodes i).status = INODE_FREE)

/-- The calls that break the inode invariant: "a" is written to and its
handle moved to offset 6, "a" is deleted while that handle is open, "b" is
created in the freed inode 0, and one byte is written through the stale
handle. -/
def dangling_ops : List Op :=
  [Op.create "a".toList, Op.open_file "a".toList, Op.write 0 "abcdef".toList 6, Op.seek 0 6,
    Op.delete "a".toList, Op.create "b".toList, Op.write 0 "x".toList 1]

/-- Calls that never delete an open file: "a" is created, written to, closed
and deleted; the name "b" is deleted without existing. -/
def tidy_ops : List Op :=
  [Op.create "a".toList, Op.open_file "a".toList, Op.write 0 "abcdef".toList 6,
    Op.delete "b".toList, Op.seek 0 5, Op.read 0 1, Op.close 0, Op.delete "a".toList,
    Op.create "c".toList]

/-- A configuration with a single inode and a single handle: `BLOCKSIZE = 4`,
`MAX_FILE_SIZE = 2`, `NUM_INODES = 1`, so that a freed inode id is the only id
an allocator can hand out next. -/
def single_cfg : Config where
  BLOCKSIZE := 4
  MAX_FILE_SIZE := 2
  NUM_INODES := 1
  NUM_DATA_BLOCKS := 2
  MAX_OPEN_FILES := 1
  MAX_NAME_STRLEN := 8

/-- The state after `dangling_ops` on the fresh file system. -/
def dangling_state : FS :=
  (run single_cfg simplefs_formatDisk dangling_ops).getD simplefs_formatDisk

/-- A configuration with a 4-byte name field: `MAX_NAME_STRLEN = 4`, so a
stored name has at most 3 characters. -/
def short_name_cfg : Config where
  BLOCKSIZE := 4
  MAX_FILE_SIZE := 2
  NUM_INODES := 4
  NUM_DATA_BLOCKS := 8
  MAX_OPEN_FILES := 4
  MAX_NAME_STRLEN := 4

/-- The same 4-character name is created twice. -/
def duplicate_ops : List Op := [Op.create "abcd".toList, Op.create "abcd".toList]

/-- The state after `duplicate_ops` on the fresh file system. -/
def duplicate_state : FS :=
  (run short_name_cfg simplefs_formatDisk duplicate_ops).getD simplefs_formatDisk

/-- The number of indices below `M` at which `P` holds. -/
def count_below (M : Nat) (P : Nat → Bool) : Nat := ((List.range M).filter P).length

/-- The number of blocks on the allocator's free list. -/
def free_block_count (cfg : Config) (s : FS) : Nat :=
  count_below cfg.NUM_DATA_BLOCKS s.datablock_freelist

/-- The number of blocks a write of `nbytes` bytes at `offset` has to allocate:
the unassigned slots among the block indices `j` whose byte range
`j * BLOCKSIZE .. (j + 1) * BLOCKSIZE - 1` meets `offset .. offset + nbytes - 1`. -/
def blocks_to_allocate (cfg : Config) (inode : inode_t) (offset nbytes : Int) : Nat :=
  count_below cfg.MAX_FILE_SIZE (fun j => decide (0 < nbytes
    ∧ offset < ((j : Int) + 1) * cfg.BLOCKSIZE ∧ (j : Int) * cfg.BLOCKSIZE < offset + nbytes
    ∧ inode.direct_blocks j = -1))

/-- The blocks still to allocate when the write loop is at position `c` and
ends at position `e`. -/
def need_from (cfg : Config) (db : Nat → Int) (c e : Nat) : Nat :=
  count_below cfg.MAX_FILE_SIZE (fun j => decide (c < e
    ∧ c < j * cfg.BLOCKSIZE + cfg.BLOCKSIZE ∧ j * cfg.BLOCKSIZE < e ∧ db j = -1))

instance (cfg : Config) (s : FS) : Decidable (names_unique cfg s) :=
  Nat.decidableBallLT _ (fun i _ => ∀ j, j < cfg.NUM_INODES → i ≠ j →
    (s.inodes i).status = INODE_IN_USE → (s.inodes j).status = INODE_IN_USE →
    (s.inodes i).name ≠ (s.inodes j).name)

/-- Every bound handle of the table has an offset in `0 .. file_size` of the
inode it is bound to. -/
def handles_in_bounds (cfg : Config) (s : FS) : Prop :=
  ∀ k, k < cfg.MAX_OPEN_FILES → (s.file_handle_array k).inode_number ≠ -1 →
    0 ≤ (s.file_handle_array k).offset
    ∧ (s.file_handle_array k).offset
      ≤ (simplefs_readInode s (s.file_handle_array k).inode_number).file_size

instance (cfg : Config) (s : FS) : Decidable (handles_in_bounds cfg s) := by
  unfold handles_in_bounds; infer_instance

/-- The calls that leave a handle beyond the end of its file: "a" is written
to and its handle moved to offset 6, "a" is deleted while that handle is open,
and "b" is created in the freed inode 0. -/
def stale_handle_ops : List Op :=
  [Op.create "a".toList, Op.open_file "a".toList, Op.write 0 "abcdef".toList 6, Op.seek 0 6,
    Op.delete "a".toList, Op.create "b".toList]

/-- The state after `stale_handle_ops` on the fresh file system. -/
def stale_handle_state : FS :=
  (run single_cfg simplefs_formatDisk stale_handle_ops).getD simplefs_formatDisk

/-- The ways out of the `while` loop of `simplefs_write`: the loop condition
turns false, `goto fail` at `block_index >= MAX_FILE_SIZE`, or `goto fail`
after `simplefs_allocDataBlock` returned `-1`. -/
inductive write_exit where
  | loop_end
  | block_index_out_of_range
  | no_free_block
deriving DecidableEq, Repr

/-- The `while` loop of `simplefs_write` once more, with the same tests and the
same state changes as `write_loop`, returning the way the loop is left. -/
def write_loop_exit (cfg : Config) (buf : List Char) (nbytes : Int) :
    Nat → Int → Int → write_state → Option write_exit
  | 0, bytes_written, _, _ =>
    if bytes_written < nbytes then none else some write_exit.loop_end
  | fuel + 1, bytes_written, current_offset, st =>
    if bytes_written < nbytes then
      let block_index := Int.tdiv current_offset cfg.BLOCKSIZE
      let block_offset := Int.tmod current_offset cfg.BLOCKSIZE
      let n := bytes_to_copy cfg block_offset (nbytes - bytes_written)
      if block_index ≥ cfg.MAX_FILE_SIZE then some write_exit.block_index_out_of_range
      else if st.inode.direct_blocks block_index.toNat = -1 then
        let r := simplefs_allocDataBlock cfg st.disk
        if r.1 = -1 then some write_exit.no_free_block
        else
          let block_buf := memcpy_into (fun _ => NUL) block_offset.toNat buf
            bytes_written.toNat n.toNat
          write_loop_exit cfg buf nbytes fuel (bytes_written + n) (current_offset + n)
            { disk := simplefs_writeDataBlock r.2 r.1 block_buf,
              inode := { (st.inode) with
                direct_blocks := Function.update st.inode.direct_blocks block_index.toNat r.1 },
              newly_allocated := Function.update st.newly_allocated block_index.toNat true }
      else
        let blocknum := st.inode.direct_blocks block_index.toNat
        let block_buf := memcpy_into (simplefs_readDataBlock st.disk blocknum)
          block_offset.toNat buf bytes_written.toNat n.toNat
        write_loop_exit cfg buf nbytes fuel (bytes_written + n) (current_offset + n)
          { st with disk := simplefs_writeDataBlock st.disk blocknum block_buf }
    else some write_exit.loop_end

/-- The least value of a 32-bit C `int`. -/
def INT_MIN : Int := -2147483648

/-- The greatest value of a 32-bit C `int`. -/
def INT_MAX : Int := 2147483647

/-- The value `x` is representable as a C `int`: an `int` expression of the
source whose exact value satisfies this is computed without overflow. -/
def in_int_range (x : Int) : Prop := INT_MIN ≤ x ∧ x ≤ INT_MAX

instance (x : Int) : Decidable (in_int_range x) := by
  unfold in_int_range
  infer_instance

/-! ## The scenario, seeking forward and back -/

/-- The scenario state `scn3` after `simplefs_seek(0, 6)`: handle 0 at the end
of the six-byte file. -/
def scn_fwd : FS := (simplefs_seek scenario_cfg scn3 0 6).2

/-- The state `scn_fwd` after `simplefs_seek(0, -6)`: handle 0 back at the
start of the file. -/
def scn_back : FS := (simplefs_seek scenario_cfg scn_fwd 0 (-6)).2

/-! ## Auxiliary lemmas -/

/-! The lemmas and the theorems of the claims `C1`, `C2`, ... follow; each claim's
theorem names its claim in its comment. -/

theorem state_of_eq {r : Option (Int × FS)} {a : Int} (dflt : FS)
    (h : r.map Prod.fst = some a) : r = some (a, state_of r dflt) := by
  cases r with
  | none => simp at h
  | some x =>
    obtain ⟨x1, x2⟩ := x
    simp only [Option.map_some', Option.some.injEq] at h
    simp [state_of, h]

theorem tdiv_natCast (c B : Nat) : Int.tdiv (c : Int) (B : Int) = ((c / B : Nat) : Int) := by
  rw [Int.tdiv_eq_ediv (Int.ofNat_nonneg c) (Int.ofNat_nonneg B)]; norm_cast

theorem tmod_natCast (c B : Nat) : Int.tmod (c : Int) (B : Int) = ((c % B : Nat) : Int) := by
  rw [Int.tmod_eq_emod (Int.ofNat_nonneg c) (Int.ofNat_nonneg B)]; norm_cast

theorem bytes_to_copy_natCast (cfg : Config) (hB : 0 < cfg.BLOCKSIZE) (c w : Nat) (n : Int)
    (h : (w : Int) < n) :
    bytes_to_copy cfg ((c % cfg.BLOCKSIZE : Nat) : Int) (n - w)
      = ((chunk cfg.BLOCKSIZE c (n.toNat - w) : Nat) : Int) := by
  unfold bytes_to_copy chunk
  have := Nat.mod_lt c hB
  split <;> omega

theorem write_loop_ind (cfg : Config) (hB : 0 < cfg.BLOCKSIZE) (buf : List Char) (n : Int)
    (P : Nat → Nat → write_state → Prop) (Q : Bool → write_state → Prop)
    (hdone : ∀ w c st, P w c st → ¬ ((w : Int) < n) → Q true st)
    (hrange : ∀ w c st, P w c st → (w : Int) < n →
      cfg.MAX_FILE_SIZE ≤ c / cfg.BLOCKSIZE → Q false st)
    (hfull : ∀ w c st, P w c st → (w : Int) < n → c / cfg.BLOCKSIZE < cfg.MAX_FILE_SIZE →
      st.inode.direct_blocks (c / cfg.BLOCKSIZE) = -1 →
      lowest_free st.disk.datablock_freelist cfg.NUM_DATA_BLOCKS = none → Q false st)
    (halloc : ∀ w c st b, P w c st → (w : Int) < n → c / cfg.BLOCKSIZE < cfg.MAX_FILE_SIZE →
      st.inode.direct_blocks (c / cfg.BLOCKSIZE) = -1 →
      lowest_free st.disk.datablock_freelist cfg.NUM_DATA_BLOCKS = some b →
      P (w + chunk cfg.BLOCKSIZE c (n.toNat - w)) (c + chunk cfg.BLOCKSIZE c (n.toNat - w))
        { disk := { st.disk with
            datablock_freelist := Function.update st.disk.datablock_freelist b false,
            data_blocks := Function.update st.disk.data_blocks b
              (memcpy_into (fun _ => NUL) (c % cfg.BLOCKSIZE) buf w
                (chunk cfg.BLOCKSIZE c (n.toNat - w))) },
          inode := { (st.inode) with
            direct_blocks := Function.update st.inode.direct_blocks (c / cfg.BLOCKSIZE) (b : Int) },
          newly_allocated := Function.update st.newly_allocated (c / cfg.BLOCKSIZE) true })
    (hover : ∀ w c st, P w c st → (w : Int) < n → c / cfg.BLOCKSIZE < cfg.MAX_FILE_SIZE →
      st.inode.direct_blocks (c / cfg.BLOCKSIZE) ≠ -1 →
      P (w + chunk cfg.BLOCKSIZE c (n.toNat - w)) (c + chunk cfg.BLOCKSIZE c (n.toNat - w))
        { st with disk := { st.disk with
            data_blocks := Function.update st.disk.data_blocks
              (st.inode.direct_blocks (c / cfg.BLOCKSIZE)).toNat
              (memcpy_into (st.disk.data_blocks (st.inode.direct_blocks (c / cfg.BLOCKSIZE)).toNat)
                (c % cfg.BLOCKSIZE) buf w (chunk cfg.BLOCKSIZE c (n.toNat - w))) } }) :
    ∀ (fuel w c : Nat) (st : write_state), P w c st →
      ∀ r, write_loop cfg buf n fuel (w : Int) (c : Int) st = some r → Q r.1 r.2 := by
  intro fuel
  induction fuel with
  | zero =>
    intro w c st hP r hr
    unfold write_loop at hr
    split at hr
    · exact absurd hr (by simp)
    · cases hr; exact hdone w c st hP (by assumption)
  | succ fuel ih =>
    intro w c st hP r hr
    unfold write_loop at hr
    by_cases hw : (w : Int) < n
    · simp only [hw, if_true, tdiv_natCast, tmod_natCast, bytes_to_copy_natCast cfg hB c w n hw,
        Int.toNat_ofNat, ← Nat.cast_add] at hr
      by_cases hq : cfg.MAX_FILE_SIZE ≤ c / cfg.BLOCKSIZE
      · have hq' : ((c / cfg.BLOCKSIZE : Nat) : Int) ≥ (cfg.MAX_FILE_SIZE : Int) := by omega
        simp only [hq', if_true] at hr
        cases hr; exact hrange w c st hP hw hq
      · have hq' : ¬ ((c / cfg.BLOCKSIZE : Nat) : Int) ≥ (cfg.MAX_FILE_SIZE : Int) := by omega
        simp only [hq', if_false] at hr
        by_cases hd : st.inode.direct_blocks (c / cfg.BLOCKSIZE) = -1
        · simp only [hd, if_true] at hr
          unfold simplefs_allocDataBlock at hr
          cases hlf : lowest_free st.disk.datablock_freelist cfg.NUM_DATA_BLOCKS with
          | none =>
            simp only [hlf, if_true] at hr
            cases hr; exact hfull w c st hP hw (by omega) hd hlf
          | some b =>
            have hb : ¬ ((b : Int) = -1) := by omega
            simp only [hlf, hb, if_false, simplefs_writeDataBlock, Int.toNat_ofNat] at hr
            exact ih _ _ _ (halloc w c st b hP hw (by omega) hd hlf) r hr
        · simp only [hd, if_false, simplefs_writeDataBlock, simplefs_readDataBlock] at hr
          exact ih _ _ _ (hover w c st hP hw (by omega) hd) r hr
    · simp only [hw, if_false] at hr
      cases hr; exact hdone w c st hP hw

/-- C9, as stated, fails at its seek step: `simplefs_write` and `simplefs_read`
do not move the handle, so after `write(0, "abcdef", 6)` and `read(0, 6)` the
handle is still at offset 0; `seek(0, -6)` then asks for offset `-6`, and is
not carried out: it returns `-1`, not `0`, and leaves the state as it is. -/
theorem C9_counterexample :
    simplefs_write scenario_cfg scn2 0 "abcdef".toList 6 = some (0, scn3)
    ∧ simplefs_read scenario_cfg scn3 0 6 = some (0, "abcdef".toList)
    ∧ (scn3.file_handle_array 0).offset = 0
    ∧ (scn3.file_handle_array 0).offset + (-6) < 0
    ∧ simplefs_seek scenario_cfg scn3 0 (-6) = (-1, scn3)
    ∧ (simplefs_seek scenario_cfg scn3 0 (-6)).1 ≠ 0 := by
  refine ⟨state_of_eq scn2 (by decide), by decide, by decide, by decide, ?_, by decide⟩
  unfold simplefs_seek
  rw [if_neg (by decide)]
  dsimp only
  rw [if_neg (by decide), if_pos (by decide)]

/-- C9 (amended): with `BLOCKSIZE = 4` and `MAX_FILE_SIZE = 2` on a fresh file
system: `create("a")` returns inode 0; `open("a")` returns handle 0;
`write(0, "abcdef", 6)` succeeds with `file_size = 6` and two blocks assigned;
`read(0, 6)` returns "abcdef"; the handle is still at offset 0, so
`seek(0, -6)` is refused with `-1` and the offset stays 0; `write(0, "XY", 2)`
succeeds and block 0 of the file holds "XYcd"; the final `read(0, 6)` returns
"XYcdef". A seek that stays inside the file is carried out: from the state
after the first write `seek(0, 6)` returns 0 with the handle at offset 6, and
from there `seek(0, -6)` returns 0 with the handle at offset 0. -/
theorem C9_scenario :
    simplefs_create scenario_cfg simplefs_formatDisk "a".toList = (0, scn1)
    ∧ simplefs_open scenario_cfg scn1 "a".toList = (0, scn2)
    ∧ simplefs_write scenario_cfg scn2 0 "abcdef".toList 6 = some (0, scn3)
    ∧ (scn3.inodes 0).file_size = 6
    ∧ assigned_count scenario_cfg (scn3.inodes 0) = 2
    ∧ simplefs_read scenario_cfg scn3 0 6 = some (0, "abcdef".toList)
    ∧ (scn3.file_handle_array 0).offset = 0
    ∧ simplefs_seek scenario_cfg scn3 0 (-6) = (-1, scn4)
    ∧ (scn4.file_handle_array 0).offset = 0
    ∧ simplefs_write scenario_cfg scn4 0 "XY".toList 2 = some (0, scn5)
    ∧ block_bytes scn5 ((scn5.inodes 0).direct_blocks 0) 4 = "XYcd".toList
    ∧ simplefs_read scenario_cfg scn5 0 6 = some (0, "XYcdef".toList)
    ∧ simplefs_seek scenario_cfg scn3 0 6 = (0, scn_fwd)
    ∧ (scn_fwd.file_handle_array 0).offset = 6
    ∧ simplefs_seek scenario_cfg scn_fwd 0 (-6) = (0, scn_back)
    ∧ (scn_back.file_handle_array 0).offset = 0 := by
  refine ⟨Prod.ext (by decide) rfl, Prod.ext (by decide) rfl,
    state_of_eq scn2 (by decide), by decide, by decide, by decide, by decide,
    Prod.ext (by decide) rfl, by decide, state_of_eq scn4 (by decide), by decide, by decide,
    Prod.ext (by decide) rfl, by decide, Prod.ext (by decide) rfl, by decide⟩

/-- C6: a write through a bound, in-range handle with
`offset + nbytes > MAX_FILE_SIZE * BLOCKSIZE`, where the offset, the byte
count, their sum and the capacity `MAX_FILE_SIZE * BLOCKSIZE` are all
representable as `int` (the comparison of the source is computed without
integer overflow), returns `-1` and the state after the call is the state
before it: no block is allocated, and every inode record, every data block, the
allocator and the handle table are unchanged. -/
theorem C6_over_capacity_write_rejected (cfg : Config) (s : FS) (file_handle : Int)
    (buf : List Char) (nbytes : Int)
    (hrange : 0 ≤ file_handle ∧ file_handle < cfg.MAX_OPEN_FILES)
    (hbound : (s.file_handle_array file_handle.toNat).inode_number ≠ -1)
    (_hoffset : in_int_range (s.file_handle_array file_handle.toNat).offset)
    (_hnbytes : in_int_range nbytes)
    (_hsum : in_int_range ((s.file_handle_array file_handle.toNat).offset + nbytes))
    (_hcapacity : in_int_range ((cfg.MAX_FILE_SIZE : Int) * cfg.BLOCKSIZE))
    (hcap : (s.file_handle_array file_handle.toNat).offset + nbytes
      > (cfg.MAX_FILE_SIZE : Int) * cfg.BLOCKSIZE) :
    simplefs_write cfg s file_handle buf nbytes = some (-1, s) := by
  unfold simplefs_write
  have h1 : ¬ (file_handle < 0 ∨ file_handle ≥ cfg.MAX_OPEN_FILES) := by omega
  simp only [h1, if_false, hbound, hcap, if_true]

/-- C6, the scenario of the claim: a fresh file with capacity 8 and a 10-byte
write; the write fails, `file_size` is still 0 and no block is assigned. -/
theorem C6_over_capacity_write_rejected_witness :
    (0 ≤ (0 : Int) ∧ (0 : Int) < scenario_cfg.MAX_OPEN_FILES)
    ∧ (scn2.file_handle_array (0 : Int).toNat).inode_number ≠ -1
    ∧ in_int_range (scn2.file_handle_array (0 : Int).toNat).offset
    ∧ in_int_range 10
    ∧ in_int_range ((scn2.file_handle_array (0 : Int).toNat).offset + 10)
    ∧ in_int_range ((scenario_cfg.MAX_FILE_SIZE : Int) * scenario_cfg.BLOCKSIZE)
    ∧ (scn2.file_handle_array (0 : Int).toNat).offset + 10
      > (scenario_cfg.MAX_FILE_SIZE : Int) * scenario_cfg.BLOCKSIZE
    ∧ simplefs_write scenario_cfg scn2 0 "0123456789".toList 10 = some (-1, scn2)
    ∧ (scn2.inodes 0).file_size = 0
    ∧ assigned_count scenario_cfg (scn2.inodes 0) = 0 :=
  ⟨by decide, by decide, by decide, by decide, by decide, by decide, by decide,
    C6_over_capacity_write_rejected scenario_cfg scn2 0 "0123456789".toList 10
      (by decide) (by decide) (by decide) (by decide) (by decide) (by decide) (by decide),
    by decide, by decide⟩

/-- C8: `simplefs_seek` on a handle that is out of range or unbound returns
`-1` and changes nothing. On a bound, in-range handle with offset `o` bound to
an inode of size `file_size`, it returns `-1` exactly when `o + nseek < 0` or
`o + nseek > file_size`; on failure the state is unchanged; otherwise it
returns `0` and the state differs only in the offset of that handle, which
becomes `o + nseek`. -/
theorem C8_seek_contract (cfg : Config) (s : FS) (file_handle : Int) (nseek : Int) :
    ((file_handle < 0 ∨ file_handle ≥ cfg.MAX_OPEN_FILES
        ∨ (s.file_handle_array file_handle.toNat).inode_number = -1) →
      simplefs_seek cfg s file_handle nseek = (-1, s))
    ∧ (0 ≤ file_handle → file_handle < cfg.MAX_OPEN_FILES →
        (s.file_handle_array file_handle.toNat).inode_number ≠ -1 →
        ((simplefs_seek cfg s file_handle nseek).1 = -1 ↔
          ((s.file_handle_array file_handle.toNat).offset + nseek < 0
            ∨ (s.file_handle_array file_handle.toNat).offset + nseek
              > (simplefs_readInode s
                  (s.file_handle_array file_handle.toNat).inode_number).file_size))
        ∧ ((simplefs_seek cfg s file_handle nseek).1 = -1 →
            (simplefs_seek cfg s file_handle nseek).2 = s)
        ∧ ((simplefs_seek cfg s file_handle nseek).1 ≠ -1 →
            (simplefs_seek cfg s file_handle nseek).1 = 0
            ∧ ((simplefs_seek cfg s file_handle nseek).2.file_handle_array
                file_handle.toNat).offset
              = (s.file_handle_array file_handle.toNat).offset + nseek
            ∧ ((simplefs_seek cfg s file_handle nseek).2.file_handle_array
                file_handle.toNat).inode_number
              = (s.file_handle_array file_handle.toNat).inode_number
            ∧ (∀ k, k ≠ file_handle.toNat →
                (simplefs_seek cfg s file_handle nseek).2.file_handle_array k
                  = s.file_handle_array k)
            ∧ (simplefs_seek cfg s file_handle nseek).2.inodes = s.inodes
            ∧ (simplefs_seek cfg s file_handle nseek).2.data_blocks = s.data_blocks
            ∧ (simplefs_seek cfg s file_handle nseek).2.inode_freelist = s.inode_freelist
            ∧ (simplefs_seek cfg s file_handle nseek).2.datablock_freelist
              = s.datablock_freelist)) := by
  refine ⟨?_, ?_⟩
  · intro h
    unfold simplefs_seek
    by_cases h1 : file_handle < 0 ∨ file_handle ≥ cfg.MAX_OPEN_FILES
    · simp only [h1, if_true]
    · have h2 : (s.file_handle_array file_handle.toNat).inode_number = -1 := by
        rcases h with h | h | h
        · exact absurd (Or.inl h) h1
        · exact absurd (Or.inr h) h1
        · exact h
      simp only [h1, if_false, h2, if_true]
  · intro h0 h1 hb
    have hr : ¬ (file_handle < 0 ∨ file_handle ≥ cfg.MAX_OPEN_FILES) := by omega
    unfold simplefs_seek
    simp only [hr, if_false, hb]
    by_cases hc : (s.file_handle_array file_handle.toNat).offset + nseek < 0
        ∨ (s.file_handle_array file_handle.toNat).offset + nseek
          > (simplefs_readInode s (s.file_handle_array file_handle.toNat).inode_number).file_size
    · simp only [hc, if_true]
      simp
    · rw [if_neg hc]
      dsimp only
      have h01 : ¬ ((0 : Int) = -1) := by decide
      refine ⟨⟨fun h => absurd h h01, fun h => absurd h hc⟩, fun h => absurd h h01, fun _ => ?_⟩
      refine ⟨rfl, ?_, ?_, fun k hk => ?_, rfl, rfl, rfl, rfl⟩
      · simp only [Function.update_same]
      · simp only [Function.update_same]
      · exact Function.update_noteq hk _ _

/-- C8 at concrete inputs: in the scenario state after the 6-byte write, the
handle 0 is bound at offset 0 to a file of size 6. -/
theorem C8_seek_contract_witness :
    ((0 : Int) ≤ 0 ∧ (0 : Int) < scenario_cfg.MAX_OPEN_FILES
      ∧ (scn3.file_handle_array (0 : Int).toNat).inode_number ≠ -1)
    ∧ (simplefs_seek scenario_cfg scn3 0 4).1 = 0
    ∧ ((simplefs_seek scenario_cfg scn3 0 4).2.file_handle_array (0 : Int).toNat).offset
      = (scn3.file_handle_array (0 : Int).toNat).offset + 4
    ∧ simplefs_seek scenario_cfg scn3 7 4 = (-1, scn3) :=
  ⟨by decide,
    (((C8_seek_contract scenario_cfg scn3 0 4).2 (by decide) (by decide) (by decide)).2.2
      (by decide)).1,
    (((C8_seek_contract scenario_cfg scn3 0 4).2 (by decide) (by decide) (by decide)).2.2
      (by decide)).2.1,
    (C8_seek_contract scenario_cfg scn3 7 4).1 (by decide)⟩

theorem lowest_free_some {free : Nat → Bool} {n b : Nat} (h : lowest_free free n = some b) :
    b < n ∧ free b = true := by
  induction n with
  | zero => simp [lowest_free] at h
  | succ n ih =>
    unfold lowest_free at h
    cases hl : lowest_free free n with
    | some i =>
      simp only [hl, Option.some.injEq] at h
      subst h
      exact ⟨Nat.lt_succ_of_lt (ih hl).1, (ih hl).2⟩
    | none =>
      simp only [hl] at h
      by_cases hf : free n = true
      · simp only [hf, if_true, Option.some.injEq] at h
        subst h
        exact ⟨Nat.lt_succ_self _, hf⟩
      · simp [hf] at h

theorem lowest_free_none {free : Nat → Bool} {n : Nat} (h : lowest_free free n = none) :
    ∀ b, b < n → free b = false := by
  induction n with
  | zero => intro b hb; omega
  | succ n ih =>
    unfold lowest_free at h
    cases hl : lowest_free free n with
    | some i => simp [hl] at h
    | none =>
      simp only [hl] at h
      by_cases hf : free n = true
      · simp [hf] at h
      · intro b hb
        by_cases hbn : b = n
        · subst hbn; simpa using hf
        · exact ih hl b (by omega)

theorem chunk_pos {B c rem : Nat} (hB : 0 < B) (hrem : 0 < rem) : 0 < chunk B c rem := by
  unfold chunk
  have := Nat.mod_lt c hB
  omega

theorem chunk_le_rem (B c rem : Nat) : chunk B c rem ≤ rem := by
  unfold chunk; omega

theorem chunk_le_block {B : Nat} (hB : 0 < B) (c rem : Nat) : c % B + chunk B c rem ≤ B := by
  unfold chunk
  have := Nat.mod_lt c hB
  omega

theorem write_loop_total (cfg : Config) (hB : 0 < cfg.BLOCKSIZE) (buf : List Char) (n : Int) :
    ∀ (fuel w c : Nat) (st : write_state), n.toNat - w ≤ fuel →
      ∃ r, write_loop cfg buf n fuel (w : Int) (c : Int) st = some r := by
  intro fuel
  induction fuel with
  | zero =>
    intro w c st hf
    unfold write_loop
    have hw : ¬ ((w : Int) < n) := by omega
    simp [hw]
  | succ fuel ih =>
    intro w c st hf
    unfold write_loop
    by_cases hw : (w : Int) < n
    · have hpos := chunk_pos (c := c) hB (show 0 < n.toNat - w by omega)
      have hfuel : n.toNat - (w + chunk cfg.BLOCKSIZE c (n.toNat - w)) ≤ fuel := by omega
      simp only [hw, if_true, tdiv_natCast, tmod_natCast, bytes_to_copy_natCast cfg hB c w n hw,
        Int.toNat_ofNat, ← Nat.cast_add]
      split
      · exact ⟨_, rfl⟩
      · split
        · split
          · exact ⟨_, rfl⟩
          · exact ih _ _ _ hfuel
        · exact ih _ _ _ hfuel
    · simp [hw]

theorem rollback_inv_init (cfg : Config) (s : FS) (ino : inode_t) :
    rollback_inv cfg s ino { disk := s, inode := ino, newly_allocated := fun _ => false } := by
  refine ⟨rfl, rfl, rfl, rfl, rfl, rfl, ?_, ?_, ?_⟩
  · intro j hj; simp at hj
  · intro j _; rfl
  · intro b _; rfl

theorem write_loop_rollback_inv (cfg : Config) (hB : 0 < cfg.BLOCKSIZE) (buf : List Char)
    (n : Int) (s0 : FS) (ino0 : inode_t) (fuel w c : Nat) (st : write_state)
    (hst : rollback_inv cfg s0 ino0 st) (r : Bool × write_state)
    (hr : write_loop cfg buf n fuel (w : Int) (c : Int) st = some r) :
    rollback_inv cfg s0 ino0 r.2 := by
  refine write_loop_ind cfg hB buf n (fun _ _ st => rollback_inv cfg s0 ino0 st)
    (fun _ st => rollback_inv cfg s0 ino0 st) ?_ ?_ ?_ ?_ ?_ fuel w c st hst r hr
  · intro w c st h _; exact h
  · intro w c st h _ _; exact h
  · intro w c st h _ _ _ _; exact h
  · intro w c st b h _ hq hd hlf
    obtain ⟨h1, h2, h3, h4, h5, h6, h7, h8, h9⟩ := h
    obtain ⟨hbn, hbf⟩ := lowest_free_some hlf
    -- the slot was not flagged before
    have hnew : st.newly_allocated (c / cfg.BLOCKSIZE) = false := by
      cases hx : st.newly_allocated (c / cfg.BLOCKSIZE) with
      | false => rfl
      | true =>
        have := (h7 _ hx).2.2.1
        rw [hd] at this; omega
    -- the block handed out is not the block of a flagged slot
    have hfresh : ∀ j, st.newly_allocated j = true → (st.inode.direct_blocks j).toNat ≠ b := by
      intro j hj hjb
      have := (h7 j hj).2.2.2.2
      rw [hjb, hbf] at this
      exact Bool.noConfusion this
    refine ⟨h1, h2, h3, h4, h5, h6, ?_, ?_, ?_⟩
    · intro j hj
      dsimp only at hj ⊢
      by_cases hjq : j = c / cfg.BLOCKSIZE
      · subst hjq
        rw [Function.update_same, Int.toNat_ofNat, Function.update_same]
        refine ⟨hq, ?_, by omega, ?_, rfl⟩
        · rw [← h8 _ hnew]; exact hd
        · rw [← h9 b hfresh]; exact hbf
      · rw [Function.update_noteq hjq] at hj
        rw [Function.update_noteq hjq]
        obtain ⟨a1, a2, a3, a4, a5⟩ := h7 j hj
        refine ⟨a1, a2, a3, a4, ?_⟩
        rw [Function.update_noteq (hfresh j hj)]; exact a5
    · intro j hj
      dsimp only at hj ⊢
      by_cases hjq : j = c / cfg.BLOCKSIZE
      · subst hjq; rw [Function.update_same] at hj; exact Bool.noConfusion hj
      · rw [Function.update_noteq hjq] at hj
        rw [Function.update_noteq hjq]
        exact h8 j hj
    · intro b' hb'
      dsimp only at hb' ⊢
      have hbb : b' ≠ b := by
        intro hEq
        have := hb' (c / cfg.BLOCKSIZE) (by rw [Function.update_same])
        rw [Function.update_same, Int.toNat_ofNat] at this
        exact this hEq.symm
      rw [Function.update_noteq hbb]
      apply h9
      intro j hj
      by_cases hjq : j = c / cfg.BLOCKSIZE
      · subst hjq; rw [hnew] at hj; exact Bool.noConfusion hj
      · have := hb' j (by rw [Function.update_noteq hjq]; exact hj)
        rw [Function.update_noteq hjq] at this
        exact this
  · intro w c st h _ _ _
    exact h

theorem inode_t_ext {a b : inode_t} (h1 : a.status = b.status) (h2 : a.name = b.name)
    (h3 : a.file_size = b.file_size) (h4 : ∀ j, a.direct_blocks j = b.direct_blocks j) :
    a = b := by
  cases a; cases b
  simp only [inode_t.mk.injEq]
  exact ⟨h1, h2, h3, funext h4⟩

theorem rollback_loop_spec (newly : Nat → Bool) (d : FS) (ino : inode_t) (i : Nat) :
    (rollback_loop newly d ino i).1.inodes = d.inodes
    ∧ (rollback_loop newly d ino i).1.inode_freelist = d.inode_freelist
    ∧ (rollback_loop newly d ino i).1.data_blocks = d.data_blocks
    ∧ (rollback_loop newly d ino i).1.file_handle_array = d.file_handle_array
    ∧ (rollback_loop newly d ino i).2.status = ino.status
    ∧ (rollback_loop newly d ino i).2.name = ino.name
    ∧ (rollback_loop newly d ino i).2.file_size = ino.file_size
    ∧ (∀ j, (j < i ∧ newly j = true → (rollback_loop newly d ino i).2.direct_blocks j = -1)
        ∧ (¬ (j < i ∧ newly j = true) →
            (rollback_loop newly d ino i).2.direct_blocks j = ino.direct_blocks j))
    ∧ (∀ b, (∃ j, j < i ∧ newly j = true ∧ (ino.direct_blocks j).toNat = b) →
        (rollback_loop newly d ino i).1.datablock_freelist b = true)
    ∧ (∀ b, (∀ j, j < i → newly j = true → (ino.direct_blocks j).toNat ≠ b) →
        (rollback_loop newly d ino i).1.datablock_freelist b = d.datablock_freelist b) := by
  induction i with
  | zero =>
    refine ⟨rfl, rfl, rfl, rfl, rfl, rfl, rfl, ?_, ?_, ?_⟩
    · intro j; exact ⟨fun h => absurd h.1 (Nat.not_lt_zero j), fun _ => rfl⟩
    · rintro b ⟨j, hj, _⟩; exact absurd hj (Nat.not_lt_zero j)
    · intro b _; rfl
  | succ i ih =>
    obtain ⟨h1, h2, h3, h4, h5, h6, h7, h8, h9, h10⟩ := ih
    unfold rollback_loop
    by_cases hn : newly i = true
    · simp only [hn, if_true, simplefs_freeDataBlock]
      have hcur : (rollback_loop newly d ino i).2.direct_blocks i = ino.direct_blocks i :=
        (h8 i).2 (fun h => absurd h.1 (Nat.lt_irrefl i))
      refine ⟨h1, h2, h3, h4, h5, h6, h7, ?_, ?_, ?_⟩
      · intro j
        by_cases hji : j = i
        · subst hji
          rw [Function.update_same]
          exact ⟨fun _ => rfl, fun h => absurd ⟨Nat.lt_succ_self _, hn⟩ h⟩
        · rw [Function.update_noteq hji]
          refine ⟨fun h => (h8 j).1 ⟨by omega, h.2⟩, fun h => (h8 j).2 (fun h' => h ⟨by omega, h'.2⟩)⟩
      · rintro b ⟨j, hj, hnj, hb⟩
        rw [hcur]
        by_cases hbi : b = (ino.direct_blocks i).toNat
        · rw [hbi, Function.update_same]
        · rw [Function.update_noteq hbi]
          have hji : j ≠ i := by
            intro h; subst h; exact hbi hb.symm
          exact h9 b ⟨j, by omega, hnj, hb⟩
      · intro b hb
        rw [hcur]
        have hbi : b ≠ (ino.direct_blocks i).toNat := fun h => hb i (Nat.lt_succ_self _) hn h.symm
        rw [Function.update_noteq hbi]
        exact h10 b (fun j hj => hb j (by omega))
    · simp only [hn, if_false]
      have hn' : ¬ (newly i = true) := hn
      refine ⟨h1, h2, h3, h4, h5, h6, h7, ?_, ?_, ?_⟩
      · intro j
        refine ⟨fun h => (h8 j).1 ⟨?_, h.2⟩, fun h => (h8 j).2 (fun h' => h ⟨by omega, h'.2⟩)⟩
        have : j ≠ i := by
          intro hji; subst hji; exact hn h.2
        omega
      · rintro b ⟨j, hj, hnj, hb⟩
        have : j ≠ i := by
          intro hji; subst hji; exact hn hnj
        exact h9 b ⟨j, by omega, hnj, hb⟩
      · intro b hb
        exact h10 b (fun j hj => hb j (by omega))

/-- After the rollback loop the local inode and the free list are those the
call started from. -/
theorem rollback_restores (cfg : Config) (s0 : FS) (ino0 : inode_t) (st : write_state)
    (h : rollback_inv cfg s0 ino0 st) :
    (rollback_loop st.newly_allocated st.disk st.inode cfg.MAX_FILE_SIZE).2 = ino0
    ∧ (rollback_loop st.newly_allocated st.disk st.inode cfg.MAX_FILE_SIZE).1
      = { s0 with data_blocks := st.disk.data_blocks } := by
  obtain ⟨h1, h2, h3, h4, h5, h6, h7, h8, h9⟩ := h
  obtain ⟨r1, r2, r3, r4, r5, r6, r7, r8, r9, r10⟩ :=
    rollback_loop_spec st.newly_allocated st.disk st.inode cfg.MAX_FILE_SIZE
  constructor
  · apply inode_t_ext (r5.trans h4) (r6.trans h5) (r7.trans h6)
    intro j
    cases hn : st.newly_allocated j with
    | true =>
      obtain ⟨a1, a2, _⟩ := h7 j hn
      rw [(r8 j).1 ⟨a1, hn⟩, a2]
    | false =>
      rw [(r8 j).2 (fun h => by rw [hn] at h; exact Bool.noConfusion h.2)]
      exact h8 j hn
  · have hfl : (rollback_loop st.newly_allocated st.disk st.inode cfg.MAX_FILE_SIZE).1.datablock_freelist
        = s0.datablock_freelist := by
      funext b
      by_cases hex : ∃ j, j < cfg.MAX_FILE_SIZE ∧ st.newly_allocated j = true
          ∧ (st.inode.direct_blocks j).toNat = b
      · rw [r9 b hex]
        obtain ⟨j, _, hn, hb⟩ := hex
        rw [← hb]; exact ((h7 j hn).2.2.2.1).symm
      · have hno : ∀ j, st.newly_allocated j = true → (st.inode.direct_blocks j).toNat ≠ b :=
          fun j hn hb => hex ⟨j, (h7 j hn).1, hn, hb⟩
        rw [r10 b (fun j _ hn => hno j hn)]
        exact h9 b hno
    generalize rollback_loop st.newly_allocated st.disk st.inode cfg.MAX_FILE_SIZE = r at *
    obtain ⟨r, ri⟩ := r
    cases r
    simp only at r1 r2 r3 r4 hfl
    subst r1 r2 r3 r4 hfl
    simp only [FS.mk.injEq, true_and, and_true]
    rw [h1, h2, h3]; exact ⟨rfl, rfl, rfl⟩

theorem write_loop_call_rollback_inv (cfg : Config) (hB : 0 < cfg.BLOCKSIZE) (buf : List Char)
    (n : Int) (s : FS) (ino : inode_t) (offset : Int) (hoff : 0 ≤ offset)
    (r : Bool × write_state)
    (hr : write_loop cfg buf n n.toNat 0 offset
      { disk := s, inode := ino, newly_allocated := fun _ => false } = some r) :
    rollback_inv cfg s ino r.2 := by
  have h0 : (0 : Int) = ((0 : Nat) : Int) := rfl
  have ho : offset = ((offset.toNat : Nat) : Int) := by omega
  rw [h0, ho] at hr
  exact write_loop_rollback_inv cfg hB buf n s ino _ _ _ _ (rollback_inv_init cfg s ino) r hr

/-- A failed `simplefs_write` changes nothing but the contents of data blocks. -/
theorem write_fail_state (cfg : Config) (hB : 0 < cfg.BLOCKSIZE) (s : FS) (file_handle : Int)
    (buf : List Char) (nbytes : Int) (ret : Int) (s' : FS)
    (hoff : 0 ≤ (s.file_handle_array file_handle.toNat).offset)
    (hw : simplefs_write cfg s file_handle buf nbytes = some (ret, s')) (hret : ret ≠ 0) :
    s' = { s with data_blocks := s'.data_blocks } := by
  unfold simplefs_write at hw
  dsimp only at hw
  split at hw
  · cases hw; rfl
  · split at hw
    · cases hw; rfl
    · split at hw
      · cases hw; rfl
      · split at hw
        · exact absurd hw (by simp)
        · rename_i st hl
          simp only [Option.some.injEq, Prod.mk.injEq] at hw
          exact absurd hw.1.symm hret
        · rename_i st hl
          have hinv := write_loop_call_rollback_inv cfg hB buf nbytes s _ _ hoff _ hl
          obtain ⟨e1, e2⟩ := rollback_restores cfg s _ _ hinv
          simp only [Option.some.injEq, Prod.mk.injEq] at hw
          obtain ⟨_, hs⟩ := hw
          rw [e1, e2] at hs
          subst hs
          simp only [simplefs_writeInode, simplefs_readInode, Function.update_eq_self]

/-- C2: if `simplefs_write` through a bound, in-range handle with a
non-negative offset fails (in particular when `simplefs_allocDataBlock` reports
exhaustion partway through the call), the persisted inode record has the same
`file_size` and the same direct block references as before the call, and the
allocator's set of free blocks is the same as before the call: every block
allocated during the call has been returned. -/
theorem C2_write_failure_keeps_allocation (cfg : Config) (hB : 0 < cfg.BLOCKSIZE) (s : FS)
    (file_handle : Int) (buf : List Char) (nbytes : Int) (s' : FS)
    (_hrange : 0 ≤ file_handle ∧ file_handle < cfg.MAX_OPEN_FILES)
    (_hbound : (s.file_handle_array file_handle.toNat).inode_number ≠ -1)
    (hoff : 0 ≤ (s.file_handle_array file_handle.toNat).offset)
    (hfail : simplefs_write cfg s file_handle buf nbytes = some (-1, s')) :
    (simplefs_readInode s' (s.file_handle_array file_handle.toNat).inode_number).file_size
      = (simplefs_readInode s (s.file_handle_array file_handle.toNat).inode_number).file_size
    ∧ (simplefs_readInode s' (s.file_handle_array file_handle.toNat).inode_number).direct_blocks
      = (simplefs_readInode s (s.file_handle_array file_handle.toNat).inode_number).direct_blocks
    ∧ s'.datablock_freelist = s.datablock_freelist := by
  have h := write_fail_state cfg hB s file_handle buf nbytes (-1) s' hoff hfail (by decide)
  rw [h]
  exact ⟨rfl, rfl, rfl⟩

/-- C2 at a concrete input: one data block exists, the 6-byte write on the
empty file allocates it for block index 0, and the allocator is exhausted at
block index 1. -/
theorem C2_write_failure_keeps_allocation_witness :
    (0 < tight_cfg.BLOCKSIZE)
    ∧ (0 ≤ (0 : Int) ∧ (0 : Int) < tight_cfg.MAX_OPEN_FILES)
    ∧ (tight1.file_handle_array (0 : Int).toNat).inode_number ≠ -1
    ∧ 0 ≤ (tight1.file_handle_array (0 : Int).toNat).offset
    ∧ simplefs_write tight_cfg tight1 0 "abcdef".toList 6 = some (-1, tight2)
    ∧ (simplefs_readInode tight2 (tight1.file_handle_array (0 : Int).toNat).inode_number).file_size
      = (simplefs_readInode tight1
          (tight1.file_handle_array (0 : Int).toNat).inode_number).file_size
    ∧ (simplefs_readInode tight2
          (tight1.file_handle_array (0 : Int).toNat).inode_number).direct_blocks
      = (simplefs_readInode tight1
          (tight1.file_handle_array (0 : Int).toNat).inode_number).direct_blocks
    ∧ tight2.datablock_freelist = tight1.datablock_freelist :=
  ⟨by decide, by decide, by decide, by decide, state_of_eq tight1 (by decide),
    C2_write_failure_keeps_allocation tight_cfg (by decide) tight1 0 "abcdef".toList 6 tight2
      (by decide) (by decide) (by decide) (state_of_eq tight1 (by decide))⟩

theorem div_mod_add_of_lt {B : Nat} (hB : 0 < B) (c j : Nat) (h : c % B + j < B) :
    (c + j) / B = c / B ∧ (c + j) % B = c % B + j := by
  have hc : c + j = (c % B + j) + B * (c / B) := by
    have := Nat.mod_add_div c B; omega
  rw [hc, Nat.add_mul_div_left _ _ hB, Nat.add_mul_mod_self_left, Nat.div_eq_of_lt h,
    Nat.mod_eq_of_lt h]
  omega

theorem lt_blocks_needed_iff (cfg : Config) (hB : 0 < cfg.BLOCKSIZE) (j : Nat) (fs : Int) :
    (j : Int) < blocks_needed cfg fs ↔ (j : Int) * cfg.BLOCKSIZE < fs := by
  unfold blocks_needed
  have hB' : (0 : Int) < (cfg.BLOCKSIZE : Int) := by exact_mod_cast hB
  have h1 : (j : Int) < (fs + cfg.BLOCKSIZE - 1) / cfg.BLOCKSIZE
      ↔ (j : Int) + 1 ≤ (fs + cfg.BLOCKSIZE - 1) / cfg.BLOCKSIZE := by omega
  rw [h1, Int.le_ediv_iff_mul_le hB', add_mul, one_mul]
  omega

theorem assigned_count_le (cfg : Config) (inode : inode_t) :
    assigned_count cfg inode ≤ cfg.MAX_FILE_SIZE := by
  unfold assigned_count
  exact (List.length_filter_le _ _).trans (by rw [List.length_range])

/-- Under the inode invariant every position below `file_size` lies in an
assigned block with index below `MAX_FILE_SIZE`. -/
theorem inode_invariant_assigned (cfg : Config) (hB : 0 < cfg.BLOCKSIZE) (inode : inode_t)
    (hinv : inode_invariant cfg inode) (p : Nat) (hp : (p : Int) < inode.file_size) :
    p / cfg.BLOCKSIZE < cfg.MAX_FILE_SIZE ∧ inode.direct_blocks (p / cfg.BLOCKSIZE) ≠ -1 := by
  obtain ⟨hc, hpre⟩ := hinv
  have hlt : ((p / cfg.BLOCKSIZE : Nat) : Int) < blocks_needed cfg inode.file_size := by
    rw [lt_blocks_needed_iff cfg hB]
    have : p / cfg.BLOCKSIZE * cfg.BLOCKSIZE ≤ p := Nat.div_mul_le_self p cfg.BLOCKSIZE
    have : ((p / cfg.BLOCKSIZE : Nat) : Int) * (cfg.BLOCKSIZE : Int) ≤ (p : Int) := by
      exact_mod_cast this
    omega
  have hle := assigned_count_le cfg inode
  have hq : p / cfg.BLOCKSIZE < cfg.MAX_FILE_SIZE := by omega
  exact ⟨hq, (hpre _ hq).2 hlt⟩

theorem read_loop_ok (cfg : Config) (hB : 0 < cfg.BLOCKSIZE) (s : FS) (inode : inode_t)
    (n : Int) (o : Nat)
    (hassigned : ∀ p : Nat, o ≤ p → (p : Int) < o + n →
      p / cfg.BLOCKSIZE < cfg.MAX_FILE_SIZE ∧ inode.direct_blocks (p / cfg.BLOCKSIZE) ≠ -1) :
    ∀ (fuel w : Nat) (acc : List Char), n.toNat - w ≤ fuel →
      read_loop cfg s inode n fuel (w : Int) ((o + w : Nat) : Int) acc
        = some (0, acc ++ (List.range (n.toNat - w)).map
            (fun j => file_byte cfg s inode (o + w + j))) := by
  intro fuel
  induction fuel with
  | zero =>
    intro w acc hf
    unfold read_loop
    have hw : ¬ ((w : Int) < n) := by omega
    have h0 : n.toNat - w = 0 := by omega
    simp [hw, h0]
  | succ fuel ih =>
    intro w acc hf
    unfold read_loop
    by_cases hw : (w : Int) < n
    · obtain ⟨hq, hd⟩ := hassigned (o + w) (by omega) (by push_cast; omega)
      have hq' : ¬ (((o + w) / cfg.BLOCKSIZE : Nat) : Int) ≥ (cfg.MAX_FILE_SIZE : Int) := by omega
      have hpos := chunk_pos (c := o + w) hB (show 0 < n.toNat - w by omega)
      have hle := chunk_le_rem cfg.BLOCKSIZE (o + w) (n.toNat - w)
      have hblk := chunk_le_block hB (o + w) (n.toNat - w)
      simp only [hw, if_true, tdiv_natCast, tmod_natCast,
        bytes_to_copy_natCast cfg hB (o + w) w n hw, Int.toNat_ofNat, ← Nat.cast_add,
        hq', hd, or_self, if_false]
      rw [show o + w + chunk cfg.BLOCKSIZE (o + w) (n.toNat - w)
        = o + (w + chunk cfg.BLOCKSIZE (o + w) (n.toNat - w)) by omega]
      rw [ih _ _ (by omega)]
      have hsplit : n.toNat - w = chunk cfg.BLOCKSIZE (o + w) (n.toNat - w)
          + (n.toNat - (w + chunk cfg.BLOCKSIZE (o + w) (n.toNat - w))) := by omega
      conv_rhs => rw [hsplit, List.range_add, List.map_append, List.map_map]
      rw [List.append_assoc]
      congr 3
      congr 1
      · apply List.map_congr_left
        intro j hj
        rw [List.mem_range] at hj
        obtain ⟨e1, e2⟩ := div_mod_add_of_lt hB (o + w) j (by omega)
        simp only [file_byte, simplefs_readDataBlock, e1, e2]
      · apply List.map_congr_left
        intro j _
        simp only [Function.comp, file_byte]
        rw [show o + (w + chunk cfg.BLOCKSIZE (o + w) (n.toNat - w)) + j
          = o + w + (chunk cfg.BLOCKSIZE (o + w) (n.toNat - w) + j) by omega]
    · have h0 : n.toNat - w = 0 := by omega
      simp [hw, h0]

/-- The result of `simplefs_read` when the requested range lies in assigned
blocks: `0` and the bytes of the file at the positions from the offset on. -/
theorem read_ok (cfg : Config) (hB : 0 < cfg.BLOCKSIZE) (s : FS) (file_handle : Int)
    (nbytes : Int) (hrange : 0 ≤ file_handle ∧ file_handle < cfg.MAX_OPEN_FILES)
    (hbound : (s.file_handle_array file_handle.toNat).inode_number ≠ -1)
    (hoff : 0 ≤ (s.file_handle_array file_handle.toNat).offset)
    (hsize : (s.file_handle_array file_handle.toNat).offset + nbytes
      ≤ (simplefs_readInode s (s.file_handle_array file_handle.toNat).inode_number).file_size)
    (hassigned : ∀ p : Nat, (s.file_handle_array file_handle.toNat).offset ≤ p →
      (p : Int) < (s.file_handle_array file_handle.toNat).offset + nbytes →
      p / cfg.BLOCKSIZE < cfg.MAX_FILE_SIZE
      ∧ (simplefs_readInode s (s.file_handle_array file_handle.toNat).inode_number).direct_blocks
          (p / cfg.BLOCKSIZE) ≠ -1) :
    simplefs_read cfg s file_handle nbytes
      = some (0, (List.range nbytes.toNat).map (fun j =>
          file_byte cfg s
            (simplefs_readInode s (s.file_handle_array file_handle.toNat).inode_number)
            ((s.file_handle_array file_handle.toNat).offset.toNat + j))) := by
  unfold simplefs_read
  have h1 : ¬ (file_handle < 0 ∨ file_handle ≥ cfg.MAX_OPEN_FILES) := by omega
  have h2 : ¬ ((s.file_handle_array file_handle.toNat).offset + nbytes
      > (simplefs_readInode s (s.file_handle_array file_handle.toNat).inode_number).file_size) := by
    omega
  simp only [h1, if_false, hbound, h2]
  have h0 : (0 : Int) = ((0 : Nat) : Int) := rfl
  have ho : (s.file_handle_array file_handle.toNat).offset
      = (((s.file_handle_array file_handle.toNat).offset.toNat + 0 : Nat) : Int) := by omega
  have := read_loop_ok cfg hB s
    (simplefs_readInode s (s.file_handle_array file_handle.toNat).inode_number) nbytes
    (s.file_handle_array file_handle.toNat).offset.toNat
    (fun p hp1 hp2 => hassigned p (by omega) (by omega)) nbytes.toNat 0 [] (by omega)
  rw [← ho, ← h0] at this
  rw [this]
  simp

/-- C4: for a bound, in-range handle whose inode satisfies the inode invariant
and whose offset is non-negative, `simplefs_read` returns `-1` if and only if
`offset + nbytes > file_size`; when `offset + nbytes ≤ file_size` it returns
`0`, so the internal-consistency branch inside the loop (block index beyond
`MAX_FILE_SIZE`, or an unassigned reference) is not taken. -/
theorem C4_read_bounds (cfg : Config) (hB : 0 < cfg.BLOCKSIZE) (s : FS) (file_handle : Int)
    (nbytes : Int) (hrange : 0 ≤ file_handle ∧ file_handle < cfg.MAX_OPEN_FILES)
    (hbound : (s.file_handle_array file_handle.toNat).inode_number ≠ -1)
    (hinv : inode_invariant cfg
      (simplefs_readInode s (s.file_handle_array file_handle.toNat).inode_number))
    (hoff : 0 ≤ (s.file_handle_array file_handle.toNat).offset) :
    ((∃ out, simplefs_read cfg s file_handle nbytes = some (-1, out)) ↔
      (s.file_handle_array file_handle.toNat).offset + nbytes
        > (simplefs_readInode s (s.file_handle_array file_handle.toNat).inode_number).file_size)
    ∧ ((s.file_handle_array file_handle.toNat).offset + nbytes
        ≤ (simplefs_readInode s (s.file_handle_array file_handle.toNat).inode_number).file_size →
      ∃ out, simplefs_read cfg s file_handle nbytes = some (0, out)) := by
  have hok : (s.file_handle_array file_handle.toNat).offset + nbytes
        ≤ (simplefs_readInode s (s.file_handle_array file_handle.toNat).inode_number).file_size →
      ∃ out, simplefs_read cfg s file_handle nbytes = some (0, out) := by
    intro hsize
    exact ⟨_, read_ok cfg hB s file_handle nbytes hrange hbound hoff hsize
      (fun p _ hp2 => inode_invariant_assigned cfg hB _ hinv p (by omega))⟩
  refine ⟨⟨?_, ?_⟩, hok⟩
  · rintro ⟨out, hout⟩
    by_contra hle
    obtain ⟨out', hout'⟩ := hok (by omega)
    rw [hout] at hout'
    simp at hout'
  · intro hgt
    refine ⟨[], ?_⟩
    unfold simplefs_read
    have h1 : ¬ (file_handle < 0 ∨ file_handle ≥ cfg.MAX_OPEN_FILES) := by omega
    simp only [h1, if_false, hbound, hgt, if_true]

/-- C4 at concrete inputs: in the scenario state after the 6-byte write,
reading 6 bytes through handle 0 at offset 0 succeeds, and asking for 7 bytes
is refused. -/
theorem C4_read_bounds_witness :
    (0 < scenario_cfg.BLOCKSIZE)
    ∧ (0 ≤ (0 : Int) ∧ (0 : Int) < scenario_cfg.MAX_OPEN_FILES)
    ∧ (scn3.file_handle_array (0 : Int).toNat).inode_number ≠ -1
    ∧ inode_invariant scenario_cfg
      (simplefs_readInode scn3 (scn3.file_handle_array (0 : Int).toNat).inode_number)
    ∧ 0 ≤ (scn3.file_handle_array (0 : Int).toNat).offset
    ∧ (∃ out, simplefs_read scenario_cfg scn3 0 6 = some (0, out))
    ∧ (∃ out, simplefs_read scenario_cfg scn3 0 7 = some (-1, out)) :=
  ⟨by decide, by decide, by decide, by decide, by decide,
    (C4_read_bounds scenario_cfg (by decide) scn3 0 6 (by decide) (by decide) (by decide)
      (by decide)).2 (by decide),
    (C4_read_bounds scenario_cfg (by decide) scn3 0 7 (by decide) (by decide) (by decide)
      (by decide)).1.2 (by decide)⟩

theorem same_block_range {B : Nat} (c p m : Nat) (hq : p / B = c / B) :
    (c % B ≤ p % B ∧ p % B < c % B + m) ↔ (c ≤ p ∧ p < c + m) := by
  have h1 := Nat.div_add_mod p B
  have h2 := Nat.div_add_mod c B
  rw [hq] at h1
  omega

theorem memcpy_into_in (blk : Nat → Char) (r : Nat) (buf : List Char) (w m k : Nat)
    (h : r ≤ k ∧ k < r + m) : memcpy_into blk r buf w m k = buf.getD (w + (k - r)) NUL := by
  simp only [memcpy_into, h, and_self, if_true]

theorem memcpy_into_out (blk : Nat → Char) (r : Nat) (buf : List Char) (w m k : Nat)
    (h : ¬ (r ≤ k ∧ k < r + m)) : memcpy_into blk r buf w m k = blk k := by
  simp only [memcpy_into, h, if_false]

theorem content_inv_init (cfg : Config) (buf : List Char) (n : Int) (s : FS) (ino : inode_t)
    (o : Nat) (hd : blocks_distinct cfg ino) (hf : blocks_not_free cfg s ino) :
    content_inv cfg buf n s ino o 0 o
      { disk := s, inode := ino, newly_allocated := fun _ => false } := by
  refine ⟨rfl, Nat.zero_le _, hd, hf, fun _ _ _ => rfl, ?_, fun _ _ _ _ => rfl, ?_⟩
  · intro p h1 h2; omega
  · intro p _ h1 h2; exact absurd h1 h2

theorem write_loop_content_inv (cfg : Config) (hB : 0 < cfg.BLOCKSIZE) (buf : List Char)
    (n : Int) (s0 : FS) (ino0 : inode_t) (o : Nat) (fuel w c : Nat) (st : write_state)
    (hst : content_inv cfg buf n s0 ino0 o w c st) (r : Bool × write_state)
    (hr : write_loop cfg buf n fuel (w : Int) (c : Int) st = some r) :
    r.1 = true → content_inv cfg buf n s0 ino0 o n.toNat (o + n.toNat) r.2 := by
  refine write_loop_ind cfg hB buf n (fun w c st => content_inv cfg buf n s0 ino0 o w c st)
    (fun b st => b = true → content_inv cfg buf n s0 ino0 o n.toNat (o + n.toNat) st)
    ?_ ?_ ?_ ?_ ?_ fuel w c st hst r hr
  · intro w c st h hw _
    have hwn : w = n.toNat := by have := h.2.1; omega
    have hc : c = o + n.toNat := by rw [← hwn]; exact h.1
    rw [← hwn, ← hwn] at *
    rw [← hc] at *
    exact h
  · intro w c st _ _ _ hb; exact Bool.noConfusion hb
  · intro w c st _ _ _ _ _ hb; exact Bool.noConfusion hb
  · intro w c st b h hw hq hd hlf
    obtain ⟨hc, hwn, hdist, hnf, hkeep, hwr, hold, hzero⟩ := h
    obtain ⟨_, hbf⟩ := lowest_free_some hlf
    have hm := chunk_le_rem cfg.BLOCKSIZE c (n.toNat - w)
    have hblk := chunk_le_block hB c (n.toNat - w)
    -- a block referenced before is not the block handed out
    have hne : ∀ j, j < cfg.MAX_FILE_SIZE → st.inode.direct_blocks j ≠ -1 →
        (st.inode.direct_blocks j).toNat ≠ b := by
      intro j hj hjd hjb
      have := hnf j hj hjd
      rw [hjb, hbf] at this
      exact Bool.noConfusion this
    -- the file byte at a position of another assigned block is unchanged
    have hother : ∀ p, p / cfg.BLOCKSIZE < cfg.MAX_FILE_SIZE →
        st.inode.direct_blocks (p / cfg.BLOCKSIZE) ≠ -1 →
        file_byte cfg
          { st.disk with
            datablock_freelist := Function.update st.disk.datablock_freelist b false,
            data_blocks := Function.update st.disk.data_blocks b
              (memcpy_into (fun _ => NUL) (c % cfg.BLOCKSIZE) buf w
                (chunk cfg.BLOCKSIZE c (n.toNat - w))) }
          { (st.inode) with
            direct_blocks :=
              Function.update st.inode.direct_blocks (c / cfg.BLOCKSIZE) (b : Int) } p
          = file_byte cfg st.disk st.inode p := by
      intro p hp hpd
      have hpq : p / cfg.BLOCKSIZE ≠ c / cfg.BLOCKSIZE := by
        intro h; rw [h] at hpd; exact hpd hd
      simp only [file_byte]
      rw [Function.update_noteq hpq, Function.update_noteq (hne _ hp hpd)]
    -- the file byte at a position of the new block
    have hnew : ∀ p, p / cfg.BLOCKSIZE = c / cfg.BLOCKSIZE →
        file_byte cfg
          { st.disk with
            datablock_freelist := Function.update st.disk.datablock_freelist b false,
            data_blocks := Function.update st.disk.data_blocks b
              (memcpy_into (fun _ => NUL) (c % cfg.BLOCKSIZE) buf w
                (chunk cfg.BLOCKSIZE c (n.toNat - w))) }
          { (st.inode) with
            direct_blocks :=
              Function.update st.inode.direct_blocks (c / cfg.BLOCKSIZE) (b : Int) } p
          = memcpy_into (fun _ => NUL) (c % cfg.BLOCKSIZE) buf w
              (chunk cfg.BLOCKSIZE c (n.toNat - w)) (p % cfg.BLOCKSIZE) := by
      intro p hp
      simp only [file_byte]
      rw [hp, Function.update_same, Int.toNat_ofNat, Function.update_same]
    refine ⟨by omega, by omega, ?_, ?_, ?_, ?_, ?_, ?_⟩
    · intro i hi j hj hij hid hjd
      dsimp only at hid hjd ⊢
      by_cases hiq : i = c / cfg.BLOCKSIZE
      · have hjq : j ≠ c / cfg.BLOCKSIZE := fun h => hij (hiq.trans h.symm)
        rw [Function.update_noteq hjq] at hjd ⊢
        rw [hiq, Function.update_same, Int.toNat_ofNat]
        exact fun h => hne j hj hjd h.symm
      · rw [Function.update_noteq hiq] at hid ⊢
        by_cases hjq : j = c / cfg.BLOCKSIZE
        · rw [hjq, Function.update_same, Int.toNat_ofNat]
          exact hne i hi hid
        · rw [Function.update_noteq hjq] at hjd ⊢
          exact hdist i hi j hj hij hid hjd
    · intro j hj hjd
      dsimp only at hjd ⊢
      by_cases hjq : j = c / cfg.BLOCKSIZE
      · rw [hjq, Function.update_same, Int.toNat_ofNat, Function.update_same]
      · rw [Function.update_noteq hjq] at hjd ⊢
        rw [Function.update_noteq (hne j hj hjd)]
        exact hnf j hj hjd
    · intro j hj hj0
      dsimp only
      have hjq : j ≠ c / cfg.BLOCKSIZE := by
        intro h
        have := hkeep j hj hj0
        rw [h] at this hj0
        rw [hd] at this
        exact hj0 this.symm
      rw [Function.update_noteq hjq]
      exact hkeep j hj hj0
    · intro p hp1 hp2
      by_cases hpw : p < o + w
      · obtain ⟨a1, a2, a3⟩ := hwr p hp1 hpw
        have hpq : p / cfg.BLOCKSIZE ≠ c / cfg.BLOCKSIZE := by
          intro h; rw [h] at a2; exact a2 hd
        refine ⟨a1, ?_, ?_⟩
        · dsimp only; rw [Function.update_noteq hpq]; exact a2
        · rw [hother p a1 a2]; exact a3
      · obtain ⟨e1, e2⟩ := div_mod_add_of_lt hB c (p - c) (by omega)
        have hpc : c + (p - c) = p := by omega
        rw [hpc] at e1 e2
        refine ⟨by omega, ?_, ?_⟩
        · dsimp only; rw [e1, Function.update_same]; omega
        · rw [hnew p e1, memcpy_into_in _ _ _ _ _ _ (by omega)]
          congr 1; omega
    · intro p hp hp0 hpr
      have hpd : st.inode.direct_blocks (p / cfg.BLOCKSIZE) ≠ -1 := by
        rw [hkeep _ hp hp0]; exact hp0
      rw [hother p hp hpd]
      exact hold p hp hp0 (by omega)
    · intro p hp hp0 hpd hpr
      dsimp only at hpd
      by_cases hpq : p / cfg.BLOCKSIZE = c / cfg.BLOCKSIZE
      · rw [hnew p hpq, memcpy_into_out]
        rw [same_block_range c p _ hpq]
        omega
      · rw [Function.update_noteq hpq] at hpd
        rw [hother p hp hpd]
        exact hzero p hp hp0 hpd (by omega)
  · intro w c st h hw hq hd
    obtain ⟨hc, hwn, hdist, hnf, hkeep, hwr, hold, hzero⟩ := h
    have hm := chunk_le_rem cfg.BLOCKSIZE c (n.toNat - w)
    have hblk := chunk_le_block hB c (n.toNat - w)
    -- the file byte at a position of another assigned block is unchanged
    have hother : ∀ p, p / cfg.BLOCKSIZE < cfg.MAX_FILE_SIZE →
        st.inode.direct_blocks (p / cfg.BLOCKSIZE) ≠ -1 →
        p / cfg.BLOCKSIZE ≠ c / cfg.BLOCKSIZE →
        file_byte cfg
          { st.disk with
            data_blocks := Function.update st.disk.data_blocks
              (st.inode.direct_blocks (c / cfg.BLOCKSIZE)).toNat
              (memcpy_into (st.disk.data_blocks (st.inode.direct_blocks (c / cfg.BLOCKSIZE)).toNat)
                (c % cfg.BLOCKSIZE) buf w (chunk cfg.BLOCKSIZE c (n.toNat - w))) }
          st.inode p
          = file_byte cfg st.disk st.inode p := by
      intro p hp hpd hpq
      simp only [file_byte]
      rw [Function.update_noteq (hdist _ hp _ hq hpq hpd hd)]
    -- the file byte at a position of the block written to
    have hsame : ∀ p, p / cfg.BLOCKSIZE = c / cfg.BLOCKSIZE →
        file_byte cfg
          { st.disk with
            data_blocks := Function.update st.disk.data_blocks
              (st.inode.direct_blocks (c / cfg.BLOCKSIZE)).toNat
              (memcpy_into (st.disk.data_blocks (st.inode.direct_blocks (c / cfg.BLOCKSIZE)).toNat)
                (c % cfg.BLOCKSIZE) buf w (chunk cfg.BLOCKSIZE c (n.toNat - w))) }
          st.inode p
          = memcpy_into (st.disk.data_blocks (st.inode.direct_blocks (c / cfg.BLOCKSIZE)).toNat)
              (c % cfg.BLOCKSIZE) buf w (chunk cfg.BLOCKSIZE c (n.toNat - w))
              (p % cfg.BLOCKSIZE) := by
      intro p hp
      simp only [file_byte]
      rw [hp, Function.update_same]
    -- outside the chunk the byte is the one before
    have hkept : ∀ p, p / cfg.BLOCKSIZE < cfg.MAX_FILE_SIZE →
        st.inode.direct_blocks (p / cfg.BLOCKSIZE) ≠ -1 →
        ¬ (c ≤ p ∧ p < c + chunk cfg.BLOCKSIZE c (n.toNat - w)) →
        file_byte cfg
          { st.disk with
            data_blocks := Function.update st.disk.data_blocks
              (st.inode.direct_blocks (c / cfg.BLOCKSIZE)).toNat
              (memcpy_into (st.disk.data_blocks (st.inode.direct_blocks (c / cfg.BLOCKSIZE)).toNat)
                (c % cfg.BLOCKSIZE) buf w (chunk cfg.BLOCKSIZE c (n.toNat - w))) }
          st.inode p
          = file_byte cfg st.disk st.inode p := by
      intro p hp hpd hpr
      by_cases hpq : p / cfg.BLOCKSIZE = c / cfg.BLOCKSIZE
      · rw [hsame p hpq, memcpy_into_out _ _ _ _ _ _ (by rw [same_block_range c p _ hpq]; exact hpr)]
        simp only [file_byte, hpq]
      · exact hother p hp hpd hpq
    refine ⟨by omega, by omega, hdist, hnf, hkeep, ?_, ?_, ?_⟩
    · intro p hp1 hp2
      by_cases hpw : p < o + w
      · obtain ⟨a1, a2, a3⟩ := hwr p hp1 hpw
        refine ⟨a1, a2, ?_⟩
        rw [hkept p a1 a2 (by omega)]; exact a3
      · obtain ⟨e1, e2⟩ := div_mod_add_of_lt hB c (p - c) (by omega)
        have hpc : c + (p - c) = p := by omega
        rw [hpc] at e1 e2
        refine ⟨by omega, by rw [e1]; exact hd, ?_⟩
        rw [hsame p e1, memcpy_into_in _ _ _ _ _ _ (by omega)]
        congr 1; omega
    · intro p hp hp0 hpr
      have hpd : st.inode.direct_blocks (p / cfg.BLOCKSIZE) ≠ -1 := by
        rw [hkeep _ hp hp0]; exact hp0
      rw [hkept p hp hpd (by omega)]
      exact hold p hp hp0 (by omega)
    · intro p hp hp0 hpd hpr
      rw [hkept p hp hpd (by omega)]
      exact hzero p hp hp0 hpd (by omega)

theorem content_inv_congr (cfg : Config) (buf : List Char) (n : Int) (s0 : FS) (ino0 : inode_t)
    (o w c : Nat) (st st' : write_state)
    (h1 : st'.disk.data_blocks = st.disk.data_blocks)
    (h2 : st'.disk.datablock_freelist = st.disk.datablock_freelist)
    (h3 : st'.inode.direct_blocks = st.inode.direct_blocks)
    (h : content_inv cfg buf n s0 ino0 o w c st) :
    content_inv cfg buf n s0 ino0 o w c st' := by
  unfold content_inv blocks_distinct blocks_not_free file_byte at *
  rw [h1, h2, h3]
  exact h

/-- The shape of a successful `simplefs_write`: the loop ran to its end, and
the state is the disk left by the loop with the inode record written back,
its size raised to `offset + nbytes` when that is larger. -/
theorem write_success_unfold (cfg : Config) (s : FS) (file_handle : Int) (buf : List Char)
    (nbytes : Int) (s' : FS)
    (hw : simplefs_write cfg s file_handle buf nbytes = some (0, s')) :
    (0 ≤ file_handle ∧ file_handle < cfg.MAX_OPEN_FILES)
    ∧ (s.file_handle_array file_handle.toNat).inode_number ≠ -1
    ∧ (s.file_handle_array file_handle.toNat).offset + nbytes
      ≤ (cfg.MAX_FILE_SIZE : Int) * cfg.BLOCKSIZE
    ∧ ∃ st, write_loop cfg buf nbytes nbytes.toNat 0
          (s.file_handle_array file_handle.toNat).offset
          { disk := s,
            inode := simplefs_readInode s (s.file_handle_array file_handle.toNat).inode_number,
            newly_allocated := fun _ => false } = some (true, st)
        ∧ s' = simplefs_writeInode st.disk (s.file_handle_array file_handle.toNat).inode_number
            (if (s.file_handle_array file_handle.toNat).offset + nbytes > st.inode.file_size then
              { (st.inode) with
                file_size := (s.file_handle_array file_handle.toNat).offset + nbytes }
            else st.inode) := by
  unfold simplefs_write at hw
  dsimp only at hw
  have h01 : ¬ ((-1 : Int) = 0) := by decide
  split at hw
  · simp only [Option.some.injEq, Prod.mk.injEq] at hw; exact absurd hw.1 h01
  · rename_i hr
    split at hw
    · simp only [Option.some.injEq, Prod.mk.injEq] at hw; exact absurd hw.1 h01
    · rename_i hb
      split at hw
      · simp only [Option.some.injEq, Prod.mk.injEq] at hw; exact absurd hw.1 h01
      · rename_i hc
        refine ⟨by omega, hb, by omega, ?_⟩
        split at hw
        · exact absurd hw (by simp)
        · rename_i st hl
          simp only [Option.some.injEq, Prod.mk.injEq, true_and] at hw
          exact ⟨st, hl, hw.symm⟩
        · simp only [Option.some.injEq, Prod.mk.injEq] at hw; exact absurd hw.1 h01

theorem write_loop_call_content_inv (cfg : Config) (hB : 0 < cfg.BLOCKSIZE) (buf : List Char)
    (n : Int) (s : FS) (ino : inode_t) (offset : Int) (hoff : 0 ≤ offset)
    (hd : blocks_distinct cfg ino) (hf : blocks_not_free cfg s ino) (st : write_state)
    (hr : write_loop cfg buf n n.toNat 0 offset
      { disk := s, inode := ino, newly_allocated := fun _ => false } = some (true, st)) :
    content_inv cfg buf n s ino offset.toNat n.toNat (offset.toNat + n.toNat) st := by
  have h0 : (0 : Int) = ((0 : Nat) : Int) := rfl
  have ho : offset = ((offset.toNat : Nat) : Int) := by omega
  rw [h0, ho] at hr
  exact write_loop_content_inv cfg hB buf n s ino offset.toNat _ _ _ _
    (content_inv_init cfg buf n s ino offset.toNat hd hf) _ hr rfl

/-- The effect of a successful `simplefs_write` on a file whose blocks are
exclusively its own. -/
theorem write_success_spec (cfg : Config) (hB : 0 < cfg.BLOCKSIZE) (s : FS) (file_handle : Int)
    (buf : List Char) (nbytes : Int) (s' : FS)
    (hoff : 0 ≤ (s.file_handle_array file_handle.toNat).offset)
    (hd : blocks_distinct cfg
      (simplefs_readInode s (s.file_handle_array file_handle.toNat).inode_number))
    (hf : blocks_not_free cfg s
      (simplefs_readInode s (s.file_handle_array file_handle.toNat).inode_number))
    (hw : simplefs_write cfg s file_handle buf nbytes = some (0, s')) :
    s'.file_handle_array = s.file_handle_array
    ∧ (simplefs_readInode s' (s.file_handle_array file_handle.toNat).inode_number).file_size
      = max (simplefs_readInode s (s.file_handle_array file_handle.toNat).inode_number).file_size
          ((s.file_handle_array file_handle.toNat).offset + nbytes)
    ∧ content_inv cfg buf nbytes s
        (simplefs_readInode s (s.file_handle_array file_handle.toNat).inode_number)
        (s.file_handle_array file_handle.toNat).offset.toNat nbytes.toNat
        ((s.file_handle_array file_handle.toNat).offset.toNat + nbytes.toNat)
        { disk := s',
          inode := simplefs_readInode s' (s.file_handle_array file_handle.toNat).inode_number,
          newly_allocated := fun _ => false } := by
  obtain ⟨_, _, _, st, hl, hs'⟩ := write_success_unfold cfg s file_handle buf nbytes s' hw
  have hrb := write_loop_call_rollback_inv cfg hB buf nbytes s _ _ hoff _ hl
  have hci := write_loop_call_content_inv cfg hB buf nbytes s _ _ hoff hd hf st hl
  obtain ⟨r1, r2, r3, r4, r5, r6, _⟩ := hrb
  dsimp only at r1 r2 r3 r4 r5 r6
  subst hs'
  refine ⟨r3, ?_, ?_⟩
  · simp only [simplefs_readInode, simplefs_writeInode, Function.update_same]
    split
    · rename_i hgt
      simp only [simplefs_readInode] at r6
      rw [r6] at hgt
      dsimp only
      rw [max_eq_right (by omega)]
    · rename_i hle
      simp only [simplefs_readInode] at r6
      rw [r6] at hle ⊢
      rw [max_eq_left (by omega)]
  · refine content_inv_congr cfg buf nbytes s _ _ _ _ st _ rfl rfl ?_ hci
    simp only [simplefs_readInode, simplefs_writeInode, Function.update_same]
    split <;> rfl

theorem map_getD_range (l : List Char) (d : Char) :
    (List.range l.length).map (fun j => l.getD j d) = l := by
  apply List.ext_getElem
  · simp
  · intro i h1 h2
    simp [List.getD_eq_getElem, h2]

/-- C1 (as stated) fails: in `alias_state` handle 0 is in range and bound to
an inode that satisfies the inode invariant, the offset is 0 ≤ file_size, the
buffer has 8 bytes with 0 + 8 ≤ 8, no referenced block is on the free list and
the write succeeds; yet reading the 8 bytes back at offset 0 returns
"efghefgh", not "abcdefgh", because both references name the same block. -/
theorem C1_counterexample :
    (0 ≤ (0 : Int) ∧ (0 : Int) < scenario_cfg.MAX_OPEN_FILES)
    ∧ (alias_state.file_handle_array 0).inode_number ≠ -1
    ∧ inode_invariant scenario_cfg
        (simplefs_readInode alias_state (alias_state.file_handle_array 0).inode_number)
    ∧ (0 ≤ (alias_state.file_handle_array 0).offset
        ∧ (alias_state.file_handle_array 0).offset
          ≤ (simplefs_readInode alias_state
              (alias_state.file_handle_array 0).inode_number).file_size)
    ∧ ("abcdefgh".toList.length : Int) = 8
    ∧ (alias_state.file_handle_array 0).offset + 8
        ≤ (scenario_cfg.MAX_FILE_SIZE : Int) * scenario_cfg.BLOCKSIZE
    ∧ blocks_not_free scenario_cfg alias_state
        (simplefs_readInode alias_state (alias_state.file_handle_array 0).inode_number)
    ∧ simplefs_write scenario_cfg alias_state 0 "abcdefgh".toList 8 = some (0, alias_after)
    ∧ simplefs_seek scenario_cfg alias_after 0 0 = (0, (simplefs_seek scenario_cfg alias_after 0 0).2)
    ∧ ((simplefs_seek scenario_cfg alias_after 0 0).2.file_handle_array 0).offset = 0
    ∧ simplefs_read scenario_cfg (simplefs_seek scenario_cfg alias_after 0 0).2 0 8
        = some (0, "efghefgh".toList)
    ∧ simplefs_read scenario_cfg (simplefs_seek scenario_cfg alias_after 0 0).2 0 8
        ≠ some (0, "abcdefgh".toList) :=
  ⟨by decide, by decide, by decide, by decide, by decide, by decide, by decide,
    state_of_eq alias_state (by decide), Prod.ext (by decide) rfl, by decide, by decide,
    by decide⟩

/-- C1 (amended): let handle `h` have a non-negative offset `o` and be bound to
an inode whose assigned block references are pairwise distinct and none of
which is on the allocator's free list, and let `buf` have `nbytes` bytes. If
`simplefs_write(h, buf, nbytes)` succeeds, then the handle is still at offset
`o`, seeking back to `o` (a seek by 0) succeeds and leaves the state as it is,
and `simplefs_read(h, nbytes)` then succeeds and returns exactly `buf`. -/
theorem C1_write_read_round_trip (cfg : Config) (hB : 0 < cfg.BLOCKSIZE) (s : FS)
    (file_handle : Int) (buf : List Char) (nbytes : Int) (s' : FS)
    (hoff : 0 ≤ (s.file_handle_array file_handle.toNat).offset)
    (hlen : (buf.length : Int) = nbytes)
    (hdist : blocks_distinct cfg
      (simplefs_readInode s (s.file_handle_array file_handle.toNat).inode_number))
    (hfresh : blocks_not_free cfg s
      (simplefs_readInode s (s.file_handle_array file_handle.toNat).inode_number))
    (hw : simplefs_write cfg s file_handle buf nbytes = some (0, s')) :
    (s'.file_handle_array file_handle.toNat).offset
      = (s.file_handle_array file_handle.toNat).offset
    ∧ simplefs_seek cfg s' file_handle 0 = (0, s')
    ∧ simplefs_read cfg s' file_handle nbytes = some (0, buf) := by
  obtain ⟨hrange, hbound, _, _⟩ := write_success_unfold cfg s file_handle buf nbytes s' hw
  obtain ⟨hfh, hsize, hci⟩ :=
    write_success_spec cfg hB s file_handle buf nbytes s' hoff hdist hfresh hw
  obtain ⟨_, _, _, _, _, hwr, _, _⟩ := hci
  dsimp only at hwr
  have hn : nbytes.toNat = buf.length := by omega
  refine ⟨by rw [hfh], ?_, ?_⟩
  · unfold simplefs_seek
    have h1 : ¬ (file_handle < 0 ∨ file_handle ≥ cfg.MAX_OPEN_FILES) := by omega
    have hb' : (s'.file_handle_array file_handle.toNat).inode_number ≠ -1 := by
      rw [hfh]; exact hbound
    have h2 : ¬ ((s'.file_handle_array file_handle.toNat).offset < 0
        ∨ (s'.file_handle_array file_handle.toNat).offset
          > (simplefs_readInode s'
              (s'.file_handle_array file_handle.toNat).inode_number).file_size) := by
      rw [hfh, hsize]
      have := le_max_right
        (simplefs_readInode s (s.file_handle_array file_handle.toNat).inode_number).file_size
        ((s.file_handle_array file_handle.toNat).offset + nbytes)
      omega
    simp only [h1, if_false, hb', h2, add_zero, Function.update_eq_self]
  · have hr := read_ok cfg hB s' file_handle nbytes hrange (by rw [hfh]; exact hbound)
      (by rw [hfh]; exact hoff)
      (by rw [hfh, hsize]; exact le_max_right _ _)
      (by
        rw [hfh]
        intro p hp1 hp2
        obtain ⟨a1, a2, _⟩ := hwr p (by omega) (by omega)
        exact ⟨a1, a2⟩)
    rw [hr, hfh]
    have hmap : (List.range nbytes.toNat).map (fun j =>
        file_byte cfg s'
          (simplefs_readInode s' (s.file_handle_array file_handle.toNat).inode_number)
          ((s.file_handle_array file_handle.toNat).offset.toNat + j))
        = (List.range buf.length).map (fun j => buf.getD j NUL) := by
      rw [hn]
      apply List.map_congr_left
      intro j hj
      rw [List.mem_range] at hj
      obtain ⟨_, _, a3⟩ := hwr ((s.file_handle_array file_handle.toNat).offset.toNat + j)
        (by omega) (by omega)
      rw [a3]
      congr 1; omega
    rw [hmap, map_getD_range]

/-- C1 (amended) at a concrete input: the 6-byte write of the scenario on the
freshly created and opened file. -/
theorem C1_write_read_round_trip_witness :
    (0 < scenario_cfg.BLOCKSIZE)
    ∧ 0 ≤ (scn2.file_handle_array (0 : Int).toNat).offset
    ∧ ("abcdef".toList.length : Int) = 6
    ∧ blocks_distinct scenario_cfg
        (simplefs_readInode scn2 (scn2.file_handle_array (0 : Int).toNat).inode_number)
    ∧ blocks_not_free scenario_cfg scn2
        (simplefs_readInode scn2 (scn2.file_handle_array (0 : Int).toNat).inode_number)
    ∧ simplefs_write scenario_cfg scn2 0 "abcdef".toList 6 = some (0, scn3)
    ∧ simplefs_read scenario_cfg scn3 0 6 = some (0, "abcdef".toList) :=
  ⟨by decide, by decide, by decide, by decide, by decide, state_of_eq scn2 (by decide),
    (C1_write_read_round_trip scenario_cfg (by decide) scn2 0 "abcdef".toList 6 scn3
      (by decide) (by decide) (by decide) (by decide) (state_of_eq scn2 (by decide))).2.2⟩

/-- C5 (as stated) fails. In `alias_state` both references of the inode name
block 3, in `stale_state` the free list offers the block the inode references;
in both the handle is bound to an inode that satisfies the inode invariant, the
offset is 0 ≤ file_size, the buffer has 8 bytes and the write succeeds, yet
byte 0 of the file after the write is 'e', not the first byte 'a' of the
buffer. -/
theorem C5_counterexample :
    (inode_invariant scenario_cfg
        (simplefs_readInode alias_state (alias_state.file_handle_array 0).inode_number)
      ∧ (0 ≤ (alias_state.file_handle_array 0).offset
        ∧ (alias_state.file_handle_array 0).offset
          ≤ (simplefs_readInode alias_state
              (alias_state.file_handle_array 0).inode_number).file_size)
      ∧ simplefs_write scenario_cfg alias_state 0 "abcdefgh".toList 8 = some (0, alias_after)
      ∧ "abcdefgh".toList[0]? = some 'a'
      ∧ file_byte scenario_cfg alias_after (simplefs_readInode alias_after 0) 0 = 'e')
    ∧ (inode_invariant scenario_cfg
        (simplefs_readInode stale_state (stale_state.file_handle_array 0).inode_number)
      ∧ (0 ≤ (stale_state.file_handle_array 0).offset
        ∧ (stale_state.file_handle_array 0).offset
          ≤ (simplefs_readInode stale_state
              (stale_state.file_handle_array 0).inode_number).file_size)
      ∧ simplefs_write scenario_cfg stale_state 0 "abcdefgh".toList 8 = some (0, stale_after)
      ∧ "abcdefgh".toList[0]? = some 'a'
      ∧ file_byte scenario_cfg stale_after (simplefs_readInode stale_after 0) 0 = 'e') :=
  ⟨⟨by decide, by decide, state_of_eq alias_state (by decide), by decide, by decide⟩,
    ⟨by decide, by decide, state_of_eq stale_state (by decide), by decide, by decide⟩⟩

/-- C5 (amended): let handle `h` be bound to an inode that satisfies the inode
invariant, whose assigned block references are pairwise distinct and none of
which is on the allocator's free list, with offset `0 ≤ o ≤ file_size`, and let
`buf` have `nbytes` bytes. If `simplefs_write(h, buf, nbytes)` succeeds, then
the new `file_size` is `max(file_size, o + nbytes)`, the file byte at every
position `p` with `o ≤ p < o + nbytes` is `buf[p - o]`, the file byte at every
position `p < file_size` outside that range is unchanged, and every byte
outside that range of a block assigned by the call is NUL. -/
theorem C5_write_postcondition (cfg : Config) (hB : 0 < cfg.BLOCKSIZE) (s : FS)
    (file_handle : Int) (buf : List Char) (nbytes : Int) (s' : FS)
    (hinv : inode_invariant cfg
      (simplefs_readInode s (s.file_handle_array file_handle.toNat).inode_number))
    (hdist : blocks_distinct cfg
      (simplefs_readInode s (s.file_handle_array file_handle.toNat).inode_number))
    (hfresh : blocks_not_free cfg s
      (simplefs_readInode s (s.file_handle_array file_handle.toNat).inode_number))
    (hoff : 0 ≤ (s.file_handle_array file_handle.toNat).offset
      ∧ (s.file_handle_array file_handle.toNat).offset
        ≤ (simplefs_readInode s (s.file_handle_array file_handle.toNat).inode_number).file_size)
    (hlen : (buf.length : Int) = nbytes)
    (hw : simplefs_write cfg s file_handle buf nbytes = some (0, s')) :
    (simplefs_readInode s' (s.file_handle_array file_handle.toNat).inode_number).file_size
      = max (simplefs_readInode s (s.file_handle_array file_handle.toNat).inode_number).file_size
          ((s.file_handle_array file_handle.toNat).offset + nbytes)
    ∧ (∀ p : Nat, (s.file_handle_array file_handle.toNat).offset ≤ p →
        (p : Int) < (s.file_handle_array file_handle.toNat).offset + nbytes →
        buf[p - (s.file_handle_array file_handle.toNat).offset.toNat]?
          = some (file_byte cfg s'
              (simplefs_readInode s' (s.file_handle_array file_handle.toNat).inode_number) p))
    ∧ (∀ p : Nat,
        (p : Int)
          < (simplefs_readInode s (s.file_handle_array file_handle.toNat).inode_number).file_size →
        ¬ ((s.file_handle_array file_handle.toNat).offset ≤ p
          ∧ (p : Int) < (s.file_handle_array file_handle.toNat).offset + nbytes) →
        file_byte cfg s'
            (simplefs_readInode s' (s.file_handle_array file_handle.toNat).inode_number) p
          = file_byte cfg s
              (simplefs_readInode s (s.file_handle_array file_handle.toNat).inode_number) p)
    ∧ (∀ p : Nat, p / cfg.BLOCKSIZE < cfg.MAX_FILE_SIZE →
        (simplefs_readInode s (s.file_handle_array file_handle.toNat).inode_number).direct_blocks
          (p / cfg.BLOCKSIZE) = -1 →
        (simplefs_readInode s' (s.file_handle_array file_handle.toNat).inode_number).direct_blocks
          (p / cfg.BLOCKSIZE) ≠ -1 →
        ¬ ((s.file_handle_array file_handle.toNat).offset ≤ p
          ∧ (p : Int) < (s.file_handle_array file_handle.toNat).offset + nbytes) →
        file_byte cfg s'
            (simplefs_readInode s' (s.file_handle_array file_handle.toNat).inode_number) p
          = NUL) := by
  obtain ⟨_, hsize, hci⟩ :=
    write_success_spec cfg hB s file_handle buf nbytes s' hoff.1 hdist hfresh hw
  obtain ⟨_, _, _, _, _, hwr, hold, hzero⟩ := hci
  dsimp only at hwr hold hzero
  refine ⟨hsize, ?_, ?_, ?_⟩
  · intro p hp1 hp2
    obtain ⟨_, _, a3⟩ := hwr p (by omega) (by omega)
    rw [a3, List.getD_eq_getElem _ _ (by omega), List.getElem?_eq_getElem (by omega)]
  · intro p hp hpr
    obtain ⟨a1, a2⟩ := inode_invariant_assigned cfg hB _ hinv p hp
    exact hold p a1 a2 (by omega)
  · intro p hp hp0 hpd hpr
    exact hzero p hp hp0 hpd (by omega)

/-- C5 (amended) at a concrete input: the 2-byte write "XY" of the scenario
over the file holding "abcdef"; the size stays 6 and byte 2 is still 'c'. -/
theorem C5_write_postcondition_witness :
    (0 < scenario_cfg.BLOCKSIZE)
    ∧ inode_invariant scenario_cfg
        (simplefs_readInode scn4 (scn4.file_handle_array (0 : Int).toNat).inode_number)
    ∧ blocks_distinct scenario_cfg
        (simplefs_readInode scn4 (scn4.file_handle_array (0 : Int).toNat).inode_number)
    ∧ blocks_not_free scenario_cfg scn4
        (simplefs_readInode scn4 (scn4.file_handle_array (0 : Int).toNat).inode_number)
    ∧ (0 ≤ (scn4.file_handle_array (0 : Int).toNat).offset
      ∧ (scn4.file_handle_array (0 : Int).toNat).offset
        ≤ (simplefs_readInode scn4
            (scn4.file_handle_array (0 : Int).toNat).inode_number).file_size)
    ∧ ("XY".toList.length : Int) = 2
    ∧ simplefs_write scenario_cfg scn4 0 "XY".toList 2 = some (0, scn5)
    ∧ (simplefs_readInode scn5 (scn4.file_handle_array (0 : Int).toNat).inode_number).file_size
      = max (simplefs_readInode scn4
            (scn4.file_handle_array (0 : Int).toNat).inode_number).file_size
          ((scn4.file_handle_array (0 : Int).toNat).offset + 2)
    ∧ file_byte scenario_cfg scn5
          (simplefs_readInode scn5 (scn4.file_handle_array (0 : Int).toNat).inode_number) 2
        = file_byte scenario_cfg scn4
          (simplefs_readInode scn4 (scn4.file_handle_array (0 : Int).toNat).inode_number) 2 :=
  ⟨by decide, by decide, by decide, by decide, by decide, by decide,
    state_of_eq scn4 (by decide),
    (C5_write_postcondition scenario_cfg (by decide) scn4 0 "XY".toList 2 scn5 (by decide)
      (by decide) (by decide) (by decide) (by decide) (state_of_eq scn4 (by decide))).1,
    (C5_write_postcondition scenario_cfg (by decide) scn4 0 "XY".toList 2 scn5 (by decide)
      (by decide) (by decide) (by decide) (by decide) (state_of_eq scn4 (by decide))).2.2.1 2
      (by decide) (by decide)⟩

theorem getD_eq_some {α : Type} {o : Option α} (d : α) (h : o.isSome = true) :
    o = some (o.getD d) := by
  cases o with
  | none => simp at h
  | some x => rfl

/-- C7 (as stated) fails: with a single data block, handle 0 is in range and
bound, `offset + nbytes = 6 ≤ 8 = MAX_FILE_SIZE * BLOCKSIZE`, and the write
fails all the same, for want of a second block. -/
theorem C7_counterexample :
    (0 ≤ (0 : Int) ∧ (0 : Int) < tight_cfg.MAX_OPEN_FILES)
    ∧ (tight1.file_handle_array (0 : Int).toNat).inode_number ≠ -1
    ∧ ¬ ((tight1.file_handle_array (0 : Int).toNat).offset + 6
        > (tight_cfg.MAX_FILE_SIZE : Int) * tight_cfg.BLOCKSIZE)
    ∧ simplefs_write tight_cfg tight1 0 "abcdef".toList 6 = some (-1, tight2) :=
  ⟨by decide, by decide, by decide, state_of_eq tight1 (by decide)⟩

/-- C3 (as stated) fails: with a single inode, the calls `dangling_ops` on the
fresh file system lead to a state in which inode 0 is in use with `file_size = 7`, its reference
at index 0 unassigned and its reference at index 1 assigned: one assigned
reference where two are needed, and not at the front. -/
theorem C3_counterexample :
    run single_cfg simplefs_formatDisk dangling_ops = some dangling_state
    ∧ (dangling_state.inodes 0).status = INODE_IN_USE
    ∧ (dangling_state.inodes 0).file_size = 7
    ∧ (dangling_state.inodes 0).direct_blocks 0 = -1
    ∧ (dangling_state.inodes 0).direct_blocks 1 ≠ -1
    ∧ ¬ inode_invariant single_cfg (dangling_state.inodes 0)
    ∧ ¬ all_inodes_invariant single_cfg dangling_state :=
  ⟨getD_eq_some _ (by decide), by decide, by decide, by decide, by decide, by decide,
    fun h => absurd (h 0 (by decide) (by decide)) (by decide)⟩

/-- C10: with `MAX_NAME_STRLEN = 4`, creating "abcd" twice succeeds twice: the
stored name is "abc", which the conflict check compares with "abcd". After the
two calls inodes 0 and 1 are both in use and both hold the name "abc". -/
theorem C10_duplicate_names :
    run short_name_cfg simplefs_formatDisk duplicate_ops = some duplicate_state
    ∧ (simplefs_create short_name_cfg simplefs_formatDisk "abcd".toList).1 = 0
    ∧ (simplefs_create short_name_cfg
        (simplefs_create short_name_cfg simplefs_formatDisk "abcd".toList).2 "abcd".toList).1 = 1
    ∧ (duplicate_state.inodes 0).status = INODE_IN_USE
    ∧ (duplicate_state.inodes 1).status = INODE_IN_USE
    ∧ (duplicate_state.inodes 0).name = "abc".toList
    ∧ (duplicate_state.inodes 1).name = "abc".toList
    ∧ ¬ names_unique short_name_cfg duplicate_state :=
  ⟨getD_eq_some _ (by decide), by decide, by decide, by decide, by decide, by decide, by decide,
    fun h => absurd (h 0 (by decide) 1 (by decide) (by decide) (by decide) (by decide))
      (by decide)⟩

theorem find_inode_by_name_from_spec (s : FS) (filename : List Char) (k i : Nat) :
    (find_inode_by_name_from s filename i k = -1
      ∧ ∀ j, i ≤ j → j < i + k →
          ¬ ((s.inodes j).status = INODE_IN_USE ∧ (s.inodes j).name = filename))
    ∨ ∃ j : Nat, find_inode_by_name_from s filename i k = (j : Int) ∧ i ≤ j ∧ j < i + k
        ∧ (s.inodes j).status = INODE_IN_USE ∧ (s.inodes j).name = filename := by
  induction k generalizing i with
  | zero =>
    left
    exact ⟨rfl, fun j h1 h2 => by omega⟩
  | succ k ih =>
    unfold find_inode_by_name_from
    simp only [simplefs_readInode, Int.toNat_ofNat]
    by_cases hc : (s.inodes i).status = INODE_IN_USE ∧ (s.inodes i).name = filename
    · right
      rw [if_pos hc]
      exact ⟨i, rfl, Nat.le_refl _, by omega, hc.1, hc.2⟩
    · rw [if_neg hc]
      rcases ih (i + 1) with ⟨h1, h2⟩ | ⟨j, h1, h2, h3, h4⟩
      · left
        refine ⟨h1, fun j hj1 hj2 => ?_⟩
        by_cases hji : j = i
        · subst hji; exact hc
        · exact h2 j (by omega) (by omega)
      · right
        exact ⟨j, h1, by omega, by omega, h4⟩

theorem find_inode_by_name_spec (cfg : Config) (s : FS) (filename : List Char) :
    (find_inode_by_name cfg s filename = -1
      ∧ ∀ j, j < cfg.NUM_INODES →
          ¬ ((s.inodes j).status = INODE_IN_USE ∧ (s.inodes j).name = filename))
    ∨ ∃ j : Nat, find_inode_by_name cfg s filename = (j : Int) ∧ j < cfg.NUM_INODES
        ∧ (s.inodes j).status = INODE_IN_USE ∧ (s.inodes j).name = filename := by
  unfold find_inode_by_name
  rcases find_inode_by_name_from_spec s filename cfg.NUM_INODES 0 with ⟨h1, h2⟩ | ⟨j, h1, _, h3, h4⟩
  · left
    exact ⟨h1, fun j hj => h2 j (Nat.zero_le _) (by omega)⟩
  · right
    exact ⟨j, h1, by omega, h4⟩

theorem find_free_filehandle_from_spec (s : FS) (k i : Nat) :
    find_free_filehandle_from s i k = -1
    ∨ ∃ j : Nat, find_free_filehandle_from s i k = (j : Int) ∧ i ≤ j ∧ j < i + k
        ∧ (s.file_handle_array j).inode_number = -1 := by
  induction k generalizing i with
  | zero => left; rfl
  | succ k ih =>
    unfold find_free_filehandle_from
    by_cases hc : (s.file_handle_array i).inode_number = -1
    · right
      rw [if_pos hc]
      exact ⟨i, rfl, Nat.le_refl _, by omega, hc⟩
    · rw [if_neg hc]
      rcases ih (i + 1) with h1 | ⟨j, h1, h2, h3, h4⟩
      · left; exact h1
      · right; exact ⟨j, h1, by omega, by omega, h4⟩

theorem find_free_filehandle_spec (cfg : Config) (s : FS) :
    find_free_filehandle cfg s = -1
    ∨ ∃ j : Nat, find_free_filehandle cfg s = (j : Int) ∧ j < cfg.MAX_OPEN_FILES
        ∧ (s.file_handle_array j).inode_number = -1 := by
  unfold find_free_filehandle
  rcases find_free_filehandle_from_spec s cfg.MAX_OPEN_FILES 0 with h1 | ⟨j, h1, _, h3, h4⟩
  · left; exact h1
  · right; exact ⟨j, h1, by omega, h4⟩

theorem delete_loop_frame (s : FS) (inode : inode_t) (n : Nat) :
    (delete_loop s inode n).1.inodes = s.inodes
    ∧ (delete_loop s inode n).1.inode_freelist = s.inode_freelist
    ∧ (delete_loop s inode n).1.data_blocks = s.data_blocks
    ∧ (delete_loop s inode n).1.file_handle_array = s.file_handle_array := by
  induction n with
  | zero => exact ⟨rfl, rfl, rfl, rfl⟩
  | succ n ih =>
    unfold delete_loop
    dsimp only
    split
    · exact ih
    · exact ih

theorem blocks_needed_zero (cfg : Config) (hB : 0 < cfg.BLOCKSIZE) : blocks_needed cfg 0 = 0 := by
  unfold blocks_needed
  apply Int.ediv_eq_zero_of_lt <;> omega

theorem inode_invariant_empty (cfg : Config) (hB : 0 < cfg.BLOCKSIZE) (st : inode_status)
    (nm : List Char) :
    inode_invariant cfg
      { status := st, name := nm, file_size := 0, direct_blocks := fun _ => -1 } := by
  unfold inode_invariant assigned_count
  simp only [blocks_needed_zero cfg hB]
  refine ⟨?_, fun j _ => ?_⟩
  · simp
  · simp

theorem create_good (cfg : Config) (hB : 0 < cfg.BLOCKSIZE) (s : FS) (filename : List Char)
    (h : good_state cfg s) : good_state cfg (simplefs_create cfg s filename).2 := by
  unfold simplefs_create
  split
  · exact h
  · unfold simplefs_allocInode
    cases hlf : lowest_free s.inode_freelist cfg.NUM_INODES with
    | none => simp only [if_true]; exact h
    | some i =>
      obtain ⟨hi, hfree⟩ := lowest_free_some hlf
      obtain ⟨g1, g2, g3⟩ := h
      have hst := g3 i hi hfree
      have hne : ¬ ((i : Int) = -1) := by omega
      simp only [hne, if_false, simplefs_writeInode, Int.toNat_ofNat]
      refine ⟨?_, ?_, ?_⟩
      · intro j hj hju
        by_cases hji : j = i
        · subst hji
          simp only [Function.update_same]
          exact ⟨inode_invariant_empty cfg hB _ _, le_refl _⟩
        · simp only [Function.update_noteq hji] at hju ⊢
          exact g1 j hj hju
      · intro k hk hb
        obtain ⟨a1, a2, a3, a4, a5⟩ := g2 k hk hb
        have hki : (s.file_handle_array k).inode_number.toNat ≠ i := by
          intro hEq
          rw [hEq, hst] at a3
          exact inode_status.noConfusion a3
        dsimp only
        rw [Function.update_noteq hki]
        exact ⟨a1, a2, a3, a4, a5⟩
      · intro j hj hjf
        dsimp only at hjf ⊢
        by_cases hji : j = i
        · subst hji
          rw [Function.update_same] at hjf
          exact Bool.noConfusion hjf
        · rw [Function.update_noteq hji] at hjf ⊢
          exact g3 j hj hjf

theorem delete_good (cfg : Config) (s : FS) (filename : List Char) (h : good_state cfg s)
    (hadm : ¬ deletes_open_file cfg s (Op.delete filename)) :
    good_state cfg (simplefs_delete cfg s filename) := by
  unfold simplefs_delete
  dsimp only
  rcases find_inode_by_name_spec cfg s filename with ⟨h1, _⟩ | ⟨i, h1, hi, hu, _⟩
  · rw [if_pos h1]; exact h
  · have hne : ¬ (find_inode_by_name cfg s filename = -1) := by omega
    rw [if_neg hne, h1]
    obtain ⟨f1, f2, _, f4⟩ := delete_loop_frame s (simplefs_readInode s (i : Int)) cfg.MAX_FILE_SIZE
    obtain ⟨g1, g2, g3⟩ := h
    have hnoh : ∀ k, k < cfg.MAX_OPEN_FILES → (s.file_handle_array k).inode_number ≠ (i : Int) := by
      intro k hk hEq
      apply hadm
      unfold deletes_open_file
      exact ⟨hne, k, hk, by rw [h1]; exact hEq⟩
    simp only [simplefs_freeInode, Int.toNat_ofNat, f1, f2, f4]
    refine ⟨?_, ?_, ?_⟩
    · intro j hj hju
      by_cases hji : j = i
      · subst hji
        simp only [Function.update_same] at hju
        exact inode_status.noConfusion hju
      · simp only [Function.update_noteq hji] at hju ⊢
        exact g1 j hj hju
    · intro k hk hb
      obtain ⟨a1, a2, a3, a4, a5⟩ := g2 k hk hb
      have hki : (s.file_handle_array k).inode_number.toNat ≠ i := by
        intro hEq
        exact hnoh k hk (by omega)
      dsimp only
      rw [Function.update_noteq hki]
      exact ⟨a1, a2, a3, a4, a5⟩
    · intro j hj hjf
      dsimp only at hjf ⊢
      by_cases hji : j = i
      · subst hji
        simp only [Function.update_same]
      · rw [Function.update_noteq hji] at hjf ⊢
        exact g3 j hj hjf

theorem open_good (cfg : Config) (s : FS) (filename : List Char) (h : good_state cfg s) :
    good_state cfg (simplefs_open cfg s filename).2 := by
  unfold simplefs_open
  dsimp only
  rcases find_inode_by_name_spec cfg s filename with ⟨h1, _⟩ | ⟨i, h1, hi, hu, _⟩
  · rw [if_pos h1]; exact h
  · have hne : ¬ (find_inode_by_name cfg s filename = -1) := by omega
    rw [if_neg hne]
    rcases find_free_filehandle_spec cfg s with h2 | ⟨k, h2, hk, _⟩
    · rw [if_pos h2]; exact h
    · have hne2 : ¬ (find_free_filehandle cfg s = -1) := by omega
      rw [if_neg hne2, h1, h2]
      obtain ⟨g1, g2, g3⟩ := h
      refine ⟨g1, ?_, g3⟩
      intro k' hk' hb
      dsimp only at hb ⊢
      rw [Int.toNat_ofNat] at hb ⊢
      by_cases hkk : k' = k
      · subst hkk
        rw [Function.update_same]
        dsimp only
        rw [Int.toNat_ofNat]
        exact ⟨by omega, by omega, hu, le_refl _, (g1 i hi hu).2⟩
      · rw [Function.update_noteq hkk] at hb ⊢
        exact g2 k' hk' hb

theorem close_good (cfg : Config) (s : FS) (file_handle : Int) (h : good_state cfg s) :
    good_state cfg (simplefs_close cfg s file_handle) := by
  unfold simplefs_close
  split
  · exact h
  · obtain ⟨g1, g2, g3⟩ := h
    refine ⟨g1, ?_, g3⟩
    intro k hk hb
    dsimp only at hb ⊢
    by_cases hkk : k = file_handle.toNat
    · subst hkk
      rw [Function.update_same] at hb
      exact absurd rfl hb
    · rw [Function.update_noteq hkk] at hb ⊢
      exact g2 k hk hb

theorem seek_good (cfg : Config) (s : FS) (file_handle : Int) (nseek : Int)
    (h : good_state cfg s) : good_state cfg (simplefs_seek cfg s file_handle nseek).2 := by
  unfold simplefs_seek
  dsimp only
  split
  · exact h
  · rename_i hr
    split
    · exact h
    · rename_i hbnd
      split
      · exact h
      · rename_i hc
        obtain ⟨g1, g2, g3⟩ := h
        refine ⟨g1, ?_, g3⟩
        intro k hk hb
        dsimp only at hb ⊢
        by_cases hkk : k = file_handle.toNat
        · subst hkk
          rw [Function.update_same] at hb ⊢
          dsimp only at hb ⊢
          obtain ⟨a1, a2, a3, _, _⟩ := g2 _ hk hb
          simp only [simplefs_readInode] at hc
          exact ⟨a1, a2, a3, by omega, by omega⟩
        · rw [Function.update_noteq hkk] at hb ⊢
          exact g2 k hk hb

/-- The assigned slots after `w` bytes of the write loop: those assigned
before, and the block indices of the positions written. -/
theorem write_loop_assigned (cfg : Config) (hB : 0 < cfg.BLOCKSIZE) (buf : List Char)
    (n : Int) (ino0 : inode_t) (o : Nat) (fuel w c : Nat) (st : write_state)
    (hst : c = o + w ∧ w ≤ n.toNat
      ∧ ∀ j, st.inode.direct_blocks j ≠ -1 ↔
          (ino0.direct_blocks j ≠ -1 ∨ ∃ p, o ≤ p ∧ p < o + w ∧ p / cfg.BLOCKSIZE = j))
    (r : Bool × write_state)
    (hr : write_loop cfg buf n fuel (w : Int) (c : Int) st = some r) :
    r.1 = true → ∀ j, r.2.inode.direct_blocks j ≠ -1 ↔
      (ino0.direct_blocks j ≠ -1 ∨ ∃ p, o ≤ p ∧ p < o + n.toNat ∧ p / cfg.BLOCKSIZE = j) := by
  refine write_loop_ind cfg hB buf n
    (fun w c st => c = o + w ∧ w ≤ n.toNat
      ∧ ∀ j, st.inode.direct_blocks j ≠ -1 ↔
          (ino0.direct_blocks j ≠ -1 ∨ ∃ p, o ≤ p ∧ p < o + w ∧ p / cfg.BLOCKSIZE = j))
    (fun b st => b = true → ∀ j, st.inode.direct_blocks j ≠ -1 ↔
      (ino0.direct_blocks j ≠ -1 ∨ ∃ p, o ≤ p ∧ p < o + n.toNat ∧ p / cfg.BLOCKSIZE = j))
    ?_ ?_ ?_ ?_ ?_ fuel w c st hst r hr
  · intro w c st h hw _
    have hwn : w = n.toNat := by have := h.2.1; omega
    rw [← hwn]; exact h.2.2
  · intro w c st _ _ _ hb; exact Bool.noConfusion hb
  · intro w c st _ _ _ _ _ hb; exact Bool.noConfusion hb
  · intro w c st b h hw hq hd hlf
    obtain ⟨hc, hwn, hT⟩ := h
    have hm := chunk_le_rem cfg.BLOCKSIZE c (n.toNat - w)
    have hpos := chunk_pos (c := c) hB (show 0 < n.toNat - w by omega)
    have hblk := chunk_le_block hB c (n.toNat - w)
    refine ⟨by omega, by omega, fun j => ?_⟩
    dsimp only
    by_cases hjq : j = c / cfg.BLOCKSIZE
    · subst hjq
      rw [Function.update_same]
      constructor
      · intro _; right; exact ⟨c, by omega, by omega, rfl⟩
      · intro _; omega
    · rw [Function.update_noteq hjq, hT j]
      constructor
      · rintro (h1 | ⟨p, h1, h2, h3⟩)
        · left; exact h1
        · right; exact ⟨p, h1, by omega, h3⟩
      · rintro (h1 | ⟨p, h1, h2, h3⟩)
        · left; exact h1
        · right
          refine ⟨p, h1, ?_, h3⟩
          by_contra hge
          obtain ⟨e1, _⟩ := div_mod_add_of_lt hB c (p - c) (by omega)
          rw [show c + (p - c) = p by omega] at e1
          exact hjq (h3.symm.trans e1)
  · intro w c st h hw hq hd
    obtain ⟨hc, hwn, hT⟩ := h
    have hm := chunk_le_rem cfg.BLOCKSIZE c (n.toNat - w)
    have hpos := chunk_pos (c := c) hB (show 0 < n.toNat - w by omega)
    have hblk := chunk_le_block hB c (n.toNat - w)
    refine ⟨by omega, by omega, fun j => ?_⟩
    dsimp only
    by_cases hjq : j = c / cfg.BLOCKSIZE
    · subst hjq
      constructor
      · intro _; right; exact ⟨c, by omega, by omega, rfl⟩
      · intro _; exact hd
    · rw [hT j]
      constructor
      · rintro (h1 | ⟨p, h1, h2, h3⟩)
        · left; exact h1
        · right; exact ⟨p, h1, by omega, h3⟩
      · rintro (h1 | ⟨p, h1, h2, h3⟩)
        · left; exact h1
        · right
          refine ⟨p, h1, ?_, h3⟩
          by_contra hge
          obtain ⟨e1, _⟩ := div_mod_add_of_lt hB c (p - c) (by omega)
          rw [show c + (p - c) = p by omega] at e1
          exact hjq (h3.symm.trans e1)

theorem filter_lt_length (M k : Nat) :
    ((List.range M).filter (fun j => decide (j < k))).length = min M k := by
  induction M with
  | zero => simp
  | succ M ih =>
    rw [List.range_succ, List.filter_append, List.length_append, ih]
    by_cases h : M < k
    · simp [h]; omega
    · simp [h]; omega

/-- The inode invariant from its two halves: the needed number of blocks fits
the table, and the assigned slots are exactly those below that number. -/
theorem inode_invariant_of_bounds (cfg : Config) (inode : inode_t) (k : Nat)
    (hk : (k : Int) = blocks_needed cfg inode.file_size) (hkM : k ≤ cfg.MAX_FILE_SIZE)
    (hpre : ∀ j, j < cfg.MAX_FILE_SIZE → (inode.direct_blocks j ≠ -1 ↔ j < k)) :
    inode_invariant cfg inode := by
  unfold inode_invariant
  refine ⟨?_, fun j hj => ?_⟩
  · rw [← hk]
    unfold assigned_count
    have hf : (List.range cfg.MAX_FILE_SIZE).filter (fun j => decide (inode.direct_blocks j ≠ -1))
        = (List.range cfg.MAX_FILE_SIZE).filter (fun j => decide (j < k)) := by
      apply List.filter_congr
      intro j hj
      rw [List.mem_range] at hj
      have := hpre j hj
      by_cases h1 : j < k
      · simp [h1, this.2 h1]
      · have h2 : ¬ (inode.direct_blocks j ≠ -1) := fun h => h1 (this.1 h)
        simp [h1, h2]
    rw [hf, filter_lt_length]
    congr 1
    omega
  · rw [hpre j hj, ← hk]
    omega

theorem blocks_needed_le_iff (cfg : Config) (hB : 0 < cfg.BLOCKSIZE) (fs : Int) (M : Nat) :
    blocks_needed cfg fs ≤ (M : Int) ↔ fs ≤ (M : Int) * cfg.BLOCKSIZE := by
  have := lt_blocks_needed_iff cfg hB M fs
  constructor
  · intro h
    by_contra hc
    have := this.2 (by omega)
    omega
  · intro h
    by_contra hc
    have := this.1 (by omega)
    omega

theorem blocks_needed_nonneg (cfg : Config) (fs : Int) (h : 0 ≤ fs) :
    0 ≤ blocks_needed cfg fs := by
  unfold blocks_needed
  rcases Nat.eq_zero_or_pos cfg.BLOCKSIZE with h0 | hB
  · rw [h0]; simp
  · apply Int.ediv_nonneg <;> omega

/-- A successful `simplefs_write` through a handle whose offset lies in
`0 .. file_size` keeps the inode invariant of the inode written to. -/
theorem write_success_invariant (cfg : Config) (hB : 0 < cfg.BLOCKSIZE) (s : FS)
    (file_handle : Int) (buf : List Char) (nbytes : Int) (s' : FS)
    (hinv : inode_invariant cfg
      (simplefs_readInode s (s.file_handle_array file_handle.toNat).inode_number))
    (hoff : 0 ≤ (s.file_handle_array file_handle.toNat).offset
      ∧ (s.file_handle_array file_handle.toNat).offset
        ≤ (simplefs_readInode s (s.file_handle_array file_handle.toNat).inode_number).file_size)
    (hw : simplefs_write cfg s file_handle buf nbytes = some (0, s')) :
    inode_invariant cfg
        (simplefs_readInode s' (s.file_handle_array file_handle.toNat).inode_number)
    ∧ (simplefs_readInode s' (s.file_handle_array file_handle.toNat).inode_number).status
      = (simplefs_readInode s (s.file_handle_array file_handle.toNat).inode_number).status
    ∧ (simplefs_readInode s' (s.file_handle_array file_handle.toNat).inode_number).name
      = (simplefs_readInode s (s.file_handle_array file_handle.toNat).inode_number).name
    ∧ (simplefs_readInode s' (s.file_handle_array file_handle.toNat).inode_number).file_size
      = max (simplefs_readInode s (s.file_handle_array file_handle.toNat).inode_number).file_size
          ((s.file_handle_array file_handle.toNat).offset + nbytes)
    ∧ s'.file_handle_array = s.file_handle_array
    ∧ s'.inode_freelist = s.inode_freelist
    ∧ ∀ k, k ≠ (s.file_handle_array file_handle.toNat).inode_number.toNat →
        s'.inodes k = s.inodes k := by
  obtain ⟨_, _, hcap, st, hl, hs'⟩ := write_success_unfold cfg s file_handle buf nbytes s' hw
  obtain ⟨r1, r2, r3, r4, r5, r6, _⟩ :=
    write_loop_call_rollback_inv cfg hB buf nbytes s _ _ hoff.1 _ hl
  dsimp only at r1 r2 r3 r4 r5 r6
  have hT : ∀ j, st.inode.direct_blocks j ≠ -1 ↔
      ((simplefs_readInode s
          (s.file_handle_array file_handle.toNat).inode_number).direct_blocks j ≠ -1
        ∨ ∃ p, (s.file_handle_array file_handle.toNat).offset.toNat ≤ p
            ∧ p < (s.file_handle_array file_handle.toNat).offset.toNat + nbytes.toNat
            ∧ p / cfg.BLOCKSIZE = j) := by
    have h0 : (0 : Int) = ((0 : Nat) : Int) := rfl
    have ho : (s.file_handle_array file_handle.toNat).offset
        = (((s.file_handle_array file_handle.toNat).offset.toNat : Nat) : Int) := by omega
    have hl' := hl
    rw [h0] at hl'
    rw [ho] at hl'
    have := write_loop_assigned cfg hB buf nbytes
      (simplefs_readInode s (s.file_handle_array file_handle.toNat).inode_number)
      (s.file_handle_array file_handle.toNat).offset.toNat _ 0
      (s.file_handle_array file_handle.toNat).offset.toNat _
      ⟨rfl, Nat.zero_le _, fun j => ⟨fun h => Or.inl h, fun h => by
        rcases h with h | ⟨p, h1, h2, _⟩
        · exact h
        · omega⟩⟩ _ hl' rfl
    exact this
  -- the record written back
  have hrec : simplefs_readInode s' (s.file_handle_array file_handle.toNat).inode_number
      = (if (s.file_handle_array file_handle.toNat).offset + nbytes > st.inode.file_size then
          { (st.inode) with
            file_size := (s.file_handle_array file_handle.toNat).offset + nbytes }
        else st.inode) := by
    rw [hs']
    simp only [simplefs_readInode, simplefs_writeInode, Function.update_same]
  have hsz : (simplefs_readInode s' (s.file_handle_array file_handle.toNat).inode_number).file_size
      = max (simplefs_readInode s (s.file_handle_array file_handle.toNat).inode_number).file_size
          ((s.file_handle_array file_handle.toNat).offset + nbytes) := by
    rw [hrec]
    split
    · rename_i hgt
      rw [r6] at hgt
      dsimp only
      rw [max_eq_right (by omega)]
    · rename_i hle
      rw [r6] at hle ⊢
      rw [max_eq_left (by omega)]
  have hdb : (simplefs_readInode s'
      (s.file_handle_array file_handle.toNat).inode_number).direct_blocks
      = st.inode.direct_blocks := by
    rw [hrec]; split <;> rfl
  have hstat : (simplefs_readInode s'
      (s.file_handle_array file_handle.toNat).inode_number).status = st.inode.status := by
    rw [hrec]; split <;> rfl
  have hname : (simplefs_readInode s'
      (s.file_handle_array file_handle.toNat).inode_number).name = st.inode.name := by
    rw [hrec]; split <;> rfl
  refine ⟨?_, hstat.trans r4, hname.trans r5, hsz, ?_, ?_, ?_⟩
  · -- the invariant
    obtain ⟨hcnt, hpre⟩ := hinv
    have hcl := assigned_count_le cfg
      (simplefs_readInode s (s.file_handle_array file_handle.toNat).inode_number)
    have hfsM : (simplefs_readInode s
        (s.file_handle_array file_handle.toNat).inode_number).file_size
        ≤ (cfg.MAX_FILE_SIZE : Int) * cfg.BLOCKSIZE := by
      rw [← blocks_needed_le_iff cfg hB]; omega
    have hmaxM : max (simplefs_readInode s
          (s.file_handle_array file_handle.toNat).inode_number).file_size
          ((s.file_handle_array file_handle.toNat).offset + nbytes)
        ≤ (cfg.MAX_FILE_SIZE : Int) * cfg.BLOCKSIZE := max_le hfsM hcap
    have hmax0 : 0 ≤ max (simplefs_readInode s
          (s.file_handle_array file_handle.toNat).inode_number).file_size
          ((s.file_handle_array file_handle.toNat).offset + nbytes) :=
      le_trans (le_trans hoff.1 hoff.2) (le_max_left _ _)
    have hbn0 := blocks_needed_nonneg cfg _ hmax0
    have hbnM := (blocks_needed_le_iff cfg hB _ cfg.MAX_FILE_SIZE).2 hmaxM
    apply inode_invariant_of_bounds cfg _
      (blocks_needed cfg (max (simplefs_readInode s
          (s.file_handle_array file_handle.toNat).inode_number).file_size
          ((s.file_handle_array file_handle.toNat).offset + nbytes))).toNat
    · rw [hsz]; omega
    · omega
    · intro j hj
      rw [hdb, hT j, hpre j hj, lt_blocks_needed_iff cfg hB]
      have hjk : j < (blocks_needed cfg (max (simplefs_readInode s
            (s.file_handle_array file_handle.toNat).inode_number).file_size
            ((s.file_handle_array file_handle.toNat).offset + nbytes))).toNat
          ↔ (j : Int) * cfg.BLOCKSIZE < max (simplefs_readInode s
            (s.file_handle_array file_handle.toNat).inode_number).file_size
            ((s.file_handle_array file_handle.toNat).offset + nbytes) := by
        rw [← lt_blocks_needed_iff cfg hB]; omega
      rw [hjk, lt_max_iff]
      have hcast : ((j * cfg.BLOCKSIZE : Nat) : Int) = (j : Int) * (cfg.BLOCKSIZE : Int) := by
        push_cast; rfl
      constructor
      · rintro (h1 | ⟨p, h1, h2, h3⟩)
        · left; exact h1
        · right
          have hle : j * cfg.BLOCKSIZE ≤ p := by
            rw [← h3]; exact Nat.div_mul_le_self p cfg.BLOCKSIZE
          have hle' : ((j * cfg.BLOCKSIZE : Nat) : Int) ≤ (p : Int) := by exact_mod_cast hle
          omega
      · rintro (h1 | h1)
        · left; exact h1
        · by_cases h2 : (j : Int) * cfg.BLOCKSIZE < (simplefs_readInode s
              (s.file_handle_array file_handle.toNat).inode_number).file_size
          · left; exact h2
          · right
            refine ⟨j * cfg.BLOCKSIZE, by omega, by omega, Nat.mul_div_cancel _ hB⟩
  · rw [hs']; exact r3
  · rw [hs']; exact r2
  · intro k hk
    rw [hs']
    simp only [simplefs_writeInode]
    rw [Function.update_noteq hk, r1]

theorem read_loop_total (cfg : Config) (hB : 0 < cfg.BLOCKSIZE) (s : FS) (inode : inode_t)
    (n : Int) :
    ∀ (fuel w c : Nat) (acc : List Char), n.toNat - w ≤ fuel →
      ∃ r, read_loop cfg s inode n fuel (w : Int) (c : Int) acc = some r := by
  intro fuel
  induction fuel with
  | zero =>
    intro w c acc hf
    unfold read_loop
    have hw : ¬ ((w : Int) < n) := by omega
    simp [hw]
  | succ fuel ih =>
    intro w c acc hf
    unfold read_loop
    by_cases hw : (w : Int) < n
    · have hpos := chunk_pos (c := c) hB (show 0 < n.toNat - w by omega)
      have hfuel : n.toNat - (w + chunk cfg.BLOCKSIZE c (n.toNat - w)) ≤ fuel := by omega
      simp only [hw, if_true, tdiv_natCast, tmod_natCast, bytes_to_copy_natCast cfg hB c w n hw,
        Int.toNat_ofNat, ← Nat.cast_add]
      split
      · exact ⟨_, rfl⟩
      · exact ih _ _ _ hfuel
    · simp [hw]

/-- `simplefs_read` returns when the handle's offset is not negative. -/
theorem read_total (cfg : Config) (hB : 0 < cfg.BLOCKSIZE) (s : FS) (file_handle nbytes : Int)
    (hoff : 0 ≤ (s.file_handle_array file_handle.toNat).offset) :
    ∃ r, simplefs_read cfg s file_handle nbytes = some r := by
  unfold simplefs_read
  dsimp only
  split
  · exact ⟨_, rfl⟩
  · split
    · exact ⟨_, rfl⟩
    · split
      · exact ⟨_, rfl⟩
      · have h0 : (0 : Int) = ((0 : Nat) : Int) := rfl
        have ho : (s.file_handle_array file_handle.toNat).offset
            = (((s.file_handle_array file_handle.toNat).offset.toNat : Nat) : Int) := by omega
        rw [h0, ho]
        exact read_loop_total cfg hB s _ nbytes _ _ _ _ (by omega)

/-- `simplefs_write` returns when the handle's offset is not negative. -/
theorem write_total (cfg : Config) (hB : 0 < cfg.BLOCKSIZE) (s : FS) (file_handle : Int)
    (buf : List Char) (nbytes : Int)
    (hoff : 0 ≤ (s.file_handle_array file_handle.toNat).offset) :
    ∃ r, simplefs_write cfg s file_handle buf nbytes = some r := by
  unfold simplefs_write
  dsimp only
  split
  · exact ⟨_, rfl⟩
  · split
    · exact ⟨_, rfl⟩
    · split
      · exact ⟨_, rfl⟩
      · have h0 : (0 : Int) = ((0 : Nat) : Int) := rfl
        have ho : (s.file_handle_array file_handle.toNat).offset
            = (((s.file_handle_array file_handle.toNat).offset.toNat : Nat) : Int) := by omega
        obtain ⟨r, hr⟩ := write_loop_total cfg hB buf nbytes nbytes.toNat 0
          (s.file_handle_array file_handle.toNat).offset.toNat
          { disk := s,
            inode := simplefs_readInode s (s.file_handle_array file_handle.toNat).inode_number,
            newly_allocated := fun _ => false } (by omega)
        rw [← h0, ← ho] at hr
        rw [hr]
        obtain ⟨b, st⟩ := r
        cases b
        · exact ⟨_, rfl⟩
        · exact ⟨_, rfl⟩

theorem good_state_of_data_blocks (cfg : Config) (s : FS) (d : Nat → Nat → Char)
    (h : good_state cfg s) : good_state cfg { s with data_blocks := d } := h

theorem write_good (cfg : Config) (hB : 0 < cfg.BLOCKSIZE) (s : FS) (file_handle : Int)
    (buf : List Char) (nbytes : Int) (ret : Int) (s' : FS) (h : good_state cfg s)
    (hw : simplefs_write cfg s file_handle buf nbytes = some (ret, s')) :
    good_state cfg s' := by
  by_cases hv : (0 ≤ file_handle ∧ file_handle < cfg.MAX_OPEN_FILES)
      ∧ (s.file_handle_array file_handle.toNat).inode_number ≠ -1
  · obtain ⟨hr, hb⟩ := hv
    obtain ⟨g1, g2, g3⟩ := h
    obtain ⟨a1, a2, a3, a4, a5⟩ := g2 file_handle.toNat (by omega) hb
    by_cases hret : ret = 0
    · subst hret
      have hinv := (g1 (s.file_handle_array file_handle.toNat).inode_number.toNat (by omega) a3).1
      obtain ⟨w1, w2, _, w4, w5, w6, w7⟩ := write_success_invariant cfg hB s file_handle buf
        nbytes s' hinv ⟨a4, a5⟩ hw
      simp only [simplefs_readInode] at w1 w2 w4
      refine ⟨?_, ?_, ?_⟩
      · intro i hi hu
        by_cases hii : i = (s.file_handle_array file_handle.toNat).inode_number.toNat
        · subst hii
          refine ⟨w1, ?_⟩
          rw [w4]
          exact le_trans (le_trans a4 a5) (le_max_left _ _)
        · rw [w7 i hii] at hu ⊢
          exact g1 i hi hu
      · intro k hk hkb
        rw [w5] at hkb ⊢
        obtain ⟨b1, b2, b3, b4, b5⟩ := g2 k hk hkb
        by_cases hii : (s.file_handle_array k).inode_number.toNat
            = (s.file_handle_array file_handle.toNat).inode_number.toNat
        · rw [hii, w2, w4]
          rw [hii] at b5
          exact ⟨b1, b2, a3, b4, le_trans b5 (le_max_left _ _)⟩
        · rw [w7 _ hii]
          exact ⟨b1, b2, b3, b4, b5⟩
      · intro i hi hf
        rw [w6] at hf
        by_cases hii : i = (s.file_handle_array file_handle.toNat).inode_number.toNat
        · have := g3 i hi hf
          rw [hii, a3] at this
          exact inode_status.noConfusion this
        · rw [w7 i hii]
          exact g3 i hi hf
    · have := write_fail_state cfg hB s file_handle buf nbytes ret s' a4 hw hret
      rw [this]
      exact good_state_of_data_blocks cfg s _ ⟨g1, g2, g3⟩
  · unfold simplefs_write at hw
    dsimp only at hw
    split at hw
    · cases hw; exact h
    · rename_i hr
      split at hw
      · cases hw; exact h
      · rename_i hb
        exact absurd ⟨by omega, hb⟩ hv

theorem good_state_formatDisk (cfg : Config) : good_state cfg simplefs_formatDisk := by
  refine ⟨?_, ?_, ?_⟩
  · intro i _ hu
    exact inode_status.noConfusion hu
  · intro k _ hb
    exact absurd rfl hb
  · intro i _ _
    rfl

/-- Every call returns from a good state, and leaves a good state unless it
deletes an open file. -/
theorem step_good (cfg : Config) (hB : 0 < cfg.BLOCKSIZE) (s : FS) (op : Op)
    (h : good_state cfg s) (hadm : ¬ deletes_open_file cfg s op) :
    ∃ s1, step cfg s op = some s1 ∧ good_state cfg s1 := by
  have hoff : ∀ file_handle : Int, (0 ≤ file_handle ∧ file_handle < cfg.MAX_OPEN_FILES)
      ∧ (s.file_handle_array file_handle.toNat).inode_number ≠ -1 →
      0 ≤ (s.file_handle_array file_handle.toNat).offset := by
    intro fh hv
    exact (h.2.1 fh.toNat (by omega) hv.2).2.2.2.1
  cases op with
  | create filename => exact ⟨_, rfl, create_good cfg hB s filename h⟩
  | delete filename => exact ⟨_, rfl, delete_good cfg s filename h hadm⟩
  | open_file filename => exact ⟨_, rfl, open_good cfg s filename h⟩
  | close file_handle => exact ⟨_, rfl, close_good cfg s file_handle h⟩
  | seek file_handle nseek => exact ⟨_, rfl, seek_good cfg s file_handle nseek h⟩
  | read file_handle nbytes =>
    refine ⟨s, ?_, h⟩
    simp only [step]
    by_cases hv : (0 ≤ file_handle ∧ file_handle < cfg.MAX_OPEN_FILES)
        ∧ (s.file_handle_array file_handle.toNat).inode_number ≠ -1
    · obtain ⟨r, hr⟩ := read_total cfg hB s file_handle nbytes (hoff file_handle hv)
      rw [hr]; rfl
    · unfold simplefs_read
      dsimp only
      split
      · rfl
      · split
        · rfl
        · rename_i hr hb
          exact absurd ⟨by omega, hb⟩ hv
  | write file_handle buf nbytes =>
    simp only [step]
    by_cases hv : (0 ≤ file_handle ∧ file_handle < cfg.MAX_OPEN_FILES)
        ∧ (s.file_handle_array file_handle.toNat).inode_number ≠ -1
    · obtain ⟨r, hr⟩ := write_total cfg hB s file_handle buf nbytes (hoff file_handle hv)
      obtain ⟨ret, s1⟩ := r
      rw [hr]
      exact ⟨s1, rfl, write_good cfg hB s file_handle buf nbytes ret s1 h hr⟩
    · refine ⟨s, ?_, h⟩
      unfold simplefs_write
      dsimp only
      split
      · rfl
      · split
        · rfl
        · rename_i hr hb
          exact absurd ⟨by omega, hb⟩ hv

theorem run_good (cfg : Config) (hB : 0 < cfg.BLOCKSIZE) (ops : List Op) :
    ∀ s, good_state cfg s → no_delete_of_open_file cfg s ops = true →
      ∃ s', run cfg s ops = some s' ∧ good_state cfg s' := by
  induction ops with
  | nil => intro s h _; exact ⟨s, rfl, h⟩
  | cons op ops ih =>
    intro s h hadm
    unfold no_delete_of_open_file at hadm
    rw [Bool.and_eq_true] at hadm
    obtain ⟨ha1, ha2⟩ := hadm
    have hndel : ¬ deletes_open_file cfg s op := by
      intro hd
      rw [decide_eq_true hd] at ha1
      exact Bool.noConfusion ha1
    obtain ⟨s1, hs1, hg1⟩ := step_good cfg hB s op h hndel
    rw [hs1] at ha2
    obtain ⟨s', hs', hg'⟩ := ih s1 hg1 ha2
    refine ⟨s', ?_, hg'⟩
    unfold run
    rw [hs1]
    exact hs'

/-- C3 (amended): from a freshly formatted file system, every finite sequence
of the seven public operations with arbitrary arguments, in which
`simplefs_delete` is never applied to a file that a handle is bound to at that
moment, runs to a state in which every in-use inode has exactly
`⌈file_size / BLOCKSIZE⌉` assigned direct block references, at exactly the
indices below that number. -/
theorem C3_inode_invariant_reachable (cfg : Config) (hB : 0 < cfg.BLOCKSIZE) (ops : List Op)
    (hops : no_delete_of_open_file cfg simplefs_formatDisk ops = true) :
    ∃ s, run cfg simplefs_formatDisk ops = some s ∧ all_inodes_invariant cfg s := by
  obtain ⟨s, hs, hg⟩ := run_good cfg hB ops simplefs_formatDisk (good_state_formatDisk cfg) hops
  exact ⟨s, hs, fun i hi hu => (hg.1 i hi hu).1⟩

/-- C3 (amended) at a concrete input: the calls `tidy_ops`. -/
theorem C3_inode_invariant_reachable_witness :
    (0 < scenario_cfg.BLOCKSIZE)
    ∧ no_delete_of_open_file scenario_cfg simplefs_formatDisk tidy_ops = true
    ∧ ∃ s, run scenario_cfg simplefs_formatDisk tidy_ops = some s
        ∧ all_inodes_invariant scenario_cfg s :=
  ⟨by decide, by decide,
    C3_inode_invariant_reachable scenario_cfg (by decide) tidy_ops (by decide)⟩

theorem count_below_congr (M : Nat) (P Q : Nat → Bool) (h : ∀ j, j < M → P j = Q j) :
    count_below M P = count_below M Q := by
  unfold count_below
  congr 1
  apply List.filter_congr
  intro j hj
  exact h j (List.mem_range.1 hj)

theorem count_below_succ (M : Nat) (P : Nat → Bool) :
    count_below (M + 1) P = count_below M P + (if P M = true then 1 else 0) := by
  unfold count_below
  rw [List.range_succ, List.filter_append, List.length_append]
  by_cases h : P M = true
  · simp [h]
  · simp [h]

theorem count_below_flip (M : Nat) (P Q : Nat → Bool) (q : Nat) (hq : q < M)
    (hP : P q = true) (hQ : Q q = false) (h : ∀ j, j < M → j ≠ q → P j = Q j) :
    count_below M P = count_below M Q + 1 := by
  induction M with
  | zero => omega
  | succ M ih =>
    rw [count_below_succ, count_below_succ]
    by_cases hqM : q = M
    · subst hqM
      rw [count_below_congr q P Q (fun j hj => h j (by omega) (by omega))]
      simp [hP, hQ]
    · rw [ih (by omega) (fun j hj hjq => h j (by omega) hjq), h M (by omega) (Ne.symm hqM)]
      omega

theorem count_below_eq_zero (M : Nat) (P : Nat → Bool) (h : ∀ j, j < M → P j = false) :
    count_below M P = 0 := by
  unfold count_below
  rw [List.length_eq_zero, List.filter_eq_nil_iff]
  intro j hj
  rw [h j (List.mem_range.1 hj)]
  exact Bool.false_ne_true

theorem count_below_pos (M : Nat) (P : Nat → Bool) (q : Nat) (hq : q < M) (hP : P q = true) :
    0 < count_below M P := by
  have := count_below_flip M P (fun j => if j = q then false else P j) q hq hP (by simp)
    (fun j _ hjq => by simp [hjq])
  omega

theorem div_bounds {B : Nat} (hB : 0 < B) (c : Nat) :
    c / B * B ≤ c ∧ c < c / B * B + B := by
  have h1 := Nat.div_add_mod c B
  have h2 := Nat.mod_lt c hB
  have h3 : B * (c / B) = c / B * B := Nat.mul_comm _ _
  omega

theorem mul_block_le {B : Nat} (j q : Nat) (h : j < q) : j * B + B ≤ q * B := by
  have := Nat.mul_le_mul_right B (Nat.succ_le_of_lt h)
  rw [Nat.succ_mul] at this
  exact this

/-- Advancing the loop past block index `c / B` removes that index from the
blocks still to allocate and leaves the count over the other indices as it
was. -/
theorem need_from_step (cfg : Config) (hB : 0 < cfg.BLOCKSIZE) (db db' : Nat → Int)
    (c e m : Nat) (hce : c < e) (hm : 0 < m) (hme : c + m ≤ e)
    (hblk : c % cfg.BLOCKSIZE + m ≤ cfg.BLOCKSIZE)
    (hq : c / cfg.BLOCKSIZE < cfg.MAX_FILE_SIZE)
    (hdb : ∀ j, j ≠ c / cfg.BLOCKSIZE → db' j = db j)
    (hdb' : db' (c / cfg.BLOCKSIZE) ≠ -1) :
    need_from cfg db c e
      = need_from cfg db' (c + m) e + (if db (c / cfg.BLOCKSIZE) = -1 then 1 else 0) := by
  obtain ⟨hb1, hb2⟩ := div_bounds hB c
  have hmod := Nat.div_add_mod c cfg.BLOCKSIZE
  have hcomm : cfg.BLOCKSIZE * (c / cfg.BLOCKSIZE) = c / cfg.BLOCKSIZE * cfg.BLOCKSIZE :=
    Nat.mul_comm _ _
  have hother : ∀ j, j < cfg.MAX_FILE_SIZE → j ≠ c / cfg.BLOCKSIZE →
      decide (c < e ∧ c < j * cfg.BLOCKSIZE + cfg.BLOCKSIZE ∧ j * cfg.BLOCKSIZE < e ∧ db j = -1)
      = decide (c + m < e ∧ c + m < j * cfg.BLOCKSIZE + cfg.BLOCKSIZE
          ∧ j * cfg.BLOCKSIZE < e ∧ db' j = -1) := by
    intro j _ hjq
    rw [hdb j hjq]
    rcases Nat.lt_or_gt_of_ne hjq with hlt | hgt
    · have := mul_block_le (B := cfg.BLOCKSIZE) j _ hlt
      have h1 : ¬ (c < j * cfg.BLOCKSIZE + cfg.BLOCKSIZE) := by omega
      have h2 : ¬ (c + m < j * cfg.BLOCKSIZE + cfg.BLOCKSIZE) := by omega
      simp only [h1, h2, false_and, and_false]
    · have := mul_block_le (B := cfg.BLOCKSIZE) _ j hgt
      by_cases hje : j * cfg.BLOCKSIZE < e
      · have h1 : c < j * cfg.BLOCKSIZE + cfg.BLOCKSIZE := by omega
        have h2 : c + m < j * cfg.BLOCKSIZE + cfg.BLOCKSIZE := by omega
        have h3 : c + m < e := by omega
        simp only [hce, h1, h2, h3, hje, true_and]
      · simp only [hje, false_and, and_false]
  by_cases hd : db (c / cfg.BLOCKSIZE) = -1
  · rw [if_pos hd]
    unfold need_from
    apply count_below_flip _ _ _ (c / cfg.BLOCKSIZE) hq
    · simp only [decide_eq_true_eq]
      exact ⟨hce, hb2, by omega, hd⟩
    · simp only [decide_eq_false_iff_not]
      exact fun h => hdb' h.2.2.2
    · exact hother
  · rw [if_neg hd, Nat.add_zero]
    unfold need_from
    apply count_below_congr
    intro j hj
    by_cases hjq : j = c / cfg.BLOCKSIZE
    · subst hjq
      have h1 : ¬ (db (c / cfg.BLOCKSIZE) = -1) := hd
      simp only [h1, hdb', and_false]
    · exact hother j hj hjq

theorem free_count_alloc (cfg : Config) (s : FS) (b : Nat)
    (hlf : lowest_free s.datablock_freelist cfg.NUM_DATA_BLOCKS = some b) :
    count_below cfg.NUM_DATA_BLOCKS s.datablock_freelist
      = count_below cfg.NUM_DATA_BLOCKS (Function.update s.datablock_freelist b false) + 1 := by
  obtain ⟨hb, hf⟩ := lowest_free_some hlf
  apply count_below_flip _ _ _ b hb hf (by rw [Function.update_same])
  intro j _ hjb
  rw [Function.update_noteq hjb]

/-- The write loop runs to its end exactly when the free list holds at least
as many blocks as the loop has to allocate. -/
theorem write_loop_success_iff (cfg : Config) (hB : 0 < cfg.BLOCKSIZE) (buf : List Char)
    (n : Int) (s : FS) (ino : inode_t) (o : Nat)
    (hcap : (o : Int) + n ≤ (cfg.MAX_FILE_SIZE : Int) * cfg.BLOCKSIZE)
    (r : Bool × write_state)
    (hr : write_loop cfg buf n n.toNat ((0 : Nat) : Int) (o : Int)
      { disk := s, inode := ino, newly_allocated := fun _ => false } = some r) :
    r.1 = true ↔ need_from cfg ino.direct_blocks o (o + n.toNat) ≤ free_block_count cfg s := by
  refine write_loop_ind cfg hB buf n
    (fun w c st => c = o + w ∧ w ≤ n.toNat
      ∧ (need_from cfg st.inode.direct_blocks c (o + n.toNat)
            ≤ count_below cfg.NUM_DATA_BLOCKS st.disk.datablock_freelist
          ↔ need_from cfg ino.direct_blocks o (o + n.toNat) ≤ free_block_count cfg s))
    (fun b _ => b = true
      ↔ need_from cfg ino.direct_blocks o (o + n.toNat) ≤ free_block_count cfg s)
    ?_ ?_ ?_ ?_ ?_ n.toNat 0 o _ ⟨rfl, Nat.zero_le _, Iff.rfl⟩ r hr
  · intro w c st h hw
    obtain ⟨hc, hwn, hiff⟩ := h
    have hz : need_from cfg st.inode.direct_blocks c (o + n.toNat) = 0 := by
      unfold need_from
      apply count_below_eq_zero
      intro j _
      have : ¬ (c < o + n.toNat) := by omega
      simp only [this, false_and, decide_False]
    rw [hz] at hiff
    exact ⟨fun _ => hiff.1 (Nat.zero_le _), fun _ => rfl⟩
  · intro w c st h hw hq
    exfalso
    obtain ⟨hc, hwn, _⟩ := h
    have hcast : ((cfg.MAX_FILE_SIZE * cfg.BLOCKSIZE : Nat) : Int)
        = (cfg.MAX_FILE_SIZE : Int) * (cfg.BLOCKSIZE : Int) := Nat.cast_mul _ _
    have hlt : c < cfg.MAX_FILE_SIZE * cfg.BLOCKSIZE := by omega
    have := (Nat.div_lt_iff_lt_mul hB).2 hlt
    omega
  · intro w c st h hw hq hd hlf
    obtain ⟨hc, hwn, hiff⟩ := h
    obtain ⟨hb1, hb2⟩ := div_bounds hB c
    have hpos : 0 < need_from cfg st.inode.direct_blocks c (o + n.toNat) := by
      unfold need_from
      apply count_below_pos _ _ (c / cfg.BLOCKSIZE) hq
      simp only [decide_eq_true_eq]
      exact ⟨by omega, hb2, by omega, hd⟩
    have hzero : count_below cfg.NUM_DATA_BLOCKS st.disk.datablock_freelist = 0 :=
      count_below_eq_zero _ _ (lowest_free_none hlf)
    rw [hzero] at hiff
    constructor
    · intro hb; exact Bool.noConfusion hb
    · intro hle
      have := hiff.2 hle
      omega
  · intro w c st b h hw hq hd hlf
    obtain ⟨hc, hwn, hiff⟩ := h
    have hm := chunk_le_rem cfg.BLOCKSIZE c (n.toNat - w)
    have hpos := chunk_pos (c := c) hB (show 0 < n.toNat - w by omega)
    have hblk := chunk_le_block hB c (n.toNat - w)
    refine ⟨by omega, by omega, ?_⟩
    dsimp only
    have hstep := need_from_step cfg hB st.inode.direct_blocks
      (Function.update st.inode.direct_blocks (c / cfg.BLOCKSIZE) (b : Int)) c (o + n.toNat)
      (chunk cfg.BLOCKSIZE c (n.toNat - w)) (by omega) hpos (by omega) hblk hq
      (fun j hj => Function.update_noteq hj _ _)
      (by rw [Function.update_same]; omega)
    rw [if_pos hd] at hstep
    have hfree := free_count_alloc cfg st.disk b hlf
    rw [← hiff]
    omega
  · intro w c st h hw hq hd
    obtain ⟨hc, hwn, hiff⟩ := h
    have hm := chunk_le_rem cfg.BLOCKSIZE c (n.toNat - w)
    have hpos := chunk_pos (c := c) hB (show 0 < n.toNat - w by omega)
    have hblk := chunk_le_block hB c (n.toNat - w)
    refine ⟨by omega, by omega, ?_⟩
    dsimp only
    have hstep := need_from_step cfg hB st.inode.direct_blocks st.inode.direct_blocks c
      (o + n.toNat) (chunk cfg.BLOCKSIZE c (n.toNat - w)) (by omega) hpos (by omega) hblk hq
      (fun j _ => rfl) hd
    rw [if_neg hd, Nat.add_zero] at hstep
    rw [← hiff, hstep]

theorem blocks_to_allocate_eq (cfg : Config) (inode : inode_t) (offset nbytes : Int)
    (hoff : 0 ≤ offset) :
    blocks_to_allocate cfg inode offset nbytes
      = need_from cfg inode.direct_blocks offset.toNat (offset.toNat + nbytes.toNat) := by
  unfold blocks_to_allocate need_from
  apply count_below_congr
  intro j _
  have hcast : ((j * cfg.BLOCKSIZE : Nat) : Int) = (j : Int) * (cfg.BLOCKSIZE : Int) :=
    Nat.cast_mul _ _
  rw [decide_eq_decide, add_mul, one_mul]
  constructor
  · rintro ⟨h1, h2, h3, h4⟩
    exact ⟨by omega, by omega, by omega, h4⟩
  · rintro ⟨h1, h2, h3, h4⟩
    exact ⟨by omega, by omega, by omega, h4⟩

/-- C7 (as amended): through a bound, in-range handle with a non-negative
offset `o`, `simplefs_write(h, buf, n)` fails if and only if
`o + n > MAX_FILE_SIZE * BLOCKSIZE` or the allocator has fewer free blocks than
the call has to allocate (the unassigned slots among the block indices that
`o .. o + n - 1` touches); otherwise it succeeds. -/
theorem C7_write_fails_iff (cfg : Config) (hB : 0 < cfg.BLOCKSIZE) (s : FS)
    (file_handle : Int) (buf : List Char) (nbytes : Int)
    (hrange : 0 ≤ file_handle ∧ file_handle < cfg.MAX_OPEN_FILES)
    (hbound : (s.file_handle_array file_handle.toNat).inode_number ≠ -1)
    (hoff : 0 ≤ (s.file_handle_array file_handle.toNat).offset) :
    ((∃ s', simplefs_write cfg s file_handle buf nbytes = some (-1, s')) ↔
      ((s.file_handle_array file_handle.toNat).offset + nbytes
          > (cfg.MAX_FILE_SIZE : Int) * cfg.BLOCKSIZE
        ∨ free_block_count cfg s
          < blocks_to_allocate cfg
              (simplefs_readInode s (s.file_handle_array file_handle.toNat).inode_number)
              (s.file_handle_array file_handle.toNat).offset nbytes))
    ∧ (¬ ((s.file_handle_array file_handle.toNat).offset + nbytes
          > (cfg.MAX_FILE_SIZE : Int) * cfg.BLOCKSIZE
        ∨ free_block_count cfg s
          < blocks_to_allocate cfg
              (simplefs_readInode s (s.file_handle_array file_handle.toNat).inode_number)
              (s.file_handle_array file_handle.toNat).offset nbytes) →
      ∃ s', simplefs_write cfg s file_handle buf nbytes = some (0, s')) := by
  have h1 : ¬ (file_handle < 0 ∨ file_handle ≥ cfg.MAX_OPEN_FILES) := by omega
  have h01 : ¬ ((0 : Int) = -1) := by decide
  by_cases hcap : (s.file_handle_array file_handle.toNat).offset + nbytes
      > (cfg.MAX_FILE_SIZE : Int) * cfg.BLOCKSIZE
  · have hw : simplefs_write cfg s file_handle buf nbytes = some (-1, s) := by
      unfold simplefs_write
      simp only [h1, if_false, hbound, hcap, if_true]
    exact ⟨⟨fun _ => Or.inl hcap, fun _ => ⟨s, hw⟩⟩, fun h => absurd (Or.inl hcap) h⟩
  · have h0 : (0 : Int) = ((0 : Nat) : Int) := rfl
    have ho : (s.file_handle_array file_handle.toNat).offset
        = (((s.file_handle_array file_handle.toNat).offset.toNat : Nat) : Int) := by omega
    obtain ⟨r, hr⟩ := write_loop_total cfg hB buf nbytes nbytes.toNat 0
      (s.file_handle_array file_handle.toNat).offset.toNat
      { disk := s,
        inode := simplefs_readInode s (s.file_handle_array file_handle.toNat).inode_number,
        newly_allocated := fun _ => false } (by omega)
    have hiff := write_loop_success_iff cfg hB buf nbytes s _ _ (by omega) r hr
    rw [← blocks_to_allocate_eq cfg _ _ _ hoff] at hiff
    rw [← h0, ← ho] at hr
    obtain ⟨b, st⟩ := r
    have hw : simplefs_write cfg s file_handle buf nbytes
        = (match (b, st) with
          | (true, st) =>
            some (0, simplefs_writeInode st.disk
              (s.file_handle_array file_handle.toNat).inode_number
              (if (s.file_handle_array file_handle.toNat).offset + nbytes > st.inode.file_size then
                { (st.inode) with
                  file_size := (s.file_handle_array file_handle.toNat).offset + nbytes }
              else st.inode))
          | (false, st) =>
            some (-1, simplefs_writeInode
              (rollback_loop st.newly_allocated st.disk st.inode cfg.MAX_FILE_SIZE).1
              (s.file_handle_array file_handle.toNat).inode_number
              (rollback_loop st.newly_allocated st.disk st.inode cfg.MAX_FILE_SIZE).2)) := by
      unfold simplefs_write
      simp only [h1, if_false, hbound, hcap, hr]
      cases b <;> rfl
    cases b with
    | true =>
      have hle := hiff.1 rfl
      simp only at hw
      refine ⟨⟨?_, ?_⟩, fun _ => ⟨_, hw⟩⟩
      · rintro ⟨s', hs'⟩
        rw [hw] at hs'
        simp only [Option.some.injEq, Prod.mk.injEq] at hs'
        exact absurd hs'.1 h01
      · rintro (h | h)
        · exact absurd h hcap
        · omega
    | false =>
      have hnle : ¬ (blocks_to_allocate cfg
          (simplefs_readInode s (s.file_handle_array file_handle.toNat).inode_number)
          (s.file_handle_array file_handle.toNat).offset nbytes ≤ free_block_count cfg s) :=
        fun h => Bool.noConfusion (hiff.2 h)
      simp only at hw
      refine ⟨⟨fun _ => Or.inr (by omega), fun _ => ⟨_, hw⟩⟩, fun h => ?_⟩
      exact absurd (Or.inr (by omega)) h

/-- C7 (as amended) at concrete inputs: with one data block, the 6-byte write
on the empty file needs two blocks and fails; with eight, it succeeds. -/
theorem C7_write_fails_iff_witness :
    (0 < tight_cfg.BLOCKSIZE)
    ∧ (0 ≤ (0 : Int) ∧ (0 : Int) < tight_cfg.MAX_OPEN_FILES)
    ∧ (tight1.file_handle_array (0 : Int).toNat).inode_number ≠ -1
    ∧ 0 ≤ (tight1.file_handle_array (0 : Int).toNat).offset
    ∧ free_block_count tight_cfg tight1 = 1
    ∧ blocks_to_allocate tight_cfg
        (simplefs_readInode tight1 (tight1.file_handle_array (0 : Int).toNat).inode_number)
        (tight1.file_handle_array (0 : Int).toNat).offset 6 = 2
    ∧ (∃ s', simplefs_write tight_cfg tight1 0 "abcdef".toList 6 = some (-1, s'))
    ∧ (∃ s', simplefs_write scenario_cfg scn2 0 "abcdef".toList 6 = some (0, s')) :=
  ⟨by decide, by decide, by decide, by decide, by decide, by decide,
    (C7_write_fails_iff tight_cfg (by decide) tight1 0 "abcdef".toList 6 (by decide)
      (by decide) (by decide)).1.2 (Or.inr (by decide)),
    (C7_write_fails_iff scenario_cfg (by decide) scn2 0 "abcdef".toList 6 (by decide)
      (by decide) (by decide)).2 (by decide)⟩

theorem write_loop_keeps_names (cfg : Config) (buf : List Char) (n : Int) :
    ∀ (fuel : Nat) (bytes_written current_offset : Int) (st : write_state)
      (r : Bool × write_state),
      write_loop cfg buf n fuel bytes_written current_offset st = some r →
      r.2.inode.status = st.inode.status ∧ r.2.inode.name = st.inode.name
      ∧ r.2.disk.inodes = st.disk.inodes := by
  intro fuel
  induction fuel with
  | zero =>
    intro bw co st r hr
    unfold write_loop at hr
    split at hr
    · exact absurd hr (by simp)
    · cases hr; exact ⟨rfl, rfl, rfl⟩
  | succ fuel ih =>
    intro bw co st r hr
    unfold write_loop at hr
    dsimp only at hr
    split at hr
    · split at hr
      · cases hr; exact ⟨rfl, rfl, rfl⟩
      · split at hr
        · split at hr
          · cases hr
            refine ⟨rfl, rfl, ?_⟩
            unfold simplefs_allocDataBlock
            split <;> rfl
          · obtain ⟨a1, a2, a3⟩ := ih _ _ _ r hr
            refine ⟨a1, a2, ?_⟩
            rw [a3]
            unfold simplefs_writeDataBlock simplefs_allocDataBlock
            split <;> rfl
        · obtain ⟨a1, a2, a3⟩ := ih _ _ _ r hr
          exact ⟨a1, a2, a3⟩
    · cases hr; exact ⟨rfl, rfl, rfl⟩

/-- `simplefs_write` changes neither the status nor the name of any inode
record. -/
theorem write_keeps_names (cfg : Config) (s : FS) (file_handle : Int) (buf : List Char)
    (nbytes : Int) (ret : Int) (s' : FS)
    (hw : simplefs_write cfg s file_handle buf nbytes = some (ret, s')) :
    ∀ i, (s'.inodes i).status = (s.inodes i).status ∧ (s'.inodes i).name = (s.inodes i).name := by
  unfold simplefs_write at hw
  dsimp only at hw
  split at hw
  · cases hw; exact fun _ => ⟨rfl, rfl⟩
  · split at hw
    · cases hw; exact fun _ => ⟨rfl, rfl⟩
    · split at hw
      · cases hw; exact fun _ => ⟨rfl, rfl⟩
      · split at hw
        · exact absurd hw (by simp)
        · rename_i st hl
          obtain ⟨a1, a2, a3⟩ := write_loop_keeps_names cfg buf nbytes _ _ _ _ _ hl
          dsimp only at a1 a2 a3
          simp only [Option.some.injEq, Prod.mk.injEq] at hw
          obtain ⟨_, hs⟩ := hw
          subst hs
          intro i
          simp only [simplefs_writeInode, a3]
          by_cases hi : i = (s.file_handle_array file_handle.toNat).inode_number.toNat
          · subst hi
            rw [Function.update_same]
            simp only [simplefs_readInode] at a1 a2
            split
            · exact ⟨a1, a2⟩
            · exact ⟨a1, a2⟩
          · rw [Function.update_noteq hi]
            exact ⟨rfl, rfl⟩
        · rename_i st hl
          obtain ⟨a1, a2, a3⟩ := write_loop_keeps_names cfg buf nbytes _ _ _ _ _ hl
          dsimp only at a1 a2 a3
          obtain ⟨r1, _, _, _, r5, r6, _⟩ :=
            rollback_loop_spec st.newly_allocated st.disk st.inode cfg.MAX_FILE_SIZE
          simp only [Option.some.injEq, Prod.mk.injEq] at hw
          obtain ⟨_, hs⟩ := hw
          subst hs
          intro i
          simp only [simplefs_writeInode, r1, a3]
          by_cases hi : i = (s.file_handle_array file_handle.toNat).inode_number.toNat
          · subst hi
            rw [Function.update_same, r5, r6]
            simp only [simplefs_readInode] at a1 a2
            exact ⟨a1, a2⟩
          · rw [Function.update_noteq hi]
            exact ⟨rfl, rfl⟩

theorem names_unique_of_same (cfg : Config) (s s' : FS)
    (h : ∀ i, (s'.inodes i).status = (s.inodes i).status
      ∧ (s'.inodes i).name = (s.inodes i).name)
    (hu : names_unique cfg s) : names_unique cfg s' := by
  intro i hi j hj hij h1 h2
  rw [(h i).1] at h1
  rw [(h j).1] at h2
  rw [(h i).2, (h j).2]
  exact hu i hi j hj hij h1 h2

theorem create_names_unique (cfg : Config) (s : FS) (filename : List Char)
    (hfit : filename.length < cfg.MAX_NAME_STRLEN) (hu : names_unique cfg s) :
    names_unique cfg (simplefs_create cfg s filename).2 := by
  unfold simplefs_create
  rcases find_inode_by_name_spec cfg s filename with ⟨h1, hnone⟩ | ⟨i, h1, _, _, _⟩
  · have hc : ¬ (find_inode_by_name cfg s filename ≠ -1) := fun h => h h1
    rw [if_neg hc]
    unfold simplefs_allocInode
    cases hlf : lowest_free s.inode_freelist cfg.NUM_INODES with
    | none => simp only [if_true]; exact hu
    | some i =>
      have hne : ¬ ((i : Int) = -1) := by omega
      have htake : filename.take (cfg.MAX_NAME_STRLEN - 1) = filename :=
        List.take_of_length_le (by omega)
      simp only [hne, if_false, simplefs_writeInode, Int.toNat_ofNat, htake]
      intro a ha b hb hab hua hub
      dsimp only at hua hub ⊢
      by_cases hai : a = i
      · have hbi : b ≠ i := fun h => hab (hai.trans h.symm)
        rw [Function.update_noteq hbi] at hub ⊢
        rw [hai, Function.update_same]
        exact fun h => hnone b hb ⟨hub, h.symm⟩
      · rw [Function.update_noteq hai] at hua ⊢
        by_cases hbi : b = i
        · rw [hbi, Function.update_same]
          exact fun h => hnone a ha ⟨hua, h⟩
        · rw [Function.update_noteq hbi] at hub ⊢
          exact hu a ha b hb hab hua hub
  · have hc : find_inode_by_name cfg s filename ≠ -1 := by omega
    rw [if_pos hc]
    exact hu

theorem delete_names_unique (cfg : Config) (s : FS) (filename : List Char)
    (hu : names_unique cfg s) : names_unique cfg (simplefs_delete cfg s filename) := by
  unfold simplefs_delete
  dsimp only
  split
  · exact hu
  · obtain ⟨f1, _, _, _⟩ := delete_loop_frame s
      (simplefs_readInode s (find_inode_by_name cfg s filename)) cfg.MAX_FILE_SIZE
    simp only [simplefs_freeInode, f1]
    intro a ha b hb hab hua hub
    dsimp only at hua hub ⊢
    by_cases hai : a = (find_inode_by_name cfg s filename).toNat
    · rw [hai, Function.update_same] at hua
      exact inode_status.noConfusion hua
    · by_cases hbi : b = (find_inode_by_name cfg s filename).toNat
      · rw [hbi, Function.update_same] at hub
        exact inode_status.noConfusion hub
      · rw [Function.update_noteq hai] at hua ⊢
        rw [Function.update_noteq hbi] at hub ⊢
        exact hu a ha b hb hab hua hub

theorem open_inodes (cfg : Config) (s : FS) (filename : List Char) :
    (simplefs_open cfg s filename).2.inodes = s.inodes := by
  unfold simplefs_open
  dsimp only
  split
  · rfl
  · split <;> rfl

theorem close_inodes (cfg : Config) (s : FS) (file_handle : Int) :
    (simplefs_close cfg s file_handle).inodes = s.inodes := by
  unfold simplefs_close
  split <;> rfl

theorem seek_inodes (cfg : Config) (s : FS) (file_handle nseek : Int) :
    (simplefs_seek cfg s file_handle nseek).2.inodes = s.inodes := by
  unfold simplefs_seek
  dsimp only
  split
  · rfl
  · split
    · rfl
    · split <;> rfl

/-- Name uniqueness is kept by every sequence of calls whose `simplefs_create`
names fit the name field: the stored name is then the name checked. -/
theorem names_unique_run (cfg : Config) (ops : List Op) :
    ∀ s s', names_fit cfg ops → names_unique cfg s → run cfg s ops = some s' →
      names_unique cfg s' := by
  induction ops with
  | nil =>
    intro s s' _ hu hr
    unfold run at hr
    cases hr; exact hu
  | cons op ops ih =>
    intro s s' hfit hu hr
    unfold run at hr
    cases hs : step cfg s op with
    | none => rw [hs] at hr; exact absurd hr (by simp)
    | some s1 =>
      rw [hs] at hr
      simp only [Option.some_bind] at hr
      have hsame : ∀ t : FS, t.inodes = s.inodes → names_unique cfg t := fun t ht =>
        names_unique_of_same cfg s t (fun i => by rw [ht]; exact ⟨rfl, rfl⟩) hu
      cases op with
      | create filename =>
        unfold names_fit at hfit
        simp only [step, Option.some.injEq] at hs
        subst hs
        exact ih _ _ hfit.2 (create_names_unique cfg s filename hfit.1 hu) hr
      | delete filename =>
        simp only [step, Option.some.injEq] at hs
        subst hs
        exact ih _ _ hfit (delete_names_unique cfg s filename hu) hr
      | open_file filename =>
        simp only [step, Option.some.injEq] at hs
        subst hs
        exact ih _ _ hfit (hsame _ (open_inodes cfg s filename)) hr
      | close file_handle =>
        simp only [step, Option.some.injEq] at hs
        subst hs
        exact ih _ _ hfit (hsame _ (close_inodes cfg s file_handle)) hr
      | seek file_handle nseek =>
        simp only [step, Option.some.injEq] at hs
        subst hs
        exact ih _ _ hfit (hsame _ (seek_inodes cfg s file_handle nseek)) hr
      | read file_handle nbytes =>
        simp only [step, Option.map_eq_some'] at hs
        obtain ⟨_, _, hs⟩ := hs
        subst hs
        exact ih _ _ hfit hu hr
      | write file_handle buf nbytes =>
        simp only [step, Option.map_eq_some'] at hs
        obtain ⟨⟨ret, s2⟩, hw, hs⟩ := hs
        simp only at hs
        subst hs
        exact ih _ _ hfit
          (names_unique_of_same cfg s _
            (write_keeps_names cfg s file_handle buf nbytes ret _ hw) hu) hr

/-- From the fresh file system, the names of the in-use inodes stay pairwise
distinct as long as every created name fits the name field. -/
theorem names_unique_reachable (cfg : Config) (ops : List Op) (s : FS)
    (hfit : names_fit cfg ops) (hr : run cfg simplefs_formatDisk ops = some s) :
    names_unique cfg s :=
  names_unique_run cfg ops simplefs_formatDisk s hfit
    (fun _ _ _ _ _ h _ => inode_status.noConfusion h) hr

theorem find_inode_by_name_ne_iff (cfg : Config) (s : FS) (filename : List Char) :
    find_inode_by_name cfg s filename ≠ -1 ↔
      ∃ j, j < cfg.NUM_INODES ∧ (s.inodes j).status = INODE_IN_USE
        ∧ (s.inodes j).name = filename := by
  rcases find_inode_by_name_spec cfg s filename with ⟨h1, h2⟩ | ⟨j, h1, hj, h3⟩
  · constructor
    · intro h; exact absurd h1 h
    · rintro ⟨j, hj, h3⟩; exact absurd h3 (h2 j hj)
  · constructor
    · intro _; exact ⟨j, hj, h3⟩
    · intro _; omega

theorem lowest_free_eq_none_iff (free : Nat → Bool) (n : Nat) :
    lowest_free free n = none ↔ ∀ i, i < n → free i = false := by
  constructor
  · exact lowest_free_none
  · intro h
    cases hl : lowest_free free n with
    | none => rfl
    | some b =>
      obtain ⟨hb, hf⟩ := lowest_free_some hl
      rw [h b hb] at hf
      exact Bool.noConfusion hf

/-- C11: `simplefs_create(name)` returns `-1` if and only if an in-use inode
of the table holds that name or the free list of the allocator offers no
inode; a failed create leaves the whole state unchanged; a successful create
returns the id handed out by `simplefs_allocInode`, the record persisted at
that id has status in-use, `file_size` 0, every direct block reference `-1` and
the first `MAX_NAME_STRLEN - 1` characters of the name, and every other inode
record, the block store, the block free list and the handle table are
unchanged (the inode free list is the one left by `simplefs_allocInode`). -/
theorem C11_create_contract (cfg : Config) (s : FS) (filename : List Char) :
    ((simplefs_create cfg s filename).1 = -1 ↔
      ((∃ j, j < cfg.NUM_INODES ∧ (s.inodes j).status = INODE_IN_USE
          ∧ (s.inodes j).name = filename)
        ∨ ∀ i, i < cfg.NUM_INODES → s.inode_freelist i = false))
    ∧ ((simplefs_create cfg s filename).1 = -1 → (simplefs_create cfg s filename).2 = s)
    ∧ ((simplefs_create cfg s filename).1 ≠ -1 →
        (simplefs_create cfg s filename).1 = (simplefs_allocInode cfg s).1
        ∧ 0 ≤ (simplefs_create cfg s filename).1
        ∧ (simplefs_create cfg s filename).1 < cfg.NUM_INODES
        ∧ (simplefs_create cfg s filename).2.inodes (simplefs_create cfg s filename).1.toNat
          = { status := INODE_IN_USE, name := filename.take (cfg.MAX_NAME_STRLEN - 1),
              file_size := 0, direct_blocks := fun _ => -1 }
        ∧ (∀ k, k ≠ (simplefs_create cfg s filename).1.toNat →
            (simplefs_create cfg s filename).2.inodes k = s.inodes k)
        ∧ (simplefs_create cfg s filename).2.data_blocks = s.data_blocks
        ∧ (simplefs_create cfg s filename).2.datablock_freelist = s.datablock_freelist
        ∧ (simplefs_create cfg s filename).2.file_handle_array = s.file_handle_array
        ∧ (simplefs_create cfg s filename).2.inode_freelist
          = (simplefs_allocInode cfg s).2.inode_freelist) := by
  have hfind := find_inode_by_name_ne_iff cfg s filename
  have hfree := lowest_free_eq_none_iff s.inode_freelist cfg.NUM_INODES
  by_cases hc : find_inode_by_name cfg s filename ≠ -1
  · have he : simplefs_create cfg s filename = (-1, s) := by
      unfold simplefs_create; rw [if_pos hc]
    rw [he]
    exact ⟨⟨fun _ => Or.inl (hfind.1 hc), fun _ => rfl⟩, fun _ => rfl, fun h => absurd rfl h⟩
  · cases hlf : lowest_free s.inode_freelist cfg.NUM_INODES with
    | none =>
      have ha : simplefs_allocInode cfg s = (-1, s) := by
        unfold simplefs_allocInode; rw [hlf]
      have he : simplefs_create cfg s filename = (-1, s) := by
        unfold simplefs_create; rw [if_neg hc, ha]; rfl
      rw [he]
      exact ⟨⟨fun _ => Or.inr (hfree.1 hlf), fun _ => rfl⟩, fun _ => rfl, fun h => absurd rfl h⟩
    | some i =>
      obtain ⟨hi, hif⟩ := lowest_free_some hlf
      have ha : simplefs_allocInode cfg s
          = ((i : Int), { s with inode_freelist := Function.update s.inode_freelist i false }) := by
        unfold simplefs_allocInode; rw [hlf]
      have hne : ¬ ((i : Int) = -1) := by omega
      have he : simplefs_create cfg s filename
          = ((i : Int), simplefs_writeInode
              { s with inode_freelist := Function.update s.inode_freelist i false } (i : Int)
              { status := INODE_IN_USE, name := filename.take (cfg.MAX_NAME_STRLEN - 1),
                file_size := 0, direct_blocks := fun _ => -1 }) := by
        unfold simplefs_create; rw [if_neg hc, ha]; dsimp only; rw [if_neg hne]
      rw [he, ha]
      refine ⟨⟨fun h => absurd h hne, ?_⟩, fun h => absurd h hne, fun _ => ?_⟩
      · rintro (h | h)
        · exact absurd (hfind.2 h) hc
        · rw [h i hi] at hif; exact Bool.noConfusion hif
      · dsimp only [simplefs_writeInode]
        rw [Int.toNat_ofNat]
        refine ⟨rfl, by omega, by omega, ?_, fun k hk => ?_, rfl, rfl, rfl, rfl⟩
        · rw [Function.update_same]
        · rw [Function.update_noteq hk]

/-- C11 at concrete inputs: on the fresh file system `create("a")` returns
inode 0; in the state that follows, `create("a")` is refused and changes
nothing. -/
theorem C11_create_contract_witness :
    (simplefs_create scenario_cfg simplefs_formatDisk "a".toList).1 ≠ -1
    ∧ (simplefs_create scenario_cfg simplefs_formatDisk "a".toList).1
      = (simplefs_allocInode scenario_cfg simplefs_formatDisk).1
    ∧ (simplefs_create scenario_cfg scn1 "a".toList).1 = -1
    ∧ (simplefs_create scenario_cfg scn1 "a".toList).2 = scn1 :=
  ⟨by decide,
    ((C11_create_contract scenario_cfg simplefs_formatDisk "a".toList).2.2 (by decide)).1,
    by decide,
    (C11_create_contract scenario_cfg scn1 "a".toList).2.1 (by decide)⟩

theorem find_free_filehandle_from_lowest (s : FS) (k i : Nat) :
    (find_free_filehandle_from s i k = -1
      ∧ ∀ j, i ≤ j → j < i + k → (s.file_handle_array j).inode_number ≠ -1)
    ∨ ∃ j : Nat, find_free_filehandle_from s i k = (j : Int) ∧ i ≤ j ∧ j < i + k
        ∧ (s.file_handle_array j).inode_number = -1
        ∧ ∀ j', i ≤ j' → j' < j → (s.file_handle_array j').inode_number ≠ -1 := by
  induction k generalizing i with
  | zero => left; exact ⟨rfl, fun j h1 h2 => by omega⟩
  | succ k ih =>
    unfold find_free_filehandle_from
    by_cases hc : (s.file_handle_array i).inode_number = -1
    · right
      rw [if_pos hc]
      exact ⟨i, rfl, Nat.le_refl _, by omega, hc, fun j' h1 h2 => by omega⟩
    · rw [if_neg hc]
      rcases ih (i + 1) with ⟨h1, h2⟩ | ⟨j, h1, h2, h3, h4, h5⟩
      · left
        refine ⟨h1, fun j hj1 hj2 => ?_⟩
        by_cases hji : j = i
        · subst hji; exact hc
        · exact h2 j (by omega) (by omega)
      · right
        refine ⟨j, h1, by omega, by omega, h4, fun j' hj1 hj2 => ?_⟩
        by_cases hji : j' = i
        · subst hji; exact hc
        · exact h5 j' (by omega) hj2

/-- C14: if the name does not resolve, or every slot of the handle table is
bound, `simplefs_open` returns `-1` and the state is unchanged. If the name
resolves to inode `i` and some slot is unbound, it returns the lowest unbound
slot `k`, and the state differs only in that slot, now bound to `i` at offset
0; `i` is an in-use inode of the table holding that name. -/
theorem C14_open_contract (cfg : Config) (s : FS) (filename : List Char) :
    ((find_inode_by_name cfg s filename = -1
        ∨ ∀ k, k < cfg.MAX_OPEN_FILES → (s.file_handle_array k).inode_number ≠ -1) →
      simplefs_open cfg s filename = (-1, s))
    ∧ (∀ i : Nat, find_inode_by_name cfg s filename = (i : Int) →
        (∃ k, k < cfg.MAX_OPEN_FILES ∧ (s.file_handle_array k).inode_number = -1) →
        (i < cfg.NUM_INODES ∧ (s.inodes i).status = INODE_IN_USE
          ∧ (s.inodes i).name = filename)
        ∧ ∃ k, k < cfg.MAX_OPEN_FILES ∧ (s.file_handle_array k).inode_number = -1
            ∧ (∀ k', k' < k → (s.file_handle_array k').inode_number ≠ -1)
            ∧ simplefs_open cfg s filename
              = ((k : Int), { s with
                  file_handle_array := Function.update s.file_handle_array k ⟨(i : Int), 0⟩ })) := by
  have hlow : (find_free_filehandle cfg s = -1
      ∧ ∀ j, j < cfg.MAX_OPEN_FILES → (s.file_handle_array j).inode_number ≠ -1)
      ∨ ∃ j : Nat, find_free_filehandle cfg s = (j : Int) ∧ j < cfg.MAX_OPEN_FILES
        ∧ (s.file_handle_array j).inode_number = -1
        ∧ ∀ j', j' < j → (s.file_handle_array j').inode_number ≠ -1 := by
    unfold find_free_filehandle
    rcases find_free_filehandle_from_lowest s cfg.MAX_OPEN_FILES 0 with
      ⟨h1, h2⟩ | ⟨j, h1, _, h3, h4, h5⟩
    · left; exact ⟨h1, fun j hj => h2 j (Nat.zero_le _) (by omega)⟩
    · right; exact ⟨j, h1, by omega, h4, fun j' hj' => h5 j' (Nat.zero_le _) hj'⟩
  refine ⟨?_, ?_⟩
  · intro h
    unfold simplefs_open
    dsimp only
    by_cases hf : find_inode_by_name cfg s filename = -1
    · rw [if_pos hf]
    · rw [if_neg hf]
      have hall : ∀ k, k < cfg.MAX_OPEN_FILES → (s.file_handle_array k).inode_number ≠ -1 := by
        rcases h with h | h
        · exact absurd h hf
        · exact h
      rcases hlow with ⟨h1, _⟩ | ⟨j, _, hj, h4, _⟩
      · rw [if_pos h1]
      · exact absurd h4 (hall j hj)
  · intro i hi hex
    have hres : i < cfg.NUM_INODES ∧ (s.inodes i).status = INODE_IN_USE
        ∧ (s.inodes i).name = filename := by
      rcases find_inode_by_name_spec cfg s filename with ⟨h1, _⟩ | ⟨j, h1, hj, h3⟩
      · omega
      · have : j = i := by omega
        subst this
        exact ⟨hj, h3⟩
    refine ⟨hres, ?_⟩
    rcases hlow with ⟨_, h2⟩ | ⟨j, h1, hj, h4, h5⟩
    · obtain ⟨k, hk, hku⟩ := hex
      exact absurd hku (h2 k hk)
    · refine ⟨j, hj, h4, h5, ?_⟩
      unfold simplefs_open
      dsimp only
      have hf : ¬ (find_inode_by_name cfg s filename = -1) := by omega
      have hh : ¬ (find_free_filehandle cfg s = -1) := by omega
      rw [if_neg hf, if_neg hh, h1, hi, Int.toNat_ofNat]

/-- C14 at concrete inputs: in the scenario state after `create("a")`, opening
"a" binds slot 0; opening the unknown name "b" is refused and changes
nothing. -/
theorem C14_open_contract_witness :
    find_inode_by_name scenario_cfg scn1 "a".toList = ((0 : Nat) : Int)
    ∧ (∃ k, k < scenario_cfg.MAX_OPEN_FILES ∧ (scn1.file_handle_array k).inode_number = -1)
    ∧ (∃ k, k < scenario_cfg.MAX_OPEN_FILES ∧ (scn1.file_handle_array k).inode_number = -1
        ∧ (∀ k', k' < k → (scn1.file_handle_array k').inode_number ≠ -1)
        ∧ simplefs_open scenario_cfg scn1 "a".toList
          = ((k : Int), { scn1 with
              file_handle_array :=
                Function.update scn1.file_handle_array k ⟨((0 : Nat) : Int), 0⟩ }))
    ∧ simplefs_open scenario_cfg scn1 "b".toList = (-1, scn1) :=
  ⟨by decide, ⟨0, by decide, by decide⟩,
    ((C14_open_contract scenario_cfg scn1 "a".toList).2 0 (by decide)
      ⟨0, by decide, by decide⟩).2,
    (C14_open_contract scenario_cfg scn1 "b".toList).1 (Or.inl (by decide))⟩

/-- C18: `simplefs_close` with an id below 0 or not below `MAX_OPEN_FILES`
leaves the whole state unchanged. Otherwise the slot becomes unbound with
offset 0 and every other slot, every inode record, every block and both free
lists are unchanged; `simplefs_read`, `simplefs_write` and `simplefs_seek` on
that id then return `-1`, the write and the seek leaving the state as it is. -/
theorem C18_close_contract (cfg : Config) (s : FS) (file_handle : Int) :
    ((file_handle < 0 ∨ file_handle ≥ cfg.MAX_OPEN_FILES) →
      simplefs_close cfg s file_handle = s)
    ∧ (0 ≤ file_handle → file_handle < cfg.MAX_OPEN_FILES →
        (simplefs_close cfg s file_handle).file_handle_array file_handle.toNat
          = { inode_number := -1, offset := 0 }
        ∧ (∀ k, k ≠ file_handle.toNat →
            (simplefs_close cfg s file_handle).file_handle_array k = s.file_handle_array k)
        ∧ (simplefs_close cfg s file_handle).inodes = s.inodes
        ∧ (simplefs_close cfg s file_handle).data_blocks = s.data_blocks
        ∧ (simplefs_close cfg s file_handle).inode_freelist = s.inode_freelist
        ∧ (simplefs_close cfg s file_handle).datablock_freelist = s.datablock_freelist
        ∧ (∀ nbytes, simplefs_read cfg (simplefs_close cfg s file_handle) file_handle nbytes
            = some (-1, []))
        ∧ (∀ buf nbytes,
            simplefs_write cfg (simplefs_close cfg s file_handle) file_handle buf nbytes
              = some (-1, simplefs_close cfg s file_handle))
        ∧ (∀ nseek, simplefs_seek cfg (simplefs_close cfg s file_handle) file_handle nseek
            = (-1, simplefs_close cfg s file_handle))) := by
  refine ⟨?_, ?_⟩
  · intro h
    unfold simplefs_close
    rw [if_pos h]
  · intro h0 h1
    have hr : ¬ (file_handle < 0 ∨ file_handle ≥ cfg.MAX_OPEN_FILES) := by omega
    have hc : simplefs_close cfg s file_handle
        = { s with
            file_handle_array :=
              Function.update s.file_handle_array file_handle.toNat ⟨-1, 0⟩ } := by
      unfold simplefs_close
      rw [if_neg hr]
    have hu : ((simplefs_close cfg s file_handle).file_handle_array
        file_handle.toNat).inode_number = -1 := by
      rw [hc]; dsimp only; rw [Function.update_same]
    refine ⟨?_, ?_, ?_, ?_, ?_, ?_, ?_, ?_, ?_⟩
    · rw [hc]; dsimp only; rw [Function.update_same]
    · intro k hk; rw [hc]; dsimp only; rw [Function.update_noteq hk]
    · rw [hc]
    · rw [hc]
    · rw [hc]
    · rw [hc]
    · intro nbytes
      unfold simplefs_read
      dsimp only
      rw [if_neg hr, if_pos hu]
    · intro buf nbytes
      unfold simplefs_write
      dsimp only
      rw [if_neg hr, if_pos hu]
    · intro nseek
      unfold simplefs_seek
      dsimp only
      rw [if_neg hr, if_pos hu]

/-- C18 at concrete inputs: closing handle 0 of the scenario state after the
6-byte write; a read through it is then refused; closing handle 9 changes
nothing. -/
theorem C18_close_contract_witness :
    ((0 : Int) ≤ 0 ∧ (0 : Int) < scenario_cfg.MAX_OPEN_FILES)
    ∧ (simplefs_close scenario_cfg scn3 0).file_handle_array (0 : Int).toNat
      = { inode_number := -1, offset := 0 }
    ∧ simplefs_read scenario_cfg (simplefs_close scenario_cfg scn3 0) 0 6 = some (-1, [])
    ∧ simplefs_close scenario_cfg scn3 9 = scn3 :=
  ⟨by decide,
    ((C18_close_contract scenario_cfg scn3 0).2 (by decide) (by decide)).1,
    ((C18_close_contract scenario_cfg scn3 0).2 (by decide) (by decide)).2.2.2.2.2.2.1 6,
    (C18_close_contract scenario_cfg scn3 9).1 (Or.inr (by decide))⟩

theorem bytes_to_copy_pos (cfg : Config) (hB : 0 < cfg.BLOCKSIZE) (current_offset rem : Int)
    (hrem : 0 < rem) :
    0 < bytes_to_copy cfg (Int.tmod current_offset cfg.BLOCKSIZE) rem := by
  unfold bytes_to_copy
  have := Int.tmod_lt_of_pos current_offset (show (0 : Int) < (cfg.BLOCKSIZE : Int) by omega)
  split <;> omega

/-- The loop of `simplefs_read` returns for every offset when `BLOCKSIZE` is
positive: `nbytes - bytes_read` units of fuel are enough. -/
theorem read_loop_returns (cfg : Config) (hB : 0 < cfg.BLOCKSIZE) (s : FS) (inode : inode_t)
    (n : Int) :
    ∀ (fuel : Nat) (bytes_read current_offset : Int) (acc : List Char),
      (n - bytes_read).toNat ≤ fuel →
      ∃ r, read_loop cfg s inode n fuel bytes_read current_offset acc = some r := by
  intro fuel
  induction fuel with
  | zero =>
    intro br co acc hf
    unfold read_loop
    have hw : ¬ (br < n) := by omega
    rw [if_neg hw]
    exact ⟨_, rfl⟩
  | succ fuel ih =>
    intro br co acc hf
    unfold read_loop
    by_cases hw : br < n
    · rw [if_pos hw]
      dsimp only
      have hpos := bytes_to_copy_pos cfg hB co (n - br) (by omega)
      split
      · exact ⟨_, rfl⟩
      · exact ih _ _ _ (by omega)
    · rw [if_neg hw]
      exact ⟨_, rfl⟩

/-- The loop of `simplefs_write` returns for every offset when `BLOCKSIZE` is
positive: `nbytes - bytes_written` units of fuel are enough. -/
theorem write_loop_returns (cfg : Config) (hB : 0 < cfg.BLOCKSIZE) (buf : List Char) (n : Int) :
    ∀ (fuel : Nat) (bytes_written current_offset : Int) (st : write_state),
      (n - bytes_written).toNat ≤ fuel →
      ∃ r, write_loop cfg buf n fuel bytes_written current_offset st = some r := by
  intro fuel
  induction fuel with
  | zero =>
    intro bw co st hf
    unfold write_loop
    have hw : ¬ (bw < n) := by omega
    rw [if_neg hw]
    exact ⟨_, rfl⟩
  | succ fuel ih =>
    intro bw co st hf
    unfold write_loop
    by_cases hw : bw < n
    · rw [if_pos hw]
      dsimp only
      have hpos := bytes_to_copy_pos cfg hB co (n - bw) (by omega)
      split
      · exact ⟨_, rfl⟩
      · split
        · split
          · exact ⟨_, rfl⟩
          · exact ih _ _ _ (by omega)
        · exact ih _ _ _ (by omega)
    · rw [if_neg hw]
      exact ⟨_, rfl⟩

/-- `simplefs_read` returns for every state and every argument when
`BLOCKSIZE` is positive. -/
theorem read_returns (cfg : Config) (hB : 0 < cfg.BLOCKSIZE) (s : FS)
    (file_handle nbytes : Int) : ∃ r, simplefs_read cfg s file_handle nbytes = some r := by
  unfold simplefs_read
  dsimp only
  split
  · exact ⟨_, rfl⟩
  · split
    · exact ⟨_, rfl⟩
    · split
      · exact ⟨_, rfl⟩
      · exact read_loop_returns cfg hB s _ nbytes _ _ _ _ (by omega)

/-- `simplefs_write` returns for every state and every argument when
`BLOCKSIZE` is positive. -/
theorem write_returns (cfg : Config) (hB : 0 < cfg.BLOCKSIZE) (s : FS) (file_handle : Int)
    (buf : List Char) (nbytes : Int) :
    ∃ r, simplefs_write cfg s file_handle buf nbytes = some r := by
  unfold simplefs_write
  dsimp only
  split
  · exact ⟨_, rfl⟩
  · split
    · exact ⟨_, rfl⟩
    · split
      · exact ⟨_, rfl⟩
      · obtain ⟨r, hr⟩ := write_loop_returns cfg hB buf nbytes nbytes.toNat 0
          (s.file_handle_array file_handle.toNat).offset
          { disk := s,
            inode := simplefs_readInode s (s.file_handle_array file_handle.toNat).inode_number,
            newly_allocated := fun _ => false } (by omega)
        rw [hr]
        obtain ⟨b, st⟩ := r
        cases b
        · exact ⟨_, rfl⟩
        · exact ⟨_, rfl⟩

theorem write_loop_keeps_handles (cfg : Config) (buf : List Char) (n : Int) :
    ∀ (fuel : Nat) (bytes_written current_offset : Int) (st : write_state)
      (r : Bool × write_state),
      write_loop cfg buf n fuel bytes_written current_offset st = some r →
      r.2.disk.file_handle_array = st.disk.file_handle_array := by
  intro fuel
  induction fuel with
  | zero =>
    intro bw co st r hr
    unfold write_loop at hr
    split at hr
    · exact absurd hr (by simp)
    · cases hr; rfl
  | succ fuel ih =>
    intro bw co st r hr
    unfold write_loop at hr
    dsimp only at hr
    split at hr
    · split at hr
      · cases hr; rfl
      · split at hr
        · split at hr
          · cases hr
            unfold simplefs_allocDataBlock
            split <;> rfl
          · rw [ih _ _ _ r hr]
            unfold simplefs_writeDataBlock simplefs_allocDataBlock
            split <;> rfl
        · rw [ih _ _ _ r hr]
          rfl
    · cases hr; rfl

/-- `simplefs_write` leaves the handle table as it is. -/
theorem write_keeps_handles (cfg : Config) (s : FS) (file_handle : Int) (buf : List Char)
    (nbytes : Int) (ret : Int) (s' : FS)
    (hw : simplefs_write cfg s file_handle buf nbytes = some (ret, s')) :
    s'.file_handle_array = s.file_handle_array := by
  unfold simplefs_write at hw
  dsimp only at hw
  split at hw
  · cases hw; rfl
  · split at hw
    · cases hw; rfl
    · split at hw
      · cases hw; rfl
      · split at hw
        · exact absurd hw (by simp)
        · rename_i st hl
          have h := write_loop_keeps_handles cfg buf nbytes _ _ _ _ _ hl
          simp only [Option.some.injEq, Prod.mk.injEq] at hw
          obtain ⟨_, hs⟩ := hw
          subst hs
          exact h
        · rename_i st hl
          have h := write_loop_keeps_handles cfg buf nbytes _ _ _ _ _ hl
          obtain ⟨_, _, _, r4, _⟩ :=
            rollback_loop_spec st.newly_allocated st.disk st.inode cfg.MAX_FILE_SIZE
          simp only [Option.some.injEq, Prod.mk.injEq] at hw
          obtain ⟨_, hs⟩ := hw
          subst hs
          exact r4.trans h

/-- C15: `simplefs_read` has no effect on the state. The source function only
reads `file_handle_array`, an inode record and data blocks, which is why its
embedding returns a return value and bytes but no state; accordingly every
call returns (for positive `BLOCKSIZE`) and the state after a read call is the
state before it, whether the call returns `0` or `-1`: handle table, inode
table, block store and both free lists. -/
theorem C15_read_no_effect (cfg : Config) (hB : 0 < cfg.BLOCKSIZE) (s : FS)
    (file_handle nbytes : Int) :
    (∃ ret out, simplefs_read cfg s file_handle nbytes = some (ret, out))
    ∧ step cfg s (Op.read file_handle nbytes) = some s
    ∧ ∀ s', step cfg s (Op.read file_handle nbytes) = some s' →
        s'.file_handle_array = s.file_handle_array ∧ s'.inodes = s.inodes
        ∧ s'.data_blocks = s.data_blocks ∧ s'.inode_freelist = s.inode_freelist
        ∧ s'.datablock_freelist = s.datablock_freelist := by
  obtain ⟨r, hr⟩ := read_returns cfg hB s file_handle nbytes
  have hstep : step cfg s (Op.read file_handle nbytes) = some s := by
    simp only [step, hr, Option.map_some']
  refine ⟨⟨r.1, r.2, hr⟩, hstep, fun s' hs' => ?_⟩
  rw [hstep] at hs'
  cases hs'
  exact ⟨rfl, rfl, rfl, rfl, rfl⟩

/-- C15 at concrete inputs: a successful and a refused read in the scenario
state after the 6-byte write. -/
theorem C15_read_no_effect_witness :
    (0 < scenario_cfg.BLOCKSIZE)
    ∧ step scenario_cfg scn3 (Op.read 0 6) = some scn3
    ∧ step scenario_cfg scn3 (Op.read 0 7) = some scn3 :=
  ⟨by decide, (C15_read_no_effect scenario_cfg (by decide) scn3 0 6).2.1,
    (C15_read_no_effect scenario_cfg (by decide) scn3 0 7).2.1⟩

/-- C16: `simplefs_write` never moves a handle: for every state, handle, buffer
and byte count the call returns (for positive `BLOCKSIZE`), and whatever it
returns, the handle table after the call, the slot written through included, is
the handle table before it. -/
theorem C16_write_keeps_handle_table (cfg : Config) (hB : 0 < cfg.BLOCKSIZE) (s : FS)
    (file_handle : Int) (buf : List Char) (nbytes : Int) :
    (∃ ret s', simplefs_write cfg s file_handle buf nbytes = some (ret, s'))
    ∧ ∀ ret s', simplefs_write cfg s file_handle buf nbytes = some (ret, s') →
        s'.file_handle_array = s.file_handle_array := by
  obtain ⟨r, hr⟩ := write_returns cfg hB s file_handle buf nbytes
  exact ⟨⟨r.1, r.2, hr⟩,
    fun ret s' hw => write_keeps_handles cfg s file_handle buf nbytes ret s' hw⟩

/-- C16 at concrete inputs: the successful 6-byte write of the scenario and the
failed 6-byte write with a single data block. -/
theorem C16_write_keeps_handle_table_witness :
    (0 < scenario_cfg.BLOCKSIZE)
    ∧ simplefs_write scenario_cfg scn2 0 "abcdef".toList 6 = some (0, scn3)
    ∧ scn3.file_handle_array = scn2.file_handle_array
    ∧ simplefs_write tight_cfg tight1 0 "abcdef".toList 6 = some (-1, tight2)
    ∧ tight2.file_handle_array = tight1.file_handle_array :=
  ⟨by decide, state_of_eq scn2 (by decide),
    (C16_write_keeps_handle_table scenario_cfg (by decide) scn2 0 "abcdef".toList 6).2 0 scn3
      (state_of_eq scn2 (by decide)),
    state_of_eq tight1 (by decide),
    (C16_write_keeps_handle_table tight_cfg (by decide) tight1 0 "abcdef".toList 6).2 (-1) tight2
      (state_of_eq tight1 (by decide))⟩

theorem delete_of_not_found (cfg : Config) (s : FS) (filename : List Char)
    (h : find_inode_by_name cfg s filename = -1) : simplefs_delete cfg s filename = s := by
  unfold simplefs_delete
  dsimp only
  rw [if_pos h]

/-- C12 (as stated) fails: in the state with two in-use inodes holding the
name "abc" (reached by creating "abcd" twice with `MAX_NAME_STRLEN = 4`), one
`delete("abc")` frees inode 0 and leaves inode 1 in use; the second frees
inode 1. -/
theorem C12_counterexample :
    run short_name_cfg simplefs_formatDisk duplicate_ops = some duplicate_state
    ∧ ((simplefs_delete short_name_cfg duplicate_state "abc".toList).inodes 1).status
      = INODE_IN_USE
    ∧ ((simplefs_delete short_name_cfg
        (simplefs_delete short_name_cfg duplicate_state "abc".toList) "abc".toList).inodes 1).status
      = INODE_FREE
    ∧ simplefs_delete short_name_cfg
        (simplefs_delete short_name_cfg duplicate_state "abc".toList) "abc".toList
      ≠ simplefs_delete short_name_cfg duplicate_state "abc".toList :=
  ⟨getD_eq_some _ (by decide), by decide, by decide,
    fun h => absurd (congrArg (fun t : FS => (t.inodes 1).status) h) (by decide)⟩

/-- C12 (amended): in every state in which no two in-use inodes hold the same
stored name, `simplefs_delete(name)` applied twice yields the same state as
applied once. -/
theorem C12_delete_idempotent (cfg : Config) (s : FS) (filename : List Char)
    (hu : names_unique cfg s) :
    simplefs_delete cfg (simplefs_delete cfg s filename) filename
      = simplefs_delete cfg s filename := by
  rcases find_inode_by_name_spec cfg s filename with ⟨h1, _⟩ | ⟨i, h1, hi, hiu, hin⟩
  · have he := delete_of_not_found cfg s filename h1
    rw [he, he]
  · have hne : ¬ (find_inode_by_name cfg s filename = -1) := by omega
    obtain ⟨f1, _, _, _⟩ :=
      delete_loop_frame s (simplefs_readInode s (i : Int)) cfg.MAX_FILE_SIZE
    have hinodes : (simplefs_delete cfg s filename).inodes
        = Function.update s.inodes i { (s.inodes i) with status := INODE_FREE } := by
      unfold simplefs_delete
      dsimp only
      rw [if_neg hne, h1]
      simp only [simplefs_freeInode, Int.toNat_ofNat, f1]
    have hnone : find_inode_by_name cfg (simplefs_delete cfg s filename) filename = -1 := by
      by_contra hc
      obtain ⟨j, hj, hju, hjn⟩ := (find_inode_by_name_ne_iff cfg _ filename).1 hc
      rw [hinodes] at hju hjn
      by_cases hji : j = i
      · rw [hji, Function.update_same] at hju
        exact inode_status.noConfusion hju
      · rw [Function.update_noteq hji] at hju hjn
        exact hu j hj i hi hji hju hiu (hjn.trans hin.symm)
    exact delete_of_not_found cfg _ filename hnone

/-- C12 (amended) at a concrete input: the scenario state with the single
file "a". -/
theorem C12_delete_idempotent_witness :
    names_unique scenario_cfg scn3
    ∧ simplefs_delete scenario_cfg (simplefs_delete scenario_cfg scn3 "a".toList) "a".toList
      = simplefs_delete scenario_cfg scn3 "a".toList :=
  ⟨by decide, C12_delete_idempotent scenario_cfg scn3 "a".toList (by decide)⟩

theorem delete_loop_eq_rollback (s : FS) (inode : inode_t) (n : Nat) :
    delete_loop s inode n
      = rollback_loop (fun j => decide (inode.direct_blocks j ≠ -1)) s inode n := by
  induction n with
  | zero => rfl
  | succ n ih =>
    unfold delete_loop rollback_loop
    dsimp only
    rw [ih]
    have hcur : (rollback_loop (fun j => decide (inode.direct_blocks j ≠ -1)) s inode
        n).2.direct_blocks n = inode.direct_blocks n :=
      ((rollback_loop_spec _ s inode n).2.2.2.2.2.2.2.1 n).2
        (fun h => absurd h.1 (Nat.lt_irrefl n))
    rw [hcur]
    by_cases hd : inode.direct_blocks n ≠ -1
    · rw [if_pos hd, if_pos (decide_eq_true hd)]
    · rw [if_neg hd, if_neg (by rw [decide_eq_false hd]; exact Bool.false_ne_true)]

/-- What `simplefs_delete` does when the name resolves to inode `i`: the
record of `i` keeps its name, size and direct block references and gets status
free; no other record changes; `i` and every block referenced by `i` are on
their free lists; the free list of the blocks is otherwise as before; block
store and handle table are unchanged. -/
theorem delete_spec (cfg : Config) (s : FS) (filename : List Char) (i : Nat)
    (hfind : find_inode_by_name cfg s filename = (i : Int)) :
    (simplefs_delete cfg s filename).inodes i = { (s.inodes i) with status := INODE_FREE }
    ∧ (∀ k, k ≠ i → (simplefs_delete cfg s filename).inodes k = s.inodes k)
    ∧ (simplefs_delete cfg s filename).inode_freelist i = true
    ∧ (∀ k, k ≠ i → (simplefs_delete cfg s filename).inode_freelist k = s.inode_freelist k)
    ∧ (∀ j, j < cfg.MAX_FILE_SIZE → (s.inodes i).direct_blocks j ≠ -1 →
        (simplefs_delete cfg s filename).datablock_freelist
          ((s.inodes i).direct_blocks j).toNat = true)
    ∧ (∀ b, (∀ j, j < cfg.MAX_FILE_SIZE → (s.inodes i).direct_blocks j ≠ -1 →
          ((s.inodes i).direct_blocks j).toNat ≠ b) →
        (simplefs_delete cfg s filename).datablock_freelist b = s.datablock_freelist b)
    ∧ (simplefs_delete cfg s filename).data_blocks = s.data_blocks
    ∧ (simplefs_delete cfg s filename).file_handle_array = s.file_handle_array := by
  have hne : ¬ (find_inode_by_name cfg s filename = -1) := by omega
  obtain ⟨f1, f2, f3, f4⟩ :=
    delete_loop_frame s (simplefs_readInode s (i : Int)) cfg.MAX_FILE_SIZE
  obtain ⟨_, _, _, _, _, _, _, _, r9, r10⟩ :=
    rollback_loop_spec (fun j => decide ((s.inodes i).direct_blocks j ≠ -1)) s (s.inodes i)
      cfg.MAX_FILE_SIZE
  have hd : simplefs_delete cfg s filename
      = simplefs_freeInode (delete_loop s (s.inodes i) cfg.MAX_FILE_SIZE).1 (i : Int) := by
    unfold simplefs_delete
    dsimp only
    rw [if_neg hne, hfind]
    simp only [simplefs_readInode, Int.toNat_ofNat]
  simp only [simplefs_readInode, Int.toNat_ofNat] at f1 f2 f3 f4
  rw [hd]
  simp only [simplefs_freeInode, Int.toNat_ofNat, f1, f2, f3, f4]
  refine ⟨?_, fun k hk => ?_, ?_, fun k hk => ?_, fun j hj hjd => ?_, fun b hb => ?_, trivial, trivial⟩
  · rw [Function.update_same]
  · rw [Function.update_noteq hk]
  · rw [Function.update_same]
  · rw [Function.update_noteq hk]
  · rw [delete_loop_eq_rollback]
    exact r9 _ ⟨j, hj, decide_eq_true hjd, rfl⟩
  · rw [delete_loop_eq_rollback]
    exact r10 b (fun j hj hn => hb j hj (of_decide_eq_true hn))

/-- C13: in the scenario state after the 6-byte write, "a" resolves to inode 0,
whose two direct block references are assigned. After `simplefs_delete("a")`
inode 0 is free and both blocks are on the free list, and the handle table is
unchanged, but the stored record of inode 0 still holds both references: the
source resets them in its local copy only and never writes the copy back. -/
theorem C13_delete_keeps_stored_references :
    find_inode_by_name scenario_cfg scn3 "a".toList = 0
    ∧ (scn3.inodes 0).status = INODE_IN_USE
    ∧ (scn3.inodes 0).direct_blocks 0 ≠ -1
    ∧ (scn3.inodes 0).direct_blocks 1 ≠ -1
    ∧ ((simplefs_delete scenario_cfg scn3 "a".toList).inodes 0).status = INODE_FREE
    ∧ (simplefs_delete scenario_cfg scn3 "a".toList).inode_freelist 0 = true
    ∧ (simplefs_delete scenario_cfg scn3 "a".toList).datablock_freelist
        ((scn3.inodes 0).direct_blocks 0).toNat = true
    ∧ (simplefs_delete scenario_cfg scn3 "a".toList).datablock_freelist
        ((scn3.inodes 0).direct_blocks 1).toNat = true
    ∧ ((simplefs_delete scenario_cfg scn3 "a".toList).inodes 0).direct_blocks 0
      = (scn3.inodes 0).direct_blocks 0
    ∧ ((simplefs_delete scenario_cfg scn3 "a".toList).inodes 0).direct_blocks 1
      = (scn3.inodes 0).direct_blocks 1
    ∧ ((simplefs_delete scenario_cfg scn3 "a".toList).inodes 0).direct_blocks 0 ≠ -1
    ∧ ((simplefs_delete scenario_cfg scn3 "a".toList).inodes 0).direct_blocks 1 ≠ -1 := by
  refine ⟨by decide, by decide, by decide, by decide, by decide, by decide, by decide,
    by decide, by decide, by decide, by decide, by decide⟩

/-- C17 (as stated) fails: with a single inode, after the calls
`stale_handle_ops` on the fresh file system handle 0 is bound to the in-use
inode 0 with offset 6, and the file of inode 0 has size 0. -/
theorem C17_counterexample :
    run single_cfg simplefs_formatDisk stale_handle_ops = some stale_handle_state
    ∧ (stale_handle_state.file_handle_array 0).inode_number = 0
    ∧ (stale_handle_state.file_handle_array 0).offset = 6
    ∧ (stale_handle_state.inodes 0).status = INODE_IN_USE
    ∧ (simplefs_readInode stale_handle_state
        (stale_handle_state.file_handle_array 0).inode_number).file_size = 0
    ∧ ¬ handles_in_bounds single_cfg stale_handle_state :=
  ⟨getD_eq_some _ (by decide), by decide, by decide, by decide, by decide, by decide⟩

/-- C17 (amended): from a freshly formatted file system, every finite sequence
of the seven public operations in which `simplefs_delete` is never applied to
a file that a handle is bound to at that moment runs to a state in which every
bound handle has `0 ≤ offset ≤ file_size` of the inode it is bound to. -/
theorem C17_handle_offsets_reachable (cfg : Config) (hB : 0 < cfg.BLOCKSIZE) (ops : List Op)
    (hops : no_delete_of_open_file cfg simplefs_formatDisk ops = true) :
    ∃ s, run cfg simplefs_formatDisk ops = some s ∧ handles_in_bounds cfg s := by
  obtain ⟨s, hs, hg⟩ := run_good cfg hB ops simplefs_formatDisk (good_state_formatDisk cfg) hops
  refine ⟨s, hs, fun k hk hb => ?_⟩
  obtain ⟨_, _, _, a4, a5⟩ := hg.2.1 k hk hb
  exact ⟨a4, a5⟩

/-- C17 (amended) at a concrete input: the calls `tidy_ops`. -/
theorem C17_handle_offsets_reachable_witness :
    (0 < scenario_cfg.BLOCKSIZE)
    ∧ no_delete_of_open_file scenario_cfg simplefs_formatDisk tidy_ops = true
    ∧ ∃ s, run scenario_cfg simplefs_formatDisk tidy_ops = some s
        ∧ handles_in_bounds scenario_cfg s :=
  ⟨by decide, by decide,
    C17_handle_offsets_reachable scenario_cfg (by decide) tidy_ops (by decide)⟩

/-- `write_loop_exit` and `write_loop` leave the loop the same way: one runs out
of fuel exactly when the other does, and one reports the end of the loop
exactly when the other returns `true`. -/
theorem write_loop_exit_agrees (cfg : Config) (buf : List Char) (n : Int) :
    ∀ (fuel : Nat) (bytes_written current_offset : Int) (st : write_state),
      (write_loop_exit cfg buf n fuel bytes_written current_offset st).map
          (fun e => decide (e = write_exit.loop_end))
        = (write_loop cfg buf n fuel bytes_written current_offset st).map Prod.fst := by
  intro fuel
  induction fuel with
  | zero =>
    intro bw co st
    unfold write_loop_exit write_loop
    split <;> rfl
  | succ fuel ih =>
    intro bw co st
    unfold write_loop_exit write_loop
    dsimp only
    split
    · split
      · rfl
      · split
        · split
          · rfl
          · exact ih _ _ _
        · exact ih _ _ _
    · rfl

/-- When `offset + nbytes` is within the capacity, the loop of
`simplefs_write` is never left through the test
`block_index >= MAX_FILE_SIZE`. -/
theorem write_loop_exit_in_range (cfg : Config) (hB : 0 < cfg.BLOCKSIZE) (buf : List Char)
    (n : Int) (o : Nat)
    (hcap : (o : Int) + n ≤ (cfg.MAX_FILE_SIZE : Int) * cfg.BLOCKSIZE) :
    ∀ (fuel w c : Nat) (st : write_state), c = o + w → w ≤ n.toNat →
      write_loop_exit cfg buf n fuel (w : Int) (c : Int) st
        ≠ some write_exit.block_index_out_of_range := by
  intro fuel
  induction fuel with
  | zero =>
    intro w c st _ _
    unfold write_loop_exit
    split
    · exact fun h => Option.noConfusion h
    · exact fun h => write_exit.noConfusion (Option.some.inj h)
  | succ fuel ih =>
    intro w c st hc hwn
    unfold write_loop_exit
    by_cases hw : (w : Int) < n
    · have hm := chunk_le_rem cfg.BLOCKSIZE c (n.toNat - w)
      have hcast : ((cfg.MAX_FILE_SIZE * cfg.BLOCKSIZE : Nat) : Int)
          = (cfg.MAX_FILE_SIZE : Int) * (cfg.BLOCKSIZE : Int) := Nat.cast_mul _ _
      have hlt : c < cfg.MAX_FILE_SIZE * cfg.BLOCKSIZE := by omega
      have hq := (Nat.div_lt_iff_lt_mul hB).2 hlt
      have hq' : ¬ ((c / cfg.BLOCKSIZE : Nat) : Int) ≥ (cfg.MAX_FILE_SIZE : Int) := by omega
      simp only [hw, if_true, tdiv_natCast, tmod_natCast, bytes_to_copy_natCast cfg hB c w n hw,
        Int.toNat_ofNat, ← Nat.cast_add, hq', if_false]
      split
      · split
        · exact fun h => write_exit.noConfusion (Option.some.inj h)
        · exact ih _ _ _ (by omega) (by omega)
      · exact ih _ _ _ (by omega) (by omega)
    · simp only [hw, if_false]
      exact fun h => write_exit.noConfusion (Option.some.inj h)

/-- C19: let handle `h` be in range and bound to an inode that satisfies the
inode invariant, with `0 ≤ offset ≤ file_size`. Then for every buffer and
every byte count, positive or not, `simplefs_write` returns, and whether it
returns `0` or `-1` the record of that inode after the call again satisfies the
inode invariant; and when `offset + nbytes ≤ MAX_FILE_SIZE * BLOCKSIZE` the
loop is not left through the test `block_index >= MAX_FILE_SIZE`. -/
theorem C19_write_keeps_inode_invariant (cfg : Config) (hB : 0 < cfg.BLOCKSIZE) (s : FS)
    (file_handle : Int) (buf : List Char) (nbytes : Int)
    (_hrange : 0 ≤ file_handle ∧ file_handle < cfg.MAX_OPEN_FILES)
    (_hbound : (s.file_handle_array file_handle.toNat).inode_number ≠ -1)
    (hinv : inode_invariant cfg
      (simplefs_readInode s (s.file_handle_array file_handle.toNat).inode_number))
    (hoff : 0 ≤ (s.file_handle_array file_handle.toNat).offset
      ∧ (s.file_handle_array file_handle.toNat).offset
        ≤ (simplefs_readInode s (s.file_handle_array file_handle.toNat).inode_number).file_size) :
    (∃ ret s', simplefs_write cfg s file_handle buf nbytes = some (ret, s'))
    ∧ (∀ ret s', simplefs_write cfg s file_handle buf nbytes = some (ret, s') →
        inode_invariant cfg
          (simplefs_readInode s' (s.file_handle_array file_handle.toNat).inode_number))
    ∧ ((s.file_handle_array file_handle.toNat).offset + nbytes
          ≤ (cfg.MAX_FILE_SIZE : Int) * cfg.BLOCKSIZE →
        write_loop_exit cfg buf nbytes nbytes.toNat 0
            (s.file_handle_array file_handle.toNat).offset
            { disk := s,
              inode := simplefs_readInode s
                (s.file_handle_array file_handle.toNat).inode_number,
              newly_allocated := fun _ => false }
          ≠ some write_exit.block_index_out_of_range) := by
  obtain ⟨r, hr⟩ := write_returns cfg hB s file_handle buf nbytes
  refine ⟨⟨r.1, r.2, hr⟩, fun ret s' hw => ?_, fun hcap => ?_⟩
  · by_cases hret : ret = 0
    · subst hret
      exact (write_success_invariant cfg hB s file_handle buf nbytes s' hinv hoff hw).1
    · have := write_fail_state cfg hB s file_handle buf nbytes ret s' hoff.1 hw hret
      rw [this]
      exact hinv
  · have h0 : (0 : Int) = ((0 : Nat) : Int) := rfl
    have ho : (s.file_handle_array file_handle.toNat).offset
        = (((s.file_handle_array file_handle.toNat).offset.toNat : Nat) : Int) := by omega
    have := write_loop_exit_in_range cfg hB buf nbytes
      (s.file_handle_array file_handle.toNat).offset.toNat (by omega) nbytes.toNat 0
      (s.file_handle_array file_handle.toNat).offset.toNat
      { disk := s,
        inode := simplefs_readInode s (s.file_handle_array file_handle.toNat).inode_number,
        newly_allocated := fun _ => false } rfl (Nat.zero_le _)
    rw [← h0, ← ho] at this
    exact this

/-- C19 at concrete inputs: the successful 6-byte write of the scenario, and
the failed 6-byte write with a single data block, which leaves the loop for
want of a block. -/
theorem C19_write_keeps_inode_invariant_witness :
    (0 < scenario_cfg.BLOCKSIZE)
    ∧ (0 ≤ (0 : Int) ∧ (0 : Int) < scenario_cfg.MAX_OPEN_FILES)
    ∧ (scn2.file_handle_array (0 : Int).toNat).inode_number ≠ -1
    ∧ inode_invariant scenario_cfg
        (simplefs_readInode scn2 (scn2.file_handle_array (0 : Int).toNat).inode_number)
    ∧ (0 ≤ (scn2.file_handle_array (0 : Int).toNat).offset
      ∧ (scn2.file_handle_array (0 : Int).toNat).offset
        ≤ (simplefs_readInode scn2
            (scn2.file_handle_array (0 : Int).toNat).inode_number).file_size)
    ∧ simplefs_write scenario_cfg scn2 0 "abcdef".toList 6 = some (0, scn3)
    ∧ inode_invariant scenario_cfg
        (simplefs_readInode scn3 (scn2.file_handle_array (0 : Int).toNat).inode_number)
    ∧ write_loop_exit tight_cfg "abcdef".toList 6 (6 : Int).toNat 0
          (tight1.file_handle_array (0 : Int).toNat).offset
          { disk := tight1,
            inode := simplefs_readInode tight1
              (tight1.file_handle_array (0 : Int).toNat).inode_number,
            newly_allocated := fun _ => false }
        = some write_exit.no_free_block :=
  ⟨by decide, by decide, by decide, by decide, by decide, state_of_eq scn2 (by decide),
    (C19_write_keeps_inode_invariant scenario_cfg (by decide) scn2 0 "abcdef".toList 6
      (by decide) (by decide) (by decide) (by decide)).2.1 0 scn3 (state_of_eq scn2 (by decide)),
    by decide⟩

end SimpleFS
